import Mathlib

/-!
# ETW frame tracing (OculusSDK / LibOVRKernel / Tracing)

A shallow embedding of the event deserialiser (`EtwFrameEventData.cpp`), of the listener
ring buffer (`EtwFrameListener.cpp`) and of the searches, the VSync partitioner and the
stabilization callback (`EtwFrameUtils.cpp`), followed by theorems about them.

Conventions of the embedding.

* `int32_t` cursors and counters of the listener are natural numbers: they start at 0 and
  are only incremented or reduced modulo the buffer size; signed overflow is undefined in
  C++, so the model describes the executions in which the counters stay in range.
* `double` time stamps are rationals; rounding is not modelled.
* Byte buffers are lists of naturals (one entry per byte).
* The mutexes are not modelled: every operation is one atomic step, which is what the
  locks give when no write is concurrent with a drain.
* The user callback of `HandleEvents` is recorded as an effect in a trace, in program
  order with the errors pushed by the same call; the window callback and the `printf`
  diagnostics of the partitioner are recorded in the same way.
* A search that reads beyond the array it was given has no defined value in C++; the
  model reports it as `FindResult.outOfBounds` and stops there.
* What the operating system returns during start-up (`StartTraceW`,
  `TdhEnumerateProviders`, `realloc`, `EnableTraceEx2`, `OpenTraceW`) is a parameter, and
  so is the decoding of eight bytes into a `double`.
* Loops and recursions that the source does not bound carry fuel and return `none` when
  it runs out; the theorems show that the fuel given is enough.
-/

namespace OVR.Etw

/-! ## Events -/

/-- The `enum class EtwProviders`. -/
inductive EtwProviders where
  | Sdk
  | Unknown
  deriving DecidableEq, Repr

/-- The Windows `GUID` of a provider, as one number. -/
abbrev GUID := Nat

/-- The struct `EtwEvent`. `UserData` is the array `uint8_t UserData[MaxUserDataSize]`. -/
structure EtwEvent where
  UserData : List Nat
  UserDataSize : Int
  ProviderId : EtwProviders
  EventId : Int
  EventTime : ℚ
  deriving DecidableEq

/-- The constant `EtwEvent::MaxUserDataSize`. -/
abbrev EtwEvent.MaxUserDataSize : Nat := 96

/-- The constructor `EtwEvent::EtwEvent()`, named `ctor` since the type has the name. It
leaves `UserData` uninitialised; the model fills it with zeros, and no theorem below
depends on those bytes. -/
def EtwEvent.ctor : EtwEvent :=
  { UserData := List.replicate EtwEvent.MaxUserDataSize 0
    UserDataSize := 0
    ProviderId := EtwProviders.Unknown
    EventId := 0
    EventTime := 0 }

/-- The method `EtwEvent::IsValid`. -/
def EtwEvent.IsValid (e : EtwEvent) : Bool :=
  e.ProviderId != EtwProviders.Unknown

/-! ## The raw record and the constants of the generated headers -/

/-- The fields of the Windows `EVENT_RECORD` that the tracing code reads:
`EventHeader.Flags`, `EventHeader.ProviderId`, `EventHeader.EventDescriptor.Id`,
`EventHeader.EventDescriptor.Version`, `EventHeader.TimeStamp.QuadPart` and the payload
`UserData`, whose length is `UserDataLength`. -/
structure EVENT_RECORD where
  Flags : Nat
  ProviderId : GUID
  Id : Nat
  Version : Nat
  TimeStamp : Int
  UserData : List Nat
  deriving DecidableEq

/-- The field `UserDataLength` of a record: the number of payload bytes. -/
def EVENT_RECORD.UserDataLength (p : EVENT_RECORD) : Nat :=
  p.UserData.length

/-- The Windows constant `EVENT_HEADER_FLAG_CLASSIC_HEADER` (evntcons.h). -/
abbrev EVENT_HEADER_FLAG_CLASSIC_HEADER : Nat := 0x0100

/-- The constants that `Tracing/Tracing.h` and the generated `LibOVREvents.h` provide: the
provider GUID and the event identifiers. The headers are not part of the sources at hand,
so the values are parameters of the model. -/
structure LibOVREvents where
  LibOVRProvider : GUID
  DistortionBegin_value : Nat
  DistortionEnd_value : Nat
  PoseLatchCPUWrite_value : Nat
  PoseLatchGPULatchReadback_value : Nat
  VSync_value : Nat
  AppCompositorFocus_value : Nat
  AppConnect_value : Nat
  AppDisconnect_value : Nat
  AppNoOp_value : Nat
  LatencyTiming_value : Nat
  EndFrameAppTiming_value : Nat

/-- The function `etwLookupProviderId`. -/
def etwLookupProviderId (M : LibOVREvents) (provider : GUID) : EtwProviders :=
  if provider = M.LibOVRProvider then EtwProviders.Sdk else EtwProviders.Unknown

/-! ## The registry and `Deserialize` -/

/-- The struct `EtwEventKey`. Two keys are equivalent under its `operator<` exactly when
they are equal. -/
structure EtwEventKey where
  Provider : EtwProviders
  Id : Nat
  deriving DecidableEq

/-- The struct `EtwEventDataConv::EtwStructInfo`. -/
structure EtwStructInfo where
  StructSize : Nat
  Version : Int
  deriving DecidableEq

/-- The class `EtwEventDataConv`. `EventToDeserializeMap` is the `std::map`, kept as an
association list with at most one entry per key. -/
structure EtwEventDataConv where
  PerfFrequency : Nat
  PerfFrequencyInverse : ℚ
  EventToDeserializeMap : List (EtwEventKey × EtwStructInfo)

/-- The call `EventToDeserializeMap.find(key)`; `none` stands for `end()`. -/
def EtwEventDataConv.find (conv : EtwEventDataConv) (key : EtwEventKey) :
    Option EtwStructInfo :=
  (conv.EventToDeserializeMap.find? (fun kv => kv.1 = key)).map Prod.snd

/-- The method `EtwEventDataConv::registerStruct`. `std::map::insert` keeps the entry that
is already there when the key is present. -/
def EtwEventDataConv.registerStruct (conv : EtwEventDataConv) (provider : EtwProviders)
    (eventId : Nat) (structSize : Nat) (version : Int) : EtwEventDataConv :=
  match conv.find ⟨provider, eventId⟩ with
  | some _ => conv
  | none =>
    { conv with
      EventToDeserializeMap :=
        conv.EventToDeserializeMap ++ [(⟨provider, eventId⟩, ⟨structSize, version⟩)] }

/-- The constructor `EtwEventDataConv::EtwEventDataConv()`, named `ctor`. Each `RegisterStruct<T>` passes
`T::Provider`, `T::EventId`, `sizeof(T)` (the structs are packed) and `T::Version`.
`freq` is what `QueryPerformanceFrequency` reports. -/
def EtwEventDataConv.ctor (M : LibOVREvents) (freq : Nat) : EtwEventDataConv :=
  let c0 : EtwEventDataConv :=
    { PerfFrequency := 0, PerfFrequencyInverse := 0, EventToDeserializeMap := [] }
  let c1 := c0.registerStruct EtwProviders.Sdk M.DistortionBegin_value 8 0
  let c2 := c1.registerStruct EtwProviders.Sdk M.DistortionEnd_value 8 0
  let c3 := c2.registerStruct EtwProviders.Sdk M.PoseLatchCPUWrite_value 84 0
  let c4 := c3.registerStruct EtwProviders.Sdk M.PoseLatchGPULatchReadback_value 28 0
  let c5 := c4.registerStruct EtwProviders.Sdk M.VSync_value 20 0
  let c6 := c5.registerStruct EtwProviders.Sdk M.AppCompositorFocus_value 8 0
  let c7 := c6.registerStruct EtwProviders.Sdk M.AppConnect_value 8 0
  let c8 := c7.registerStruct EtwProviders.Sdk M.AppDisconnect_value 8 0
  let c9 := c8.registerStruct EtwProviders.Sdk M.AppNoOp_value 8 0
  let c10 := c9.registerStruct EtwProviders.Sdk M.LatencyTiming_value 72 0
  let c11 := c10.registerStruct EtwProviders.Sdk M.EndFrameAppTiming_value 60 0
  { c11 with PerfFrequency := freq, PerfFrequencyInverse := 1 / (freq : ℚ) }

/-- What a call of `Deserialize` leaves behind: the returned flag, the in-out argument
`buffer`, and the messages handed to `LogError`. -/
structure DeserializeResult where
  ok : Bool
  buffer : EtwEvent
  log : List String

/-- The method `EtwEventDataConv::Deserialize`. -/
def EtwEventDataConv.Deserialize (M : LibOVREvents) (conv : EtwEventDataConv)
    (event : EVENT_RECORD) (buffer : EtwEvent) : DeserializeResult :=
  let provider := etwLookupProviderId M event.ProviderId
  let eventId := event.Id
  match conv.find ⟨provider, eventId⟩ with
  | none => { ok := false, buffer := buffer, log := [] }
  | some deserializeInfo =>
    let buffer := { buffer with ProviderId := provider, EventId := (eventId : Int) }
    if deserializeInfo.Version ≠ (event.Version : Int) then
      { ok := false, buffer := buffer,
        log := ["[EtwEventDataConv] Mismatched deserialization structure version."] }
    else if deserializeInfo.StructSize ≠ event.UserDataLength then
      { ok := false, buffer := buffer,
        log := ["[EtwEventDataConv] Unable to deserialize event. Sizes don't match."] }
    else if deserializeInfo.StructSize > EtwEvent.MaxUserDataSize then
      { ok := false, buffer := buffer,
        log := ["[EtwEventDataConv] Increase EtwEvent::MaxUserDataSize"] }
    else
      let seconds : ℚ := (event.TimeStamp : ℚ) * conv.PerfFrequencyInverse
      let buffer := { buffer with EventTime := seconds }
      let buffer := { buffer with UserDataSize := (event.UserDataLength : Int) }
      let n := buffer.UserDataSize.toNat
      let buffer :=
        { buffer with UserData := event.UserData.take n ++ buffer.UserData.drop n }
      { ok := true, buffer := buffer, log := [] }

/-! ## The listener -/

/-- The `enum EtwListenerErrorCode`, by value. -/
abbrev EtwListenerErrorCode := Int

/-- The enumerator `ovrError_EtwListenerInitialize`. -/
abbrev ovrError_EtwListenerInitialize : EtwListenerErrorCode := -91001

/-- The enumerator `ovrError_EtwListenerRuntime`. -/
abbrev ovrError_EtwListenerRuntime : EtwListenerErrorCode := -91002

/-- The enumerator `ovrError_EtwListenerLostEvents`. -/
abbrev ovrError_EtwListenerLostEvents : EtwListenerErrorCode := -91003

/-- The struct `EtwListenerError`. -/
structure EtwListenerError where
  code : EtwListenerErrorCode
  desc : String
  deriving DecidableEq

/-- The data members of the class `EtwFrameListener` that the buffer, signalling and error
code touches. `StoredEvents` is the array of `NumStoredEvents` slots, read and written at
indices below `NumStoredEvents` only. -/
structure EtwFrameListener where
  StoredEvents : Nat → EtwEvent
  StoredEventIndex : Nat
  UnprocessedEventsIndex : Nat
  EventsSinceLastSignal : Nat
  NumLostEvents : Nat
  WorkPending : Bool
  NumEventsOnSignal : Int
  Errors : List EtwListenerError
  EtwDataConv : EtwEventDataConv

namespace EtwFrameListener

/-- The constant `EtwFrameListener::NumStoredEvents`. -/
abbrev NumStoredEvents : Nat := 1900

/-- The constant `EtwFrameListener::NumStackEvents`. -/
abbrev NumStackEvents : Nat := 192

/-- The constructor `EtwFrameListener::EtwFrameListener`, named `ctor`. `startupErrors` are the errors
that `startRealtimeTracing()` pushed, `workPending` is the initial content of the
`WorkPending` flag (the constructor does not set it), and `freq` the performance counter
frequency read by the converter. -/
def ctor (M : LibOVREvents) (freq : Nat) (signalMessages : Int)
    (startupErrors : List EtwListenerError) (workPending : Bool) : EtwFrameListener :=
  { StoredEvents := fun _ => EtwEvent.ctor
    StoredEventIndex := 0
    UnprocessedEventsIndex := 0
    EventsSinceLastSignal := 0
    NumLostEvents := 0
    WorkPending := workPending
    NumEventsOnSignal := signalMessages
    Errors := startupErrors
    EtwDataConv := EtwEventDataConv.ctor M freq }

/-- The method `EtwFrameListener::pushError` (both two-argument forms append one error). -/
def pushError (l : EtwFrameListener) (error : EtwListenerError) : EtwFrameListener :=
  { l with Errors := l.Errors ++ [error] }

/-- The method `EtwFrameListener::HasErrors`. -/
def HasErrors (l : EtwFrameListener) : Bool :=
  decide (l.Errors.length > 0)

/-- The method `EtwFrameListener::GetAndClearErrors`: the returned vector and the listener
afterwards. -/
def GetAndClearErrors (l : EtwFrameListener) : List EtwListenerError × EtwFrameListener :=
  let result := l.Errors
  (result, { l with Errors := [] })

/-- The method `EtwFrameListener::SignalWork` (the wake-up of a waiter is not modelled). -/
def SignalWork (l : EtwFrameListener) : EtwFrameListener :=
  { l with WorkPending := true }

/-- The body of the `if` in `ProcessEvent` (lines 165 to 187): store one deserialised
event. -/
def storeEvent (ctx : EtwFrameListener) (event : EtwEvent) : EtwFrameListener :=
  let index := ctx.StoredEventIndex
  let ctx := { ctx with StoredEvents := Function.update ctx.StoredEvents index event }
  let nextIndex := (ctx.StoredEventIndex + 1) % NumStoredEvents
  let ctx :=
    if nextIndex = ctx.UnprocessedEventsIndex then
      { ctx with
        NumLostEvents := ctx.NumLostEvents + 1
        UnprocessedEventsIndex := (ctx.UnprocessedEventsIndex + 1) % NumStoredEvents }
    else ctx
  let ctx := { ctx with StoredEventIndex := nextIndex }
  let ctx := { ctx with EventsSinceLastSignal := ctx.EventsSinceLastSignal + 1 }
  if (ctx.EventsSinceLastSignal : Int) > ctx.NumEventsOnSignal then ctx.SignalWork else ctx

/-- The callback `EtwFrameListener::ProcessEvent`; `ctx` is the listener found in
`p->UserContext`. -/
def ProcessEvent (M : LibOVREvents) (ctx : EtwFrameListener) (p : EVENT_RECORD) :
    EtwFrameListener :=
  if p.Flags &&& EVENT_HEADER_FLAG_CLASSIC_HEADER ≠ 0 then ctx
  else
    let r := ctx.EtwDataConv.Deserialize M p EtwEvent.ctor
    if r.ok then storeEvent ctx r.buffer else ctx

/-- What `HandleEvents` does that can be seen from outside, in program order. -/
inductive HandlerEffect where
  | pushError (error : EtwListenerError)
  | eventHandler (bufferedEventSet : List EtwEvent)
  deriving DecidableEq

/-- The inner `for` loop of `HandleEvents` (lines 57 to 66), started at cursor `i` with
room for `room = NumStackEvents - numEvents` more pointers: the events gathered and the
value of `i` when the loop is left. -/
def gatherEvents (StoredEvents : Nat → EtwEvent) (StoredEventIndex : Nat) :
    Nat → Nat → List EtwEvent × Nat
  | 0, i => ([], i)
  | room + 1, i =>
    if i = StoredEventIndex then ([], i)
    else
      let r := gatherEvents StoredEvents StoredEventIndex room ((i + 1) % NumStoredEvents)
      (StoredEvents i :: r.1, r.2)

/-- One pass through the body of the `while` loop of `HandleEvents` (lines 53 to 85): the
listener afterwards, the value of the local `i`, and the effects in order. -/
def HandleEventsBody (l : EtwFrameListener) :
    EtwFrameListener × Nat × List HandlerEffect :=
  let r := gatherEvents l.StoredEvents l.StoredEventIndex NumStackEvents
    l.UnprocessedEventsIndex
  let i := r.2
  let l := { l with UnprocessedEventsIndex := i }
  if l.NumLostEvents > 0 then
    let error : EtwListenerError :=
      ⟨ovrError_EtwListenerLostEvents, "Lost " ++ toString l.NumLostEvents ++ " Events"⟩
    let l := l.pushError error
    let l := { l with NumLostEvents := 0 }
    (l, i, [HandlerEffect.pushError error, HandlerEffect.eventHandler r.1])
  else
    (l, i, [HandlerEffect.eventHandler r.1])

/-- The `while (i != StoredEventIndex)` loop of `HandleEvents`, run for at most `fuel`
passes; `none` when the loop has not ended by then. -/
def HandleEventsLoop : Nat → Nat → EtwFrameListener →
    Option (EtwFrameListener × List HandlerEffect)
  | fuel, i, l =>
    if i = l.StoredEventIndex then some (l, [])
    else
      match fuel with
      | 0 => none
      | fuel + 1 =>
        let b := HandleEventsBody l
        match HandleEventsLoop fuel b.2.1 b.1 with
        | none => none
        | some (l', effects) => some (l', b.2.2 ++ effects)

/-- The method `EtwFrameListener::HandleEvents`: the listener on return and the trace of
effects; `none` when the loop does not end. Every pass moves the unread cursor forward
unless an index is out of range, so `NumStoredEvents` passes are more than the loop can
take when it ends at all. -/
def HandleEvents (l : EtwFrameListener) : Option (EtwFrameListener × List HandlerEffect) :=
  HandleEventsLoop NumStoredEvents l.UnprocessedEventsIndex l

/-! ## Vocabulary of the statements -/

/-- Both cursors are indices of the array. -/
def Valid (l : EtwFrameListener) : Prop :=
  l.StoredEventIndex < NumStoredEvents ∧ l.UnprocessedEventsIndex < NumStoredEvents

/-- The number of unread events: the distance from the unread cursor forward to the write
cursor, around the ring. -/
def unread (l : EtwFrameListener) : Nat :=
  (l.StoredEventIndex + NumStoredEvents - l.UnprocessedEventsIndex) % NumStoredEvents

/-- The events in the `n` slots `i`, `i + 1`, ... (mod `NumStoredEvents`), in that order. -/
def slots (StoredEvents : Nat → EtwEvent) (i n : Nat) : List EtwEvent :=
  (List.range n).map (fun k => StoredEvents ((i + k) % NumStoredEvents))

/-- The unread events, oldest first. -/
def unreadEvents (l : EtwFrameListener) : List EtwEvent :=
  slots l.StoredEvents l.UnprocessedEventsIndex (unread l)

/-- The arguments of the successive handler invocations in a trace. -/
def handlerCalls : List HandlerEffect → List (List EtwEvent)
  | [] => []
  | HandlerEffect.pushError _ :: rest => handlerCalls rest
  | HandlerEffect.eventHandler es :: rest => es :: handlerCalls rest

/-- The errors pushed in a trace, in order. -/
def pushedErrors : List HandlerEffect → List EtwListenerError
  | [] => []
  | HandlerEffect.pushError e :: rest => e :: pushedErrors rest
  | HandlerEffect.eventHandler _ :: rest => pushedErrors rest

/-- The error that `HandleEvents` pushes for `n` lost events. -/
def lostEventsError (n : Nat) : EtwListenerError :=
  ⟨ovrError_EtwListenerLostEvents, "Lost " ++ toString n ++ " Events"⟩

/-- The handler arguments expected when `u` unread events are drained from cursor `i`:
invocation `j` gets the slots from `i + NumStackEvents * j` on, `NumStackEvents` of them
or what is left. -/
def batches (StoredEvents : Nat → EtwEvent) (i u : Nat) : List (List EtwEvent) :=
  (List.range ((u + (NumStackEvents - 1)) / NumStackEvents)).map
    (fun j => slots StoredEvents ((i + NumStackEvents * j) % NumStoredEvents)
      (min NumStackEvents (u - NumStackEvents * j)))

/-- The listener expected after a drain. -/
def drained (l : EtwFrameListener) : EtwFrameListener :=
  if l.UnprocessedEventsIndex = l.StoredEventIndex then l
  else
    { l with
      UnprocessedEventsIndex := l.StoredEventIndex
      NumLostEvents := 0
      Errors :=
        if l.NumLostEvents > 0 then l.Errors ++ [lostEventsError l.NumLostEvents]
        else l.Errors }

/-- The trace expected of a drain. -/
def drainEffects (l : EtwFrameListener) : List HandlerEffect :=
  (if l.UnprocessedEventsIndex ≠ l.StoredEventIndex ∧ l.NumLostEvents > 0 then
      [HandlerEffect.pushError (lostEventsError l.NumLostEvents)]
    else []) ++
    (batches l.StoredEvents l.UnprocessedEventsIndex (unread l)).map
      HandlerEffect.eventHandler

/-- A record that `ProcessEvent` accepts: no classic header, and `Deserialize` returns
true. -/
def accepted (M : LibOVREvents) (conv : EtwEventDataConv) (p : EVENT_RECORD) : Prop :=
  p.Flags &&& EVENT_HEADER_FLAG_CLASSIC_HEADER = 0 ∧
    (conv.Deserialize M p EtwEvent.ctor).ok = true

/-- The event that `ProcessEvent` stores for a record. -/
def deserialized (M : LibOVREvents) (conv : EtwEventDataConv) (p : EVENT_RECORD) :
    EtwEvent :=
  (conv.Deserialize M p EtwEvent.ctor).buffer

/-- The events stored one after the other, first to last. -/
def storeEvents (l : EtwFrameListener) (es : List EtwEvent) : EtwFrameListener :=
  es.foldl storeEvent l

/-- The callback `ProcessEvent` run on a sequence of records, first to last. -/
def ProcessEvents (M : LibOVREvents) (l : EtwFrameListener) (ps : List EVENT_RECORD) :
    EtwFrameListener :=
  ps.foldl (ProcessEvent M) l

/-- Sample values for the constants of the generated headers, used in the closed
examples. -/
def sampleEvents : LibOVREvents :=
  { LibOVRProvider := 0x553787FC
    DistortionBegin_value := 1
    DistortionEnd_value := 2
    PoseLatchCPUWrite_value := 3
    PoseLatchGPULatchReadback_value := 4
    VSync_value := 5
    AppCompositorFocus_value := 6
    AppConnect_value := 7
    AppDisconnect_value := 8
    AppNoOp_value := 9
    LatencyTiming_value := 10
    EndFrameAppTiming_value := 11 }

/-- A sample raw record: a VSync event of the SDK provider with a payload of 20 zero
bytes, stamped `t`. -/
def sampleRecord (t : Int) : EVENT_RECORD :=
  { Flags := 0
    ProviderId := 0x553787FC
    Id := 5
    Version := 0
    TimeStamp := t
    UserData := List.replicate 20 0 }

/-- A freshly constructed listener for the sample constants: threshold 50, no start-up
error. -/
def sampleListener : EtwFrameListener :=
  EtwFrameListener.ctor sampleEvents 10000000 50 [] false

/-- A sample record that is registered and has the wrong version: the VSync record with
version 1, where the registry has version 0. -/
def sampleMismatch : EVENT_RECORD :=
  { Flags := 0
    ProviderId := 0x553787FC
    Id := 5
    Version := 1
    TimeStamp := 0
    UserData := List.replicate 20 0 }

/-- The sample records stamped `0`, `1`, ..., `n - 1`, in that order. -/
def sampleRecords (n : Nat) : List EVENT_RECORD :=
  (List.range n).map (fun (t : Nat) => sampleRecord (t : Int))

/-- The sample listener after the first `n` sample records were written, no drain. -/
def sampleWritten (n : Nat) : EtwFrameListener :=
  ProcessEvents sampleEvents sampleListener (sampleRecords n)

/-- The listener states that the constructor, `ProcessEvent` and completed `HandleEvents`
calls produce. -/
inductive Reachable (M : LibOVREvents) : EtwFrameListener → Prop where
  | ctor (freq : Nat) (signalMessages : Int) (startupErrors : List EtwListenerError)
      (workPending : Bool) :
      Reachable M (EtwFrameListener.ctor M freq signalMessages startupErrors workPending)
  | ProcessEvent {l : EtwFrameListener} (p : EVENT_RECORD) :
      Reachable M l → Reachable M (EtwFrameListener.ProcessEvent M l p)
  | HandleEvents {l l' : EtwFrameListener} {effects : List HandlerEffect} :
      Reachable M l → EtwFrameListener.HandleEvents l = some (l', effects) → Reachable M l'

end EtwFrameListener

/-! ## Searching events by time (`EtwFrameUtils.cpp`) -/

/-- What a search returns: the null pointer, a pointer to `events[index]` of the array that
was passed in, or no value at all because the search read beyond that array. -/
inductive FindResult where
  | nullptr
  | element (index : Nat)
  | outOfBounds
  deriving DecidableEq, Repr

/-- The function `etwFindExactEvent` on the sub-array `&events[lo]` of `numEvents` entries,
where `events` is the array the outermost caller passed. `fuel` bounds the recursion depth;
`none` when it is used up. -/
def etwFindExactEventAux (time : ℚ) (events : List EtwEvent) :
    Nat → Nat → Nat → Option FindResult
  | fuel, lo, numEvents =>
    if numEvents = 0 then some FindResult.nullptr
    else if numEvents = 1 then
      match events[lo]? with
      | none => some FindResult.outOfBounds
      | some e0 =>
        if e0.EventTime = time then some (FindResult.element lo) else some FindResult.nullptr
    else
      match fuel with
      | 0 => none
      | fuel + 1 =>
        let index := numEvents / 2
        match events[lo + index]? with
        | none => some FindResult.outOfBounds
        | some e =>
          if e.EventTime = time then some (FindResult.element (lo + index))
          else if time < e.EventTime then etwFindExactEventAux time events fuel lo index
          else etwFindExactEventAux time events fuel (lo + (index + 1)) (numEvents - index)

/-- The function `etwFindExactEvent(time, events, numEvents)` called on a whole array
(`numEvents` is its length; every recursive call has a smaller count, so this fuel is
never used up). -/
def etwFindExactEvent (time : ℚ) (events : List EtwEvent) : Option FindResult :=
  etwFindExactEventAux time events events.length 0 events.length

/-- The function `etwFindLeftEvent` on the sub-array `&events[lo]` of `numEvents` entries. -/
def etwFindLeftEventAux (time : ℚ) (events : List EtwEvent) :
    Nat → Nat → Nat → Option FindResult
  | fuel, lo, numEvents =>
    if numEvents = 0 then some FindResult.nullptr
    else if numEvents = 1 then some (FindResult.element lo)
    else if numEvents = 2 then
      match events[lo + 1]? with
      | none => some FindResult.outOfBounds
      | some e1 =>
        if e1.EventTime ≤ time then some (FindResult.element (lo + 1))
        else some (FindResult.element lo)
    else
      match fuel with
      | 0 => none
      | fuel + 1 =>
        let index := numEvents / 2
        match events[lo + index]? with
        | none => some FindResult.outOfBounds
        | some e =>
          if e.EventTime = time then some (FindResult.element (lo + index))
          else if time < e.EventTime then etwFindLeftEventAux time events fuel lo (index + 1)
          else etwFindLeftEventAux time events fuel (lo + index) ((numEvents - index) + 1)

/-- The function `etwFindLeftEvent(time, events, numEvents)` called on a whole array. Each
recursive call either has a smaller count or starts further right, and a read beyond the
array ends the search, so twice the length is enough fuel. -/
def etwFindLeftEvent (time : ℚ) (events : List EtwEvent) : Option FindResult :=
  etwFindLeftEventAux time events (2 * events.length) 0 events.length

/-! ## The VSync partitioner (`EtwFrameUtils.cpp`) -/

/-- The conversion of an integer to `int32_t` (two's complement wrap-around). -/
def toInt32 (x : Int) : Int :=
  (x + 2147483648) % 4294967296 - 2147483648

/-- The conversion of an integer to `uint32_t`. -/
def toUInt32 (x : Int) : Nat :=
  (x % 4294967296).toNat

/-- The payload struct `EtwData_VSync` (packed: a double, a `uint32_t`, a double). -/
structure EtwData_VSync where
  VSyncTime : ℚ
  FrameIndex : Nat
  TwGpuEndTime : ℚ
  deriving DecidableEq

/-- A little-endian `uint32_t` read from four bytes. -/
def readUInt32 (bytes : List Nat) : Nat :=
  (bytes.getD 0 0 % 256 + 256 * (bytes.getD 1 0 % 256) + 65536 * (bytes.getD 2 0 % 256) +
    16777216 * (bytes.getD 3 0 % 256)) % 4294967296

/-- The cast `reinterpret_cast<const EtwData_VSync*>(event->UserData)`, read field by
field. How eight bytes make a `double` is not modelled: `readDouble` is a parameter. -/
def etwGetVSyncData (readDouble : List Nat → ℚ) (event : EtwEvent) : EtwData_VSync :=
  { VSyncTime := readDouble (event.UserData.take 8)
    FrameIndex := readUInt32 ((event.UserData.drop 8).take 4)
    TwGpuEndTime := readDouble ((event.UserData.drop 12).take 8) }

/-- The struct `VSyncEventPartitioner::VSyncPair`; `frameIndex` is an `int64_t`. -/
structure VSyncPair where
  vsyncBegin : ℚ
  vsyncEnd : ℚ
  frameIndex : Int
  deriving DecidableEq

/-- The default constructor `VSyncPair()`. -/
def VSyncPair.ctor : VSyncPair :=
  { vsyncBegin := 0, vsyncEnd := 0, frameIndex := -1 }

/-- The method `VSyncPair::isValid`. -/
def VSyncPair.isValid (pair : VSyncPair) : Bool :=
  pair.frameIndex != -1

/-- The arguments of one call of a `VSyncProcessCallback`; `numEventsTotal` is the length
of `bufferedEventSet`. -/
structure VSyncWindow where
  v0 : ℚ
  v1 : ℚ
  v2 : ℚ
  v3 : ℚ
  ft : Nat
  fn : Nat
  bufferedEventSet : List EtwEvent
  deriving DecidableEq

/-- What the partitioner does that can be seen from outside, in program order: the two
`printf` diagnostics and the window callback. -/
inductive PartitionerEffect where
  | printfSkipped (frames : Int)
  | printfIncreaseSize
  | callback (window : VSyncWindow)
  deriving DecidableEq

/-- The data members of the class `VSyncEventPartitioner`. `StoredEvents` has
`NumStoredEvents` slots and `StoredVSyncPairs` has `VSyncPairsToAnalyze` slots. -/
structure VSyncEventPartitioner where
  StoredEvents : Nat → EtwEvent
  StoredEventIndex : Nat
  StoredVSyncPairs : Nat → VSyncPair
  StoredVSyncPairIndex : Nat
  LastAnalyzedFrameIndex : Int
  LastVSyncTime : ℚ

namespace VSyncEventPartitioner

/-- The constant `VSyncEventPartitioner::NumStoredEvents`. -/
abbrev NumStoredEvents : Nat := 1024 * 2

/-- The constant `VSyncEventPartitioner::VSyncPairsToAnalyze`. -/
abbrev VSyncPairsToAnalyze : Nat := 3

/-- The constructor `VSyncEventPartitioner::VSyncEventPartitioner()`, named `ctor`. The
arrays are default-constructed. -/
def ctor : VSyncEventPartitioner :=
  { StoredEvents := fun _ => EtwEvent.ctor
    StoredEventIndex := 0
    StoredVSyncPairs := fun _ => VSyncPair.ctor
    StoredVSyncPairIndex := 0
    LastAnalyzedFrameIndex := -1
    LastVSyncTime := 0 }

/-- The method `VSyncEventPartitioner::pushVSyncPair`: the loop over `i = 0, 1, 2` that
stores `toStore` in slot `i` and carries the former content on. -/
def pushVSyncPair (p : VSyncEventPartitioner) (pair : VSyncPair) : VSyncEventPartitioner :=
  let r := (List.range VSyncPairsToAnalyze).foldl
    (fun (st : (Nat → VSyncPair) × VSyncPair) (i : Nat) =>
      let save := st.1 i
      (Function.update st.1 i st.2, save))
    (p.StoredVSyncPairs, pair)
  { p with StoredVSyncPairs := r.1 }

/-- The loop of `numValidPairs` from slot `i` with `n` slots to go. -/
def numValidPairsLoop (p : VSyncEventPartitioner) : Nat → Nat → Nat
  | 0, _ => 0
  | n + 1, i =>
    if !(p.StoredVSyncPairs i).isValid then 0 else 1 + numValidPairsLoop p n (i + 1)

/-- The method `VSyncEventPartitioner::numValidPairs`. -/
def numValidPairs (p : VSyncEventPartitioner) : Nat :=
  numValidPairsLoop p VSyncPairsToAnalyze 0

/-- The loop of `getIndexOfFirstEvent` at cursor `i`, on the event ring and its write
index; `none` when `fuel` passes were not enough. -/
def getIndexOfFirstEventLoop (StoredEvents : Nat → EtwEvent) (StoredEventIndex : Nat) :
    Nat → Nat → Option Nat
  | fuel, i =>
    if i = StoredEventIndex then some StoredEventIndex
    else
      match fuel with
      | 0 => none
      | fuel + 1 =>
        if (StoredEvents i).IsValid then some i
        else
          getIndexOfFirstEventLoop StoredEvents StoredEventIndex fuel
            ((i + 1) % NumStoredEvents)

/-- The method `VSyncEventPartitioner::getIndexOfFirstEvent`. The loop visits every slot
but `StoredEventIndex` at most once when the index is in range, so `NumStoredEvents`
passes are enough then. -/
def getIndexOfFirstEvent (p : VSyncEventPartitioner) : Option Nat :=
  getIndexOfFirstEventLoop p.StoredEvents p.StoredEventIndex NumStoredEvents
    ((p.StoredEventIndex + 1) % NumStoredEvents)

/-- The loop of `buildEventList` at cursor `i` with `numEvents` pointers written: the
events written from here on, and whether the loop ended in the branch that prints
"Increase intermediate event list size". -/
def buildEventListLoop (StoredEvents : Nat → EtwEvent) (StoredEventIndex : Nat)
    (outSize : Nat) (begin_ end_ : ℚ) : Nat → Nat → Nat → Option (List EtwEvent × Bool)
  | fuel, i, numEvents =>
    if i = StoredEventIndex then some ([], false)
    else
      match fuel with
      | 0 => none
      | fuel + 1 =>
        let event := StoredEvents i
        if event.EventTime > begin_ ∧ event.EventTime ≤ end_ then
          if numEvents = outSize then some ([], true)
          else
            match buildEventListLoop StoredEvents StoredEventIndex outSize begin_ end_ fuel
              ((i + 1) % NumStoredEvents) (numEvents + 1) with
            | none => none
            | some r => some (event :: r.1, r.2)
        else if event.EventTime > end_ then some ([], false)
        else
          buildEventListLoop StoredEvents StoredEventIndex outSize begin_ end_ fuel
            ((i + 1) % NumStoredEvents) numEvents

/-- The method `VSyncEventPartitioner::buildEventList`: the events written to `out` (the
returned count is the length of the list) and whether the size diagnostic was printed. -/
def buildEventList (p : VSyncEventPartitioner) (outSize : Nat) (begin_ end_ : ℚ) :
    Option (List EtwEvent × Bool) :=
  match getIndexOfFirstEvent p with
  | none => none
  | some firstEventIndex =>
    if firstEventIndex = p.StoredEventIndex then some ([], false)
    else
      buildEventListLoop p.StoredEvents p.StoredEventIndex outSize begin_ end_
        NumStoredEvents firstEventIndex 0

/-- The method `VSyncEventPartitioner::handleVSync`; `frameIndex` is the `int` argument. -/
def handleVSync (p : VSyncEventPartitioner) (vsyncTime : ℚ) (frameIndex : Int) :
    Option (VSyncEventPartitioner × List PartitionerEffect) :=
  if p.LastVSyncTime = 0 then some ({ p with LastVSyncTime := vsyncTime }, [])
  else
    let pair : VSyncPair :=
      { vsyncBegin := p.LastVSyncTime, vsyncEnd := vsyncTime, frameIndex := frameIndex }
    let p := p.pushVSyncPair pair
    let MaxEventsSize := 2048
    if p.numValidPairs = VSyncPairsToAnalyze then
      let vnext := p.StoredVSyncPairs 0
      let vtarget := p.StoredVSyncPairs 1
      let vprev := p.StoredVSyncPairs 2
      let skipped : List PartitionerEffect :=
        if p.LastAnalyzedFrameIndex ≠ -1 ∧ vtarget.frameIndex - p.LastAnalyzedFrameIndex > 1
        then [PartitionerEffect.printfSkipped (vtarget.frameIndex - p.LastAnalyzedFrameIndex)]
        else []
      let p := { p with LastAnalyzedFrameIndex := toInt32 vtarget.frameIndex }
      match p.buildEventList MaxEventsSize vprev.vsyncBegin vnext.vsyncEnd with
      | none => none
      | some r =>
        let window : VSyncWindow :=
          { v0 := vprev.vsyncBegin
            v1 := vtarget.vsyncBegin
            v2 := vnext.vsyncBegin
            v3 := vnext.vsyncEnd
            ft := toUInt32 vtarget.frameIndex
            fn := toUInt32 vnext.frameIndex
            bufferedEventSet := r.1 }
        some ({ p with LastVSyncTime := vsyncTime },
          skipped ++ (if r.2 then [PartitionerEffect.printfIncreaseSize] else []) ++
            [PartitionerEffect.callback window])
    else some ({ p with LastVSyncTime := vsyncTime }, [])

/-- The test `event->ProviderId == EtwData_VSync::Provider && event->EventId ==
EtwData_VSync::EventId`. -/
def isVSync (M : LibOVREvents) (event : EtwEvent) : Bool :=
  decide (event.ProviderId = EtwProviders.Sdk ∧ event.EventId = (M.VSync_value : Int))

/-- The first two statements of the loop body of `HandleEvents` (lines 191 and 192): the
event is copied into the ring and the write index advances. -/
def storeEvent (p : VSyncEventPartitioner) (event : EtwEvent) : VSyncEventPartitioner :=
  let p := { p with StoredEvents := Function.update p.StoredEvents p.StoredEventIndex event }
  { p with StoredEventIndex := (p.StoredEventIndex + 1) % NumStoredEvents }

/-- One pass through the body of the `for` loop of `VSyncEventPartitioner::HandleEvents`
(the `OVR_ASSERT`s of debug builds are left out). -/
def handleEvent (M : LibOVREvents) (readDouble : List Nat → ℚ) (p : VSyncEventPartitioner)
    (event : EtwEvent) : Option (VSyncEventPartitioner × List PartitionerEffect) :=
  let p := p.storeEvent event
  if isVSync M event then
    let eventData := etwGetVSyncData readDouble event
    let vsyncTime := eventData.VSyncTime
    let frameIndex := toInt32 (eventData.FrameIndex : Int)
    p.handleVSync vsyncTime frameIndex
  else some (p, [])

/-- The method `VSyncEventPartitioner::HandleEvents(events, numEvents, eventHandler)`: the
partitioner afterwards and the effects in order, `none` when an inner loop does not end. -/
def HandleEvents (M : LibOVREvents) (readDouble : List Nat → ℚ) :
    VSyncEventPartitioner → List EtwEvent →
      Option (VSyncEventPartitioner × List PartitionerEffect)
  | p, [] => some (p, [])
  | p, event :: events =>
    match handleEvent M readDouble p event with
    | none => none
    | some r1 =>
      match HandleEvents M readDouble r1.1 events with
      | none => none
      | some r2 => some (r2.1, r1.2 ++ r2.2)

end VSyncEventPartitioner

/-! ## The stabilization callback (`EtwFrameUtils.cpp`) -/

/-- The three variables that `etwWaitForFrameStabilization` binds by reference into its
callback: `numFrames`, `numValidFrames` (both `int32_t`) and `lastFrameIndex`
(`uint32_t`). -/
structure FrameCounters where
  numFrames : Int
  numValidFrames : Int
  lastFrameIndex : Nat
  deriving DecidableEq

/-- The initial values of the counters in `etwWaitForFrameStabilization`. -/
def FrameCounters.initial : FrameCounters :=
  { numFrames := 0, numValidFrames := 0, lastFrameIndex := 0 }

/-- The function `handleVSyncEvents`; `lastFrameIndex + 1` is `uint32_t` arithmetic, and
`1.5` is the rational `3 / 2`. -/
def handleVSyncEvents (c : FrameCounters) (vsyncToVSync : ℚ) (w : VSyncWindow) :
    FrameCounters :=
  let c :=
    if (w.v2 - w.v1) > vsyncToVSync * (3 / 2) ∨
        w.ft ≠ (c.lastFrameIndex + 1) % 4294967296 then
      { c with numValidFrames := 0 }
    else c
  let c := { c with lastFrameIndex := w.ft }
  let c := { c with numValidFrames := c.numValidFrames + 1 }
  { c with numFrames := c.numFrames + 1 }

/-! ## Vocabulary of the statements on the partitioner -/

/-- The windows handed to the callback, in order. -/
def windowsOf : List PartitionerEffect → List VSyncWindow
  | [] => []
  | PartitionerEffect.callback w :: rest => w :: windowsOf rest
  | _ :: rest => windowsOf rest

/-- The payloads of the VSync-typed events of a stream, in order. -/
def vsyncsOf (M : LibOVREvents) (readDouble : List Nat → ℚ) (events : List EtwEvent) :
    List EtwData_VSync :=
  (events.filter (VSyncEventPartitioner.isVSync M)).map (etwGetVSyncData readDouble)

/-- A sequence of `VSyncEventPartitioner::HandleEvents` calls, one per batch, with the
effects of all of them in order. -/
def HandleEventsCalls (M : LibOVREvents) (readDouble : List Nat → ℚ) :
    VSyncEventPartitioner → List (List EtwEvent) →
      Option (VSyncEventPartitioner × List PartitionerEffect)
  | p, [] => some (p, [])
  | p, events :: calls =>
    match VSyncEventPartitioner.HandleEvents M readDouble p events with
    | none => none
    | some r1 =>
      match HandleEventsCalls M readDouble r1.1 calls with
      | none => none
      | some r2 => some (r2.1, r1.2 ++ r2.2)

/-- The time window of `buildEventList`: after `begin_`, up to and including `end_`. -/
def inWindow (begin_ end_ : ℚ) (event : EtwEvent) : Bool :=
  decide (begin_ < event.EventTime ∧ event.EventTime ≤ end_)

/-- The ring of a partitioner holds exactly the events `es`, in slots `0` to
`es.length - 1`, and nothing has been overwritten. -/
def Buffered (es : List EtwEvent) (p : VSyncEventPartitioner) : Prop :=
  p.StoredEventIndex = es.length ∧ es.length < VSyncEventPartitioner.NumStoredEvents ∧
    ∀ i, p.StoredEvents i = es.getD i EtwEvent.ctor

/-- The events are in non-decreasing `EventTime` order. -/
def Chronological (es : List EtwEvent) : Prop :=
  es.Pairwise (fun a b => a.EventTime ≤ b.EventTime)

/-- A VSync payload that `handleVSync` takes for what it is: the time is not the marker
0.0 and the frame index is a `uint32_t` other than `0xFFFFFFFF`. -/
def UsableVSync (x : EtwData_VSync) : Prop :=
  x.VSyncTime ≠ 0 ∧ x.FrameIndex < 4294967295

/-- The pair expected in slot `i` when the VSync payloads seen so far are `rv`, newest
first. -/
def pairAt (rv : List EtwData_VSync) (i : Nat) : VSyncPair :=
  match rv.drop i with
  | a :: b :: _ =>
    { vsyncBegin := b.VSyncTime, vsyncEnd := a.VSyncTime,
      frameIndex := toInt32 (a.FrameIndex : Int) }
  | _ => VSyncPair.ctor

/-- The pair ring and the last VSync time of a partitioner are the ones expected after the
VSync payloads `rv`, newest first. -/
def PairsOf (rv : List EtwData_VSync) (p : VSyncEventPartitioner) : Prop :=
  p.LastVSyncTime = (rv.head?.map EtwData_VSync.VSyncTime).getD 0 ∧
    ∀ i, i < 3 → p.StoredVSyncPairs i = pairAt rv i

/-- The window `w` has the times of the VSync payloads `j` to `j + 3` of `vs`, the frame
index of payload `j + 2` and the next frame index of payload `j + 3`. -/
def WindowAt (vs : List EtwData_VSync) (j : Nat) (w : VSyncWindow) : Prop :=
  ∃ x0 x1 x2 x3, vs[j]? = some x0 ∧ vs[j + 1]? = some x1 ∧ vs[j + 2]? = some x2 ∧
    vs[j + 3]? = some x3 ∧
    w.v0 = x0.VSyncTime ∧ w.v1 = x1.VSyncTime ∧ w.v2 = x2.VSyncTime ∧ w.v3 = x3.VSyncTime ∧
    w.ft = x2.FrameIndex ∧ w.fn = x3.FrameIndex

/-- The counters after the stabilization callback has seen the windows, first to last. -/
def analyseWindows (vsyncToVSync : ℚ) (c : FrameCounters) (ws : List VSyncWindow) :
    FrameCounters :=
  ws.foldl (fun c w => handleVSyncEvents c vsyncToVSync w) c

/-- A sample decoder of doubles for the closed examples: the first byte, as a number. -/
def sampleReadDouble (bytes : List Nat) : ℚ :=
  (bytes.getD 0 0 : ℚ)

/-- A sample VSync event for the sample constants: payload time `t` and frame index `f`
(both below 256), time stamp `t`. -/
def sampleVSync (t f : Nat) : EtwEvent :=
  { UserData := [t, 0, 0, 0, 0, 0, 0, 0, f, 0, 0, 0, 0, 0, 0, 0, 0, 0, 0, 0]
    UserDataSize := 20
    ProviderId := EtwProviders.Sdk
    EventId := 5
    EventTime := (t : ℚ) }

/-- A sample event that carries only a time stamp. -/
def sampleTimed (t : ℚ) : EtwEvent :=
  { EtwEvent.ctor with ProviderId := EtwProviders.Sdk, EventId := 1, EventTime := t }

/-- A sample record whose (provider, eventId) is not registered: event id 99. -/
def sampleUnregistered : EVENT_RECORD :=
  { Flags := 0
    ProviderId := 0x553787FC
    Id := 99
    Version := 0
    TimeStamp := 0
    UserData := List.replicate 20 0 }

/-- A sample stream of `n` VSync events (`n` at most 256): event `k` has payload time and
time stamp `k + 1` and frame index `k`. -/
def sampleStream (n : Nat) : List EtwEvent :=
  (List.range n).map (fun (k : Nat) => sampleVSync (k + 1) k)

/-! ## The right-hand search and the recursive calls of the searches (`EtwFrameUtils.cpp`) -/

/-- The function `etwFindRightEvent` on the sub-array `&events[lo]` of `numEvents`
entries. -/
def etwFindRightEventAux (time : ℚ) (events : List EtwEvent) :
    Nat → Nat → Nat → Option FindResult
  | fuel, lo, numEvents =>
    if numEvents = 0 then some FindResult.nullptr
    else if numEvents = 1 then some (FindResult.element lo)
    else if numEvents = 2 then
      match events[lo + 1]? with
      | none => some FindResult.outOfBounds
      | some e1 =>
        if e1.EventTime ≥ time then some (FindResult.element (lo + 1))
        else some (FindResult.element lo)
    else
      match fuel with
      | 0 => none
      | fuel + 1 =>
        let index := numEvents / 2
        match events[lo + index]? with
        | none => some FindResult.outOfBounds
        | some e =>
          if e.EventTime = time then some (FindResult.element (lo + index))
          else if time < e.EventTime then etwFindRightEventAux time events fuel lo (index + 1)
          else etwFindRightEventAux time events fuel (lo + index) ((numEvents - index) + 1)

/-- The function `etwFindRightEvent(time, events, numEvents)` called on a whole array. As
for the left-hand search, twice the length is enough fuel. -/
def etwFindRightEvent (time : ℚ) (events : List EtwEvent) : Option FindResult :=
  etwFindRightEventAux time events (2 * events.length) 0 events.length

/-- The recursive call that one activation of `etwFindLeftEvent` on `&events[lo]` with
count `numEvents` makes: the start and the count it passes, `none` when the activation
returns without a recursive call or reads beyond the array. -/
def etwFindLeftEventCall (time : ℚ) (events : List EtwEvent) (lo numEvents : Nat) :
    Option (Nat × Nat) :=
  if numEvents = 0 then none
  else if numEvents = 1 then none
  else if numEvents = 2 then none
  else
    let index := numEvents / 2
    match events[lo + index]? with
    | none => none
    | some e =>
      if e.EventTime = time then none
      else if time < e.EventTime then some (lo, index + 1)
      else some (lo + index, (numEvents - index) + 1)

/-- The recursive call that one activation of `etwFindRightEvent` makes, as for
`etwFindLeftEventCall`. -/
def etwFindRightEventCall (time : ℚ) (events : List EtwEvent) (lo numEvents : Nat) :
    Option (Nat × Nat) :=
  if numEvents = 0 then none
  else if numEvents = 1 then none
  else if numEvents = 2 then none
  else
    let index := numEvents / 2
    match events[lo + index]? with
    | none => none
    | some e =>
      if e.EventTime = time then none
      else if time < e.EventTime then some (lo, index + 1)
      else some (lo + index, (numEvents - index) + 1)

/-! ## The listener: waiting, start-up and sequences of calls (`EtwFrameListener.cpp`) -/

/-- The Windows status `ERROR_SUCCESS`. -/
def ERROR_SUCCESS : Nat := 0

/-- The Windows status `ERROR_ALREADY_EXISTS`. -/
def ERROR_ALREADY_EXISTS : Nat := 183

/-- The constant `EtwListenerError::ListenerNoError`. -/
def EtwListenerError.ListenerNoError : EtwListenerErrorCode := 0

/-- The default constructor `EtwListenerError()`. -/
def EtwListenerError.ctor : EtwListenerError :=
  { code := EtwListenerError.ListenerNoError, desc := "" }

/-- The method `EtwListenerError::Succeeded`. -/
def EtwListenerError.Succeeded (error : EtwListenerError) : Bool :=
  error.code == EtwListenerError.ListenerNoError

/-- The function `enableProvider`; `status` is what `EnableTraceEx2` returned. -/
def enableProvider (status : Nat) : EtwListenerError :=
  if status ≠ ERROR_SUCCESS then
    { code := ovrError_EtwListenerRuntime, desc := "EnableTrace failed: " ++ toString status }
  else EtwListenerError.ctor

/-- The Windows status `ERROR_INSUFFICIENT_BUFFER`. -/
def ERROR_INSUFFICIENT_BUFFER : Nat := 122

/-- What one call of `TdhEnumerateProviders` in `findOVRProviders` answers: the status, the
size it leaves in `penumSize`, and whether the `realloc` that the loop makes after this
answer returns a buffer. -/
structure EnumerateAnswer where
  status : Nat
  penumSize : Nat
  reallocOk : Bool

/-- The function `findOVRProviders`, as far as its return value goes: `answer` is what the
latest `TdhEnumerateProviders` call answered and `again` what the calls still to come
answer. The `while` loop asks again as long as the status is `ERROR_INSUFFICIENT_BUFFER`;
`none` when the answers given end before the loop does. The providers that the function
hands back are those whose `EnableTraceEx2` statuses `TraceAnswers.enableTrace` lists. -/
def findOVRProviders : EnumerateAnswer → List EnumerateAnswer → Option EtwListenerError
  | answer, again =>
    if answer.status = ERROR_INSUFFICIENT_BUFFER then
      if !answer.reallocOk then
        some
          { code := ovrError_EtwListenerRuntime
            desc := "Allocation failed for " ++ toString answer.penumSize ++ "bytes" }
      else
        match again with
        | [] => none
        | next :: rest => findOVRProviders next rest
    else if answer.status ≠ ERROR_SUCCESS then
      some
        { code := ovrError_EtwListenerRuntime
          desc := "Failed to enumerate providers: " ++ toString answer.status }
    else some EtwListenerError.ctor

namespace EtwFrameListener

/-- The method `EtwFrameListener::WaitUntilWorkAvailable` when no event arrives during the
wait: the listener afterwards and the value returned. With `WorkPending` set the wait ends
at once; without it a timed wait (`timeout > -1`) runs out and returns false, and an
untimed wait does not return (`none`). -/
def WaitUntilWorkAvailable (l : EtwFrameListener) (timeout : Int) :
    Option (EtwFrameListener × Bool) :=
  if timeout > -1 then
    let success := l.WorkPending
    some ({ l with WorkPending := false }, success)
  else if l.WorkPending then some ({ l with WorkPending := false }, true)
  else none

/-- One call on a listener by its two clients: the capture callback with a record, or a
drain. -/
inductive ListenerCall where
  | ProcessEvent (p : EVENT_RECORD)
  | HandleEvents

/-- A sequence of `ProcessEvent` and `HandleEvents` calls, first to last: the listener
afterwards and the effects of all drains in order; `none` when a drain does not end. -/
def runCalls (M : LibOVREvents) :
    EtwFrameListener → List ListenerCall → Option (EtwFrameListener × List HandlerEffect)
  | l, [] => some (l, [])
  | l, ListenerCall.ProcessEvent p :: calls => runCalls M (ProcessEvent M l p) calls
  | l, ListenerCall.HandleEvents :: calls =>
    match HandleEvents l with
    | none => none
    | some r1 =>
      match runCalls M r1.1 calls with
      | none => none
      | some r2 => some (r2.1, r1.2 ++ r2.2)

/-- The number of records in a sequence of calls that `ProcessEvent` accepts with the
converter `conv`. -/
def acceptedWrites (M : LibOVREvents) (conv : EtwEventDataConv) :
    List ListenerCall → Nat
  | [] => 0
  | ListenerCall.ProcessEvent p :: calls =>
    (if p.Flags &&& EVENT_HEADER_FLAG_CLASSIC_HEADER = 0 ∧
        (conv.Deserialize M p EtwEvent.ctor).ok = true then 1 else 0) +
      acceptedWrites M conv calls
  | ListenerCall.HandleEvents :: calls => acceptedWrites M conv calls

/-- What the operating system answers during `startRealtimeTracing`: the status of the
first `StartTraceW`, the status of the second one (made after a pre-existing session was
stopped), the answer to the first `TdhEnumerateProviders` call of `findOVRProviders` and
the answers to the calls that its loop makes, the status of `EnableTraceEx2` for each
provider found, in order, and whether `OpenTraceW` returned a valid handle. -/
structure TraceAnswers where
  startTrace : Nat
  startTraceAgain : Nat
  enumerate : EnumerateAnswer
  enumerateAgain : List EnumerateAnswer
  enableTrace : List Nat
  openTraceValid : Bool

/-- The three-argument `pushError(code, prefix, systemCode)`. -/
def pushErrorCode (l : EtwFrameListener) (code : EtwListenerErrorCode) (pre : String)
    (systemCode : Nat) : EtwFrameListener :=
  l.pushError { code := code, desc := pre ++ toString systemCode }

/-- The `for` loop of `startRealtimeTracing` over the providers found. -/
def enableProviders (l : EtwFrameListener) (statuses : List Nat) : EtwFrameListener :=
  statuses.foldl
    (fun (l : EtwFrameListener) (status : Nat) =>
      let err := enableProvider status
      if !err.Succeeded then l.pushError err else l)
    l

/-- The method `EtwFrameListener::startRealtimeTracing`, as far as the error list and the
return value go; `none` when the enumeration of providers does not come to an end. -/
def startRealtimeTracing (l : EtwFrameListener) (os : TraceAnswers) :
    Option (EtwFrameListener × Bool) :=
  let status :=
    if os.startTrace = ERROR_ALREADY_EXISTS then os.startTraceAgain else os.startTrace
  if status ≠ ERROR_SUCCESS then
    some
      (pushErrorCode l ovrError_EtwListenerInitialize "Failed to start tracing: " status,
        false)
  else
    match findOVRProviders os.enumerate os.enumerateAgain with
    | none => none
    | some err =>
      if !err.Succeeded then some (l.pushError err, false)
      else
        let l := enableProviders l os.enableTrace
        if !os.openTraceValid then
          some
            (l.pushError
              { code := ovrError_EtwListenerInitialize
                desc := "Consumer failed to OpenTrace" },
              false)
        else some (l, true)

/-- Sample answers of the operating system: the session starts, the providers are
enumerated at the second attempt, one provider is found and `EnableTraceEx2` fails for it
with status 5. -/
def sampleEnableFails : TraceAnswers :=
  { startTrace := 0
    startTraceAgain := 0
    enumerate := { status := 122, penumSize := 4096, reallocOk := true }
    enumerateAgain := [{ status := 0, penumSize := 4096, reallocOk := true }]
    enableTrace := [5]
    openTraceValid := true }

/-- A freshly constructed listener with threshold `signalMessages = 1`, no start-up error
and `WorkPending` clear. -/
def sampleListenerOne : EtwFrameListener :=
  EtwFrameListener.ctor sampleEvents 10000000 1 [] false

end EtwFrameListener

namespace VSyncEventPartitioner

theorem pushVSyncPair_pairs (p : VSyncEventPartitioner) (pair : VSyncPair) :
    (p.pushVSyncPair pair).StoredVSyncPairs 0 = pair ∧
      (p.pushVSyncPair pair).StoredVSyncPairs 1 = p.StoredVSyncPairs 0 ∧
      (p.pushVSyncPair pair).StoredVSyncPairs 2 = p.StoredVSyncPairs 1 := by
  unfold pushVSyncPair
  simp [List.range_succ, Function.update]

theorem pushVSyncPair_fields (p : VSyncEventPartitioner) (pair : VSyncPair) :
    (p.pushVSyncPair pair).StoredEvents = p.StoredEvents ∧
      (p.pushVSyncPair pair).StoredEventIndex = p.StoredEventIndex ∧
      (p.pushVSyncPair pair).LastVSyncTime = p.LastVSyncTime ∧
      (p.pushVSyncPair pair).LastAnalyzedFrameIndex = p.LastAnalyzedFrameIndex :=
  ⟨rfl, rfl, rfl, rfl⟩

theorem numValidPairs_eq_three (p : VSyncEventPartitioner) :
    p.numValidPairs = VSyncPairsToAnalyze ↔
      (p.StoredVSyncPairs 0).isValid = true ∧ (p.StoredVSyncPairs 1).isValid = true ∧
        (p.StoredVSyncPairs 2).isValid = true := by
  unfold numValidPairs numValidPairsLoop numValidPairsLoop numValidPairsLoop numValidPairsLoop
  cases h0 : (p.StoredVSyncPairs 0).isValid <;>
    cases h1 : (p.StoredVSyncPairs 1).isValid <;>
    cases h2 : (p.StoredVSyncPairs 2).isValid <;> simp [h0, h1, h2]

theorem getIndexOfFirstEventLoop_some (ev : Nat → EtwEvent) (S : Nat)
    (hS : S < NumStoredEvents) :
    ∀ (fuel i : Nat), i < NumStoredEvents →
      (S + NumStoredEvents - i) % NumStoredEvents ≤ fuel →
      ∃ r, getIndexOfFirstEventLoop ev S fuel i = some r ∧ r < NumStoredEvents := by
  intro fuel
  induction fuel with
  | zero =>
    intro i hi hd
    have : i = S := by simp only [NumStoredEvents] at *; omega
    unfold getIndexOfFirstEventLoop
    exact ⟨S, by rw [if_pos this], hS⟩
  | succ fuel ih =>
    intro i hi hd
    unfold getIndexOfFirstEventLoop
    by_cases h : i = S
    · exact ⟨S, by rw [if_pos h], hS⟩
    · rw [if_neg h]
      by_cases hv : (ev i).IsValid = true
      · exact ⟨i, by simp [hv], hi⟩
      · have hi1 : (i + 1) % NumStoredEvents < NumStoredEvents := Nat.mod_lt _ (by decide)
        obtain ⟨r, hr, hlt⟩ := ih ((i + 1) % NumStoredEvents) hi1
          (by simp only [NumStoredEvents] at *; omega)
        exact ⟨r, by simp [hv, hr], hlt⟩

theorem buildEventListLoop_some (ev : Nat → EtwEvent) (S : Nat) (hS : S < NumStoredEvents)
    (outSize : Nat) (b e : ℚ) :
    ∀ (fuel i numEvents : Nat), i < NumStoredEvents →
      (S + NumStoredEvents - i) % NumStoredEvents ≤ fuel →
      ∃ r, buildEventListLoop ev S outSize b e fuel i numEvents = some r := by
  intro fuel
  induction fuel with
  | zero =>
    intro i n hi hd
    have : i = S := by simp only [NumStoredEvents] at *; omega
    unfold buildEventListLoop
    exact ⟨([], false), by rw [if_pos this]⟩
  | succ fuel ih =>
    intro i n hi hd
    unfold buildEventListLoop
    by_cases h : i = S
    · exact ⟨([], false), by rw [if_pos h]⟩
    · rw [if_neg h]
      have hi1 : (i + 1) % NumStoredEvents < NumStoredEvents := Nat.mod_lt _ (by decide)
      have hd1 : (S + NumStoredEvents - (i + 1) % NumStoredEvents) % NumStoredEvents ≤ fuel := by
        simp only [NumStoredEvents] at *; omega
      dsimp only
      by_cases hw : (ev i).EventTime > b ∧ (ev i).EventTime ≤ e
      · rw [if_pos hw]
        by_cases hn : n = outSize
        · exact ⟨([], true), by rw [if_pos hn]⟩
        · rw [if_neg hn]
          obtain ⟨r, hr⟩ := ih ((i + 1) % NumStoredEvents) (n + 1) hi1 hd1
          exact ⟨(ev i :: r.1, r.2), by rw [hr]⟩
      · rw [if_neg hw]
        by_cases he : (ev i).EventTime > e
        · exact ⟨([], false), by rw [if_pos he]⟩
        · rw [if_neg he]
          exact ih ((i + 1) % NumStoredEvents) n hi1 hd1

theorem buildEventList_some (p : VSyncEventPartitioner)
    (hS : p.StoredEventIndex < NumStoredEvents) (outSize : Nat) (b e : ℚ) :
    ∃ r, p.buildEventList outSize b e = some r := by
  unfold buildEventList getIndexOfFirstEvent
  have h0 : ((p.StoredEventIndex + 1) % NumStoredEvents) < NumStoredEvents :=
    Nat.mod_lt _ (by decide)
  obtain ⟨first, hfirst, hlt⟩ := getIndexOfFirstEventLoop_some p.StoredEvents
    p.StoredEventIndex hS NumStoredEvents _ h0 (by simp only [NumStoredEvents] at *; omega)
  rw [hfirst]
  dsimp only
  by_cases h : first = p.StoredEventIndex
  · exact ⟨([], false), by rw [if_pos h]⟩
  · rw [if_neg h]
    exact buildEventListLoop_some _ _ hS outSize b e NumStoredEvents first 0 hlt
      (by simp only [NumStoredEvents] at *; omega)

theorem buildEventList_congr (p q : VSyncEventPartitioner)
    (h1 : q.StoredEvents = p.StoredEvents) (h2 : q.StoredEventIndex = p.StoredEventIndex)
    (outSize : Nat) (b e : ℚ) :
    q.buildEventList outSize b e = p.buildEventList outSize b e := by
  unfold buildEventList getIndexOfFirstEvent
  rw [h1, h2]

theorem windowsOf_append (xs ys : List PartitionerEffect) :
    windowsOf (xs ++ ys) = windowsOf xs ++ windowsOf ys := by
  induction xs with
  | nil => rfl
  | cons x xs ih =>
    cases x with
    | printfSkipped n => simpa [windowsOf] using ih
    | printfIncreaseSize => simpa [windowsOf] using ih
    | callback w => simp [windowsOf, ih]

/-- The pair that `handleVSync` pushes and the window it reports. -/
theorem handleVSync_spec (p : VSyncEventPartitioner) (vsyncTime : ℚ) (frameIndex : Int)
    (hS : p.StoredEventIndex < NumStoredEvents) :
    ∃ p' effects, p.handleVSync vsyncTime frameIndex = some (p', effects) ∧
      p'.StoredEvents = p.StoredEvents ∧ p'.StoredEventIndex = p.StoredEventIndex ∧
      p'.LastVSyncTime = vsyncTime ∧
      (p.LastVSyncTime = 0 → p'.StoredVSyncPairs = p.StoredVSyncPairs ∧ effects = []) ∧
      (p.LastVSyncTime ≠ 0 →
        p'.StoredVSyncPairs 0 = ⟨p.LastVSyncTime, vsyncTime, frameIndex⟩ ∧
        p'.StoredVSyncPairs 1 = p.StoredVSyncPairs 0 ∧
        p'.StoredVSyncPairs 2 = p.StoredVSyncPairs 1 ∧
        (¬ ((p.StoredVSyncPairs 0).isValid = true ∧ (p.StoredVSyncPairs 1).isValid = true ∧
            frameIndex ≠ -1) → effects = []) ∧
        ((p.StoredVSyncPairs 0).isValid = true ∧ (p.StoredVSyncPairs 1).isValid = true ∧
            frameIndex ≠ -1 →
          ∃ r, p.buildEventList 2048 (p.StoredVSyncPairs 1).vsyncBegin vsyncTime = some r ∧
            (PartitionerEffect.printfIncreaseSize ∈ effects ↔ r.2 = true) ∧
            windowsOf effects =
              [{ v0 := (p.StoredVSyncPairs 1).vsyncBegin
                 v1 := (p.StoredVSyncPairs 0).vsyncBegin
                 v2 := p.LastVSyncTime
                 v3 := vsyncTime
                 ft := toUInt32 (p.StoredVSyncPairs 0).frameIndex
                 fn := toUInt32 frameIndex
                 bufferedEventSet := r.1 }])) := by
  by_cases hl : p.LastVSyncTime = 0
  · refine ⟨{ p with LastVSyncTime := vsyncTime }, [], ?_, rfl, rfl, rfl, ?_, ?_⟩
    · unfold handleVSync
      rw [if_pos hl]
    · intro _; exact ⟨rfl, rfl⟩
    · intro h; exact absurd hl h
  · obtain ⟨q0, q1, q2⟩ := pushVSyncPair_pairs p ⟨p.LastVSyncTime, vsyncTime, frameIndex⟩
    have hvalid0 : (⟨p.LastVSyncTime, vsyncTime, frameIndex⟩ : VSyncPair).isValid = true ↔
        frameIndex ≠ -1 := by
      simp [VSyncPair.isValid]
    by_cases hv : (p.StoredVSyncPairs 0).isValid = true ∧
        (p.StoredVSyncPairs 1).isValid = true ∧ frameIndex ≠ -1
    · have h3 : (p.pushVSyncPair ⟨p.LastVSyncTime, vsyncTime, frameIndex⟩).numValidPairs =
          VSyncPairsToAnalyze := by
        rw [numValidPairs_eq_three, q0, q1, q2]
        exact ⟨hvalid0.mpr hv.2.2, hv.1, hv.2.1⟩
      obtain ⟨r, hr⟩ := buildEventList_some p hS 2048 (p.StoredVSyncPairs 1).vsyncBegin
        vsyncTime
      have hr2 : buildEventList
          { p.pushVSyncPair ⟨p.LastVSyncTime, vsyncTime, frameIndex⟩ with
            LastAnalyzedFrameIndex := toInt32
              ((p.pushVSyncPair ⟨p.LastVSyncTime, vsyncTime, frameIndex⟩).StoredVSyncPairs
                1).frameIndex }
          2048
          ((p.pushVSyncPair ⟨p.LastVSyncTime, vsyncTime, frameIndex⟩).StoredVSyncPairs
            2).vsyncBegin
          ((p.pushVSyncPair ⟨p.LastVSyncTime, vsyncTime, frameIndex⟩).StoredVSyncPairs
            0).vsyncEnd = some r := by
        rw [q2, q0]
        exact (buildEventList_congr p _ rfl rfl _ _ _).trans hr
      have hrun : p.handleVSync vsyncTime frameIndex = some
          ({ p.pushVSyncPair ⟨p.LastVSyncTime, vsyncTime, frameIndex⟩ with
              LastAnalyzedFrameIndex := toInt32
                ((p.pushVSyncPair ⟨p.LastVSyncTime, vsyncTime,
                  frameIndex⟩).StoredVSyncPairs 1).frameIndex
              LastVSyncTime := vsyncTime },
            (if (p.pushVSyncPair ⟨p.LastVSyncTime, vsyncTime,
                  frameIndex⟩).LastAnalyzedFrameIndex ≠ -1 ∧
                ((p.pushVSyncPair ⟨p.LastVSyncTime, vsyncTime,
                  frameIndex⟩).StoredVSyncPairs 1).frameIndex -
                  (p.pushVSyncPair ⟨p.LastVSyncTime, vsyncTime,
                    frameIndex⟩).LastAnalyzedFrameIndex > 1
              then [PartitionerEffect.printfSkipped
                (((p.pushVSyncPair ⟨p.LastVSyncTime, vsyncTime,
                  frameIndex⟩).StoredVSyncPairs 1).frameIndex -
                  (p.pushVSyncPair ⟨p.LastVSyncTime, vsyncTime,
                    frameIndex⟩).LastAnalyzedFrameIndex)]
              else []) ++
              (if r.2 then [PartitionerEffect.printfIncreaseSize] else []) ++
              [PartitionerEffect.callback
                { v0 := ((p.pushVSyncPair ⟨p.LastVSyncTime, vsyncTime,
                    frameIndex⟩).StoredVSyncPairs 2).vsyncBegin
                  v1 := ((p.pushVSyncPair ⟨p.LastVSyncTime, vsyncTime,
                    frameIndex⟩).StoredVSyncPairs 1).vsyncBegin
                  v2 := ((p.pushVSyncPair ⟨p.LastVSyncTime, vsyncTime,
                    frameIndex⟩).StoredVSyncPairs 0).vsyncBegin
                  v3 := ((p.pushVSyncPair ⟨p.LastVSyncTime, vsyncTime,
                    frameIndex⟩).StoredVSyncPairs 0).vsyncEnd
                  ft := toUInt32 ((p.pushVSyncPair ⟨p.LastVSyncTime, vsyncTime,
                    frameIndex⟩).StoredVSyncPairs 1).frameIndex
                  fn := toUInt32 ((p.pushVSyncPair ⟨p.LastVSyncTime, vsyncTime,
                    frameIndex⟩).StoredVSyncPairs 0).frameIndex
                  bufferedEventSet := r.1 }]) := by
        unfold handleVSync
        rw [if_neg hl]
        dsimp only
        rw [if_pos h3, hr2]
      refine ⟨_, _, hrun, rfl, rfl, rfl, fun h => absurd h hl, fun _ => ⟨q0, q1, q2, ?_, ?_⟩⟩
      · intro hn; exact absurd hv hn
      · intro _
        refine ⟨r, hr, ?_, ?_⟩
        · constructor
          · intro hm
            simp only [List.mem_append, List.mem_singleton, reduceCtorEq, or_false] at hm
            cases hm with
            | inl h1 =>
              split at h1
              · simp at h1
              · simp at h1
            | inr h1 =>
              split at h1
              · assumption
              · simp at h1
          · intro h2
            simp [h2]
        · rw [windowsOf_append, windowsOf_append, q0, q1, q2]
          have e1 : ∀ (c : Prop) [Decidable c] (n : Int),
              windowsOf (if c then [PartitionerEffect.printfSkipped n] else []) = [] := by
            intro c _ n; split <;> rfl
          have e2 : ∀ (c : Bool),
              windowsOf (if c = true then [PartitionerEffect.printfIncreaseSize] else []) =
                [] := by
            intro c; split <;> rfl
          rw [e1, e2]
          rfl
    · have h3 : ¬ (p.pushVSyncPair ⟨p.LastVSyncTime, vsyncTime, frameIndex⟩).numValidPairs =
          VSyncPairsToAnalyze := by
        rw [numValidPairs_eq_three, q0, q1, q2]
        intro hc
        exact hv ⟨hc.2.1, hc.2.2, hvalid0.mp hc.1⟩
      have hrun : p.handleVSync vsyncTime frameIndex = some
          ({ p.pushVSyncPair ⟨p.LastVSyncTime, vsyncTime, frameIndex⟩ with
              LastVSyncTime := vsyncTime }, []) := by
        unfold handleVSync
        rw [if_neg hl]
        dsimp only
        rw [if_neg h3]
      refine ⟨_, _, hrun, rfl, rfl, rfl, fun h => absurd h hl, fun _ => ⟨q0, q1, q2, ?_, ?_⟩⟩
      · intro _; rfl
      · intro hc; exact absurd hc hv

theorem storeEvent_lt (p : VSyncEventPartitioner) (e : EtwEvent) :
    (p.storeEvent e).StoredEventIndex < NumStoredEvents :=
  Nat.mod_lt _ (by decide)

theorem handleEvent_not_vsync (M : LibOVREvents) (rd : List Nat → ℚ)
    (p : VSyncEventPartitioner) (e : EtwEvent) (h : isVSync M e = false) :
    handleEvent M rd p e = some (p.storeEvent e, []) := by
  unfold handleEvent
  simp [h]

theorem handleEvent_vsync (M : LibOVREvents) (rd : List Nat → ℚ)
    (p : VSyncEventPartitioner) (e : EtwEvent) (h : isVSync M e = true) :
    handleEvent M rd p e =
      (p.storeEvent e).handleVSync (etwGetVSyncData rd e).VSyncTime
        (toInt32 ((etwGetVSyncData rd e).FrameIndex : Int)) := by
  unfold handleEvent
  simp [h]

theorem handleEvent_some (M : LibOVREvents) (rd : List Nat → ℚ)
    (p : VSyncEventPartitioner) (e : EtwEvent) :
    ∃ p' effects, handleEvent M rd p e = some (p', effects) ∧
      p'.StoredEvents = (p.storeEvent e).StoredEvents ∧
      p'.StoredEventIndex = (p.storeEvent e).StoredEventIndex := by
  cases h : isVSync M e with
  | false => exact ⟨_, _, handleEvent_not_vsync M rd p e h, rfl, rfl⟩
  | true =>
    rw [handleEvent_vsync M rd p e h]
    obtain ⟨p', eff, h1, h2, h3, _⟩ := handleVSync_spec (p.storeEvent e)
      (etwGetVSyncData rd e).VSyncTime (toInt32 ((etwGetVSyncData rd e).FrameIndex : Int))
      (storeEvent_lt p e)
    exact ⟨p', eff, h1, h2, h3⟩

theorem HandleEvents_append (M : LibOVREvents) (rd : List Nat → ℚ) :
    ∀ (es es' : List EtwEvent) (p : VSyncEventPartitioner),
      HandleEvents M rd p (es ++ es') =
        match HandleEvents M rd p es with
        | none => none
        | some r1 =>
          match HandleEvents M rd r1.1 es' with
          | none => none
          | some r2 => some (r2.1, r1.2 ++ r2.2) := by
  intro es
  induction es with
  | nil =>
    intro es' p
    simp only [List.nil_append, HandleEvents]
    cases HandleEvents M rd p es' with
    | none => rfl
    | some r => simp
  | cons e es ih =>
    intro es' p
    show HandleEvents M rd p (e :: (es ++ es')) = _
    cases h1 : handleEvent M rd p e with
    | none => simp only [HandleEvents, h1]
    | some r1 =>
      cases h2 : HandleEvents M rd r1.1 es with
      | none => simp only [HandleEvents, h1, ih, h2]
      | some r2 =>
        cases h3 : HandleEvents M rd r2.1 es' with
        | none => simp only [HandleEvents, h1, ih, h2, h3]
        | some r3 => simp only [HandleEvents, h1, ih, h2, h3, List.append_assoc]

theorem HandleEvents_single (M : LibOVREvents) (rd : List Nat → ℚ)
    (p : VSyncEventPartitioner) (e : EtwEvent) :
    HandleEvents M rd p [e] = handleEvent M rd p e := by
  simp only [HandleEvents]
  cases handleEvent M rd p e with
  | none => rfl
  | some r => simp

theorem HandleEvents_some (M : LibOVREvents) (rd : List Nat → ℚ) :
    ∀ (es : List EtwEvent) (p : VSyncEventPartitioner),
      ∃ r, HandleEvents M rd p es = some r := by
  intro es
  induction es with
  | nil => intro p; exact ⟨(p, []), rfl⟩
  | cons e es ih =>
    intro p
    obtain ⟨p1, eff1, h1, _⟩ := handleEvent_some M rd p e
    obtain ⟨r2, h2⟩ := ih p1
    exact ⟨(r2.1, eff1 ++ r2.2), by simp only [HandleEvents, h1, h2]⟩

/-- A stream fed event by event: the run over `es ++ [e]` is the run over `es` followed by
one pass of the loop body. -/
theorem HandleEvents_snoc (M : LibOVREvents) (rd : List Nat → ℚ)
    (p : VSyncEventPartitioner) (es : List EtwEvent) (e : EtwEvent) :
    ∃ p1 eff1 p2 eff2, HandleEvents M rd p es = some (p1, eff1) ∧
      handleEvent M rd p1 e = some (p2, eff2) ∧
      HandleEvents M rd p (es ++ [e]) = some (p2, eff1 ++ eff2) := by
  obtain ⟨r1, h1⟩ := HandleEvents_some M rd es p
  obtain ⟨p2, eff2, h2, _⟩ := handleEvent_some M rd r1.1 e
  refine ⟨r1.1, r1.2, p2, eff2, h1, h2, ?_⟩
  rw [HandleEvents_append, h1]
  simp only [HandleEvents_single, h2]

end VSyncEventPartitioner

/-! ## Lemmas on the partitioner: the event ring -/

namespace VSyncEventPartitioner

theorem Buffered_ctor : Buffered [] VSyncEventPartitioner.ctor :=
  ⟨rfl, by decide, fun _ => rfl⟩

theorem Buffered_storeEvent (es : List EtwEvent) (p : VSyncEventPartitioner) (e : EtwEvent)
    (h : Buffered es p) (hlen : es.length + 1 < NumStoredEvents) :
    Buffered (es ++ [e]) (p.storeEvent e) := by
  obtain ⟨h1, h2, h3⟩ := h
  refine ⟨?_, ?_, ?_⟩
  · show (p.StoredEventIndex + 1) % NumStoredEvents = (es ++ [e]).length
    rw [h1, List.length_append, List.length_singleton]
    exact Nat.mod_eq_of_lt hlen
  · rw [List.length_append, List.length_singleton]
    exact hlen
  · intro i
    show Function.update p.StoredEvents p.StoredEventIndex e i = _
    rw [h1]
    by_cases hi : i = es.length
    · subst hi
      simp [List.getD_append_right]
    · rw [Function.update_noteq hi, h3]
      by_cases hlt : i < es.length
      · rw [List.getD_append _ _ _ _ hlt]
      · have hge : es.length < i := by omega
        rw [List.getD_eq_default _ _ (by omega), List.getD_eq_default]
        simp only [List.length_append, List.length_singleton]
        omega

theorem Buffered_congr (es : List EtwEvent) (p q : VSyncEventPartitioner)
    (h : Buffered es p) (h1 : q.StoredEvents = p.StoredEvents)
    (h2 : q.StoredEventIndex = p.StoredEventIndex) : Buffered es q := by
  unfold Buffered at *
  rw [h1, h2]
  exact h

theorem Buffered_run (M : LibOVREvents) (rd : List Nat → ℚ) :
    ∀ (es : List EtwEvent), es.length < NumStoredEvents →
      ∃ p effects, HandleEvents M rd VSyncEventPartitioner.ctor es = some (p, effects) ∧
        Buffered es p := by
  intro es
  induction es using List.reverseRecOn with
  | nil => intro _; exact ⟨_, _, rfl, Buffered_ctor⟩
  | append_singleton es e ih =>
    intro hlen
    rw [List.length_append, List.length_singleton] at hlen
    obtain ⟨p, eff, hrun, hb⟩ := ih (by omega)
    obtain ⟨p1, eff1, p2, eff2, h1, h2, h3⟩ :=
      HandleEvents_snoc M rd VSyncEventPartitioner.ctor es e
    rw [hrun] at h1
    cases h1
    obtain ⟨p2', eff2', h4, h5, h6⟩ := handleEvent_some M rd p e
    rw [h2] at h4
    cases h4
    exact ⟨p2, eff ++ eff2, h3, Buffered_congr _ _ _ (Buffered_storeEvent es p e hb hlen) h5 h6⟩

theorem ctor_not_valid : EtwEvent.ctor.IsValid = false := rfl

theorem getIndexOfFirstEventLoop_zero (ev : Nat → EtwEvent) (S : Nat)
    (hv : S ≠ 0 → (ev 0).IsValid = true) (fuel : Nat) (hf : 1 ≤ fuel) :
    getIndexOfFirstEventLoop ev S fuel 0 = some 0 := by
  unfold getIndexOfFirstEventLoop
  by_cases h : 0 = S
  · rw [if_pos h, ← h]
  · rw [if_neg h]
    obtain ⟨f, rfl⟩ : ∃ f, fuel = f + 1 := ⟨fuel - 1, by omega⟩
    simp [hv (fun hc => h hc.symm)]

theorem getIndexOfFirstEventLoop_skip (ev : Nat → EtwEvent) (S : Nat)
    (hv : S ≠ 0 → (ev 0).IsValid = true)
    (hinv : ∀ i, S < i → (ev i).IsValid = false) :
    ∀ (d i fuel : Nat), i + d = NumStoredEvents → 1 ≤ d → S < i → d + 1 ≤ fuel →
      getIndexOfFirstEventLoop ev S fuel i = some 0 := by
  intro d
  induction d with
  | zero => intro i fuel _ h1; omega
  | succ d ih =>
    intro i fuel hid _ hSi hf
    obtain ⟨f, rfl⟩ : ∃ f, fuel = f + 1 := ⟨fuel - 1, by omega⟩
    unfold getIndexOfFirstEventLoop
    rw [if_neg (by omega)]
    simp only [hinv i hSi, Bool.false_eq_true, if_false]
    by_cases hd : d = 0
    · subst hd
      have : (i + 1) % NumStoredEvents = 0 := by
        simp only [NumStoredEvents] at *; omega
      rw [this]
      exact getIndexOfFirstEventLoop_zero ev S hv f (by omega)
    · have : (i + 1) % NumStoredEvents = i + 1 := by
        simp only [NumStoredEvents] at *; omega
      rw [this]
      exact ih (i + 1) f (by omega) (by omega) (by omega) (by omega)

theorem getIndexOfFirstEvent_Buffered (es : List EtwEvent) (p : VSyncEventPartitioner)
    (hb : Buffered es p) (hvalid : ∀ e ∈ es, e.IsValid = true) :
    p.getIndexOfFirstEvent = some 0 := by
  obtain ⟨h1, h2, h3⟩ := hb
  have hv : p.StoredEventIndex ≠ 0 → (p.StoredEvents 0).IsValid = true := by
    intro hne
    rw [h3]
    have hpos : 0 < es.length := by omega
    rw [List.getD_eq_getElem _ _ hpos]
    exact hvalid _ (List.getElem_mem _)
  have hinv : ∀ i, p.StoredEventIndex < i → (p.StoredEvents i).IsValid = false := by
    intro i hi
    rw [h3, List.getD_eq_default _ _ (by omega)]
    rfl
  unfold getIndexOfFirstEvent
  by_cases hlast : p.StoredEventIndex + 1 = NumStoredEvents
  · rw [hlast, Nat.mod_self]
    exact getIndexOfFirstEventLoop_zero _ _ hv _ (by decide)
  · have hm : (p.StoredEventIndex + 1) % NumStoredEvents = p.StoredEventIndex + 1 :=
      Nat.mod_eq_of_lt (by omega)
    rw [hm]
    exact getIndexOfFirstEventLoop_skip _ _ hv hinv
      (NumStoredEvents - (p.StoredEventIndex + 1)) _ _ (by omega) (by omega) (by omega)
      (by omega)

theorem filter_inWindow_late (b e : ℚ) (x : EtwEvent) (xs : List EtwEvent)
    (hs : Chronological (x :: xs)) (hx : x.EventTime > e) :
    (x :: xs).filter (inWindow b e) = [] := by
  rw [List.filter_eq_nil_iff]
  intro y hy
  have hle : x.EventTime ≤ y.EventTime := by
    rcases List.mem_cons.mp hy with rfl | hmem
    · exact le_refl _
    · exact (List.pairwise_cons.mp hs).1 y hmem
  simp only [inWindow, decide_eq_true_eq, not_and, not_le]
  intro _
  exact lt_of_lt_of_le hx hle

theorem buildEventListLoop_sorted (ev : Nat → EtwEvent) (S : Nat) (hS : S < NumStoredEvents)
    (outSize : Nat) (b e : ℚ) :
    ∀ (xs : List EtwEvent) (i fuel numEvents : Nat), i + xs.length = S →
      (∀ j, j < xs.length → ev (i + j) = xs.getD j EtwEvent.ctor) →
      Chronological xs → xs.length ≤ fuel → numEvents + xs.length ≤ outSize →
      buildEventListLoop ev S outSize b e fuel i numEvents =
        some (xs.filter (inWindow b e), false) := by
  intro xs
  induction xs with
  | nil =>
    intro i fuel n hi _ _ _ _
    unfold buildEventListLoop
    rw [if_pos (by simpa using hi)]
    rfl
  | cons x xs ih =>
    intro i fuel n hi hev hs hf hn
    rw [List.length_cons] at hi hf hn
    obtain ⟨f, rfl⟩ : ∃ f, fuel = f + 1 := ⟨fuel - 1, by omega⟩
    have hx : ev i = x := by
      have := hev 0 (by simp)
      simpa using this
    have hnext : (i + 1) % NumStoredEvents = i + 1 := Nat.mod_eq_of_lt (by omega)
    have hev' : ∀ j, j < xs.length → ev (i + 1 + j) = xs.getD j EtwEvent.ctor := by
      intro j hj
      have := hev (j + 1) (by simp; omega)
      rw [List.getD_cons_succ] at this
      rw [← this]
      congr 1
      omega
    have hs' : Chronological xs := (List.pairwise_cons.mp hs).2
    unfold buildEventListLoop
    rw [if_neg (by omega)]
    dsimp only
    rw [hx, hnext]
    by_cases hw : x.EventTime > b ∧ x.EventTime ≤ e
    · rw [if_pos hw, if_neg (by omega),
        ih (i + 1) f (n + 1) (by omega) hev' hs' (by omega) (by omega)]
      have : inWindow b e x = true := by
        simp only [inWindow, decide_eq_true_eq]
        exact hw
      simp [List.filter_cons, this]
    · rw [if_neg hw]
      by_cases hl : x.EventTime > e
      · rw [if_pos hl, filter_inWindow_late b e x xs hs hl]
      · rw [if_neg hl, ih (i + 1) f n (by omega) hev' hs' (by omega) (by omega)]
        have : inWindow b e x = false := by
          simp only [inWindow, decide_eq_false_iff_not]
          exact hw
        simp [List.filter_cons, this]

/-- On a ring that holds valid events in chronological order and has not wrapped,
`buildEventList` returns exactly the events of the window, in buffer order, and does not
run into the size limit. -/
theorem buildEventList_Buffered (es : List EtwEvent) (p : VSyncEventPartitioner)
    (hb : Buffered es p) (hvalid : ∀ e ∈ es, e.IsValid = true) (hs : Chronological es)
    (b e : ℚ) :
    p.buildEventList 2048 b e = some (es.filter (inWindow b e), false) := by
  have hfirst := getIndexOfFirstEvent_Buffered es p hb hvalid
  obtain ⟨h1, h2, h3⟩ := hb
  unfold buildEventList
  rw [hfirst]
  dsimp only
  by_cases h0 : 0 = p.StoredEventIndex
  · rw [if_pos h0]
    have : es = [] := List.eq_nil_of_length_eq_zero (by omega)
    rw [this]
    rfl
  · rw [if_neg h0]
    exact buildEventListLoop_sorted _ _ (by omega) 2048 b e es 0 _ 0 (by omega)
      (fun j _ => by rw [Nat.zero_add, h3]) hs (by omega)
      (by simp only [NumStoredEvents] at h2; omega)

end VSyncEventPartitioner

/-! ## Lemmas on the partitioner: the VSync pairs -/

namespace VSyncEventPartitioner

theorem toUInt32_toInt32 (f : Nat) (hf : f < 4294967296) : toUInt32 (toInt32 (f : Int)) = f := by
  unfold toUInt32 toInt32
  omega

theorem toInt32_ne_neg_one (f : Nat) (hf : f < 4294967295) : toInt32 (f : Int) ≠ -1 := by
  unfold toInt32
  omega

theorem pairAt_succ (x : EtwData_VSync) (rv : List EtwData_VSync) (i : Nat) :
    pairAt (x :: rv) (i + 1) = pairAt rv i :=
  rfl

theorem pairAt_short (rv : List EtwData_VSync) (i : Nat) (h : rv.length ≤ i + 1) :
    pairAt rv i = VSyncPair.ctor := by
  unfold pairAt
  have hl : (rv.drop i).length ≤ 1 := by rw [List.length_drop]; omega
  match hd : rv.drop i with
  | [] => rfl
  | [_] => rfl
  | _ :: _ :: _ => rw [hd] at hl; simp at hl

theorem pairAt_valid (rv : List EtwData_VSync) (hu : ∀ x ∈ rv, UsableVSync x) (i : Nat) :
    (pairAt rv i).isValid = true ↔ i + 2 ≤ rv.length := by
  constructor
  · intro h
    by_contra hc
    rw [pairAt_short rv i (by omega)] at h
    exact absurd h (by decide)
  · intro h
    unfold pairAt
    match hd : rv.drop i with
    | [] =>
      have := congrArg List.length hd
      rw [List.length_drop] at this
      simp at this
      omega
    | [_] =>
      have := congrArg List.length hd
      rw [List.length_drop] at this
      simp at this
      omega
    | a :: b :: rest =>
      have ha : a ∈ rv := List.mem_of_mem_drop (by rw [hd]; exact List.mem_cons_self _ _)
      have := toInt32_ne_neg_one a.FrameIndex (hu a ha).2
      simp [VSyncPair.isValid, this]

theorem PairsOf_ctor : PairsOf [] VSyncEventPartitioner.ctor :=
  ⟨rfl, fun i _ => (pairAt_short [] i (Nat.zero_le _)).symm⟩

theorem PairsOf_congr (rv : List EtwData_VSync) (p q : VSyncEventPartitioner)
    (h : PairsOf rv p) (h1 : q.LastVSyncTime = p.LastVSyncTime)
    (h2 : q.StoredVSyncPairs = p.StoredVSyncPairs) : PairsOf rv q := by
  unfold PairsOf at *
  rw [h1, h2]
  exact h

theorem PairsOf_storeEvent (rv : List EtwData_VSync) (p : VSyncEventPartitioner)
    (e : EtwEvent) (h : PairsOf rv p) : PairsOf rv (p.storeEvent e) :=
  PairsOf_congr rv p _ h rfl rfl

/-- One VSync event, fed to a partitioner whose pairs are those of the payloads `rv`: the
pairs afterwards, and the window reported, if any. -/
theorem handleEvent_vsync_spec (M : LibOVREvents) (rd : List Nat → ℚ)
    (rv : List EtwData_VSync) (p : VSyncEventPartitioner) (e : EtwEvent)
    (hp : PairsOf rv p) (hrv : ∀ x ∈ rv, UsableVSync x) (he : isVSync M e = true)
    (hx : UsableVSync (etwGetVSyncData rd e)) :
    ∃ p' effects, handleEvent M rd p e = some (p', effects) ∧
      PairsOf (etwGetVSyncData rd e :: rv) p' ∧
      p'.StoredEvents = (p.storeEvent e).StoredEvents ∧
      p'.StoredEventIndex = (p.storeEvent e).StoredEventIndex ∧
      (rv.length < 3 → windowsOf effects = []) ∧
      (∀ a b c rest, rv = a :: b :: c :: rest →
        ∃ r, (p.storeEvent e).buildEventList 2048 c.VSyncTime
            (etwGetVSyncData rd e).VSyncTime = some r ∧
          (PartitionerEffect.printfIncreaseSize ∈ effects ↔ r.2 = true) ∧
          windowsOf effects =
            [{ v0 := c.VSyncTime
               v1 := b.VSyncTime
               v2 := a.VSyncTime
               v3 := (etwGetVSyncData rd e).VSyncTime
               ft := a.FrameIndex
               fn := (etwGetVSyncData rd e).FrameIndex
               bufferedEventSet := r.1 }]) := by
  have hq := PairsOf_storeEvent rv p e hp
  obtain ⟨p', eff, hrun, hs1, hs2, hlast, hzero, hpush⟩ := handleVSync_spec (p.storeEvent e)
    (etwGetVSyncData rd e).VSyncTime (toInt32 ((etwGetVSyncData rd e).FrameIndex : Int))
    (storeEvent_lt p e)
  rw [← handleEvent_vsync M rd p e he] at hrun
  have hfx := toInt32_ne_neg_one _ hx.2
  refine ⟨p', eff, hrun, ?_, hs1, hs2, ?_, ?_⟩
  · cases rv with
    | nil =>
      have hl0 : (p.storeEvent e).LastVSyncTime = 0 := hq.1
      obtain ⟨hpairs, _⟩ := hzero hl0
      refine ⟨hlast, fun i hi => ?_⟩
      rw [hpairs, hq.2 i hi, pairAt_short [] i (by simp), pairAt_short _ i (by simp)]
    | cons a rest =>
      have hl : (p.storeEvent e).LastVSyncTime = a.VSyncTime := hq.1
      have hne : (p.storeEvent e).LastVSyncTime ≠ 0 := by
        rw [hl]; exact (hrv a (List.mem_cons_self _ _)).1
      obtain ⟨q0, q1, q2, _, _⟩ := hpush hne
      refine ⟨hlast, fun i hi => ?_⟩
      match i, hi with
      | 0, _ => rw [q0, hl]; rfl
      | 1, _ => rw [q1, hq.2 0 (by decide)]; rfl
      | 2, _ => rw [q2, hq.2 1 (by decide)]; rfl
  · intro hlen
    by_cases hl0 : (p.storeEvent e).LastVSyncTime = 0
    · rw [(hzero hl0).2]; rfl
    · obtain ⟨_, _, _, hno, _⟩ := hpush hl0
      rw [hno (by
        rintro ⟨_, hv1, _⟩
        rw [hq.2 1 (by decide), pairAt_valid rv hrv 1] at hv1
        omega)]
      rfl
  · intro a b c rest hrv3
    subst hrv3
    have hl : (p.storeEvent e).LastVSyncTime = a.VSyncTime := hq.1
    have hne : (p.storeEvent e).LastVSyncTime ≠ 0 := by
      rw [hl]; exact (hrv a (List.mem_cons_self _ _)).1
    obtain ⟨_, _, _, _, hyes⟩ := hpush hne
    have hv0 : ((p.storeEvent e).StoredVSyncPairs 0).isValid = true := by
      rw [hq.2 0 (by decide), pairAt_valid _ hrv 0]; simp
    have hv1 : ((p.storeEvent e).StoredVSyncPairs 1).isValid = true := by
      rw [hq.2 1 (by decide), pairAt_valid _ hrv 1]; simp
    obtain ⟨r, hr, hincr, hw⟩ := hyes ⟨hv0, hv1, hfx⟩
    have e0 : (p.storeEvent e).StoredVSyncPairs 0 =
        ⟨b.VSyncTime, a.VSyncTime, toInt32 (a.FrameIndex : Int)⟩ := hq.2 0 (by decide)
    have e1 : (p.storeEvent e).StoredVSyncPairs 1 =
        ⟨c.VSyncTime, b.VSyncTime, toInt32 (b.FrameIndex : Int)⟩ := hq.2 1 (by decide)
    rw [e1] at hr
    refine ⟨r, hr, hincr, ?_⟩
    rw [hw, e0, e1, hl]
    have ha : a.FrameIndex < 4294967296 := by
      have := (hrv a (List.mem_cons_self _ _)).2
      omega
    have hxf : (etwGetVSyncData rd e).FrameIndex < 4294967296 := by
      have := hx.2
      omega
    simp only [toUInt32_toInt32 _ ha, toUInt32_toInt32 _ hxf]

theorem vsyncsOf_append (M : LibOVREvents) (rd : List Nat → ℚ) (es es' : List EtwEvent) :
    vsyncsOf M rd (es ++ es') = vsyncsOf M rd es ++ vsyncsOf M rd es' := by
  simp [vsyncsOf]

theorem vsyncsOf_single_vsync (M : LibOVREvents) (rd : List Nat → ℚ) (e : EtwEvent)
    (he : isVSync M e = true) : vsyncsOf M rd [e] = [etwGetVSyncData rd e] := by
  simp [vsyncsOf, he]

theorem vsyncsOf_single_other (M : LibOVREvents) (rd : List Nat → ℚ) (e : EtwEvent)
    (he : isVSync M e = false) : vsyncsOf M rd [e] = [] := by
  simp [vsyncsOf, he]

/-- After any stream whose VSync payloads are usable, the pairs of the partitioner are
those of the payloads. -/
theorem PairsOf_run (M : LibOVREvents) (rd : List Nat → ℚ) :
    ∀ (es : List EtwEvent), (∀ x ∈ vsyncsOf M rd es, UsableVSync x) →
      ∃ p effects, HandleEvents M rd VSyncEventPartitioner.ctor es = some (p, effects) ∧
        PairsOf (vsyncsOf M rd es).reverse p := by
  intro es
  induction es using List.reverseRecOn with
  | nil => intro _; exact ⟨_, _, rfl, PairsOf_ctor⟩
  | append_singleton es e ih =>
    intro hu
    rw [vsyncsOf_append] at hu
    obtain ⟨p, eff, hrun, hp⟩ := ih (fun x hx => hu x (List.mem_append_left _ hx))
    obtain ⟨p1, eff1, p2, eff2, h1, h2, h3⟩ :=
      HandleEvents_snoc M rd VSyncEventPartitioner.ctor es e
    rw [hrun] at h1
    cases h1
    refine ⟨p2, eff ++ eff2, h3, ?_⟩
    rw [vsyncsOf_append]
    cases he : isVSync M e with
    | false =>
      rw [handleEvent_not_vsync M rd p e he] at h2
      cases h2
      rw [vsyncsOf_single_other M rd e he, List.append_nil]
      exact PairsOf_storeEvent _ _ _ hp
    | true =>
      rw [vsyncsOf_single_vsync M rd e he] at hu ⊢
      obtain ⟨p', eff', h4, h5, _⟩ := handleEvent_vsync_spec M rd _ p e hp
        (fun x hx => hu x (List.mem_append_left _ (List.mem_reverse.mp hx))) he
        (hu _ (List.mem_append_right _ (List.mem_singleton_self _)))
      rw [h2] at h4
      cases h4
      rw [List.reverse_append]
      exact h5

end VSyncEventPartitioner

/-! ## Lemmas on the partitioner: whole runs -/

namespace VSyncEventPartitioner

theorem getElem?_of_reverse {α : Type} (vs : List α) (x a b c : α) (rest : List α)
    (h : vs.reverse = a :: b :: c :: rest) :
    vs.length = rest.length + 3 ∧
      (vs ++ [x])[rest.length]? = some c ∧ (vs ++ [x])[rest.length + 1]? = some b ∧
      (vs ++ [x])[rest.length + 2]? = some a ∧ (vs ++ [x])[rest.length + 3]? = some x := by
  have hv : vs = rest.reverse ++ [c, b, a] := by
    have := congrArg List.reverse h
    simpa using this
  subst hv
  refine ⟨by simp, ?_, ?_, ?_, ?_⟩
  · rw [List.append_assoc, List.getElem?_append_right (by simp)]
    simp
  · rw [List.append_assoc, List.getElem?_append_right (by simp)]
    simp
  · rw [List.append_assoc, List.getElem?_append_right (by simp)]
    simp
  · rw [List.append_assoc, List.getElem?_append_right (by simp)]
    simp

theorem WindowAt_append (vs : List EtwData_VSync) (x : EtwData_VSync) (j : Nat)
    (w : VSyncWindow) (h : WindowAt vs j w) : WindowAt (vs ++ [x]) j w := by
  obtain ⟨x0, x1, x2, x3, h0, h1, h2, h3, rest⟩ := h
  have hlt : j + 3 < vs.length := by
    rcases List.getElem?_eq_some.mp h3 with ⟨hl, _⟩
    exact hl
  refine ⟨x0, x1, x2, x3, ?_, ?_, ?_, ?_, rest⟩
  · rw [List.getElem?_append_left (by omega)]; exact h0
  · rw [List.getElem?_append_left (by omega)]; exact h1
  · rw [List.getElem?_append_left (by omega)]; exact h2
  · rw [List.getElem?_append_left (by omega)]; exact h3

/-- The windows of a whole run, by position: window `j` is reported at VSync `j + 3` and
carries the times of VSyncs `j` to `j + 3`. -/
theorem run_windows (M : LibOVREvents) (rd : List Nat → ℚ) :
    ∀ (es : List EtwEvent), (∀ x ∈ vsyncsOf M rd es, UsableVSync x) →
      ∃ p effects, HandleEvents M rd VSyncEventPartitioner.ctor es = some (p, effects) ∧
        (windowsOf effects).length = (vsyncsOf M rd es).length - 3 ∧
        ∀ j w, (windowsOf effects)[j]? = some w → WindowAt (vsyncsOf M rd es) j w := by
  intro es
  induction es using List.reverseRecOn with
  | nil => intro _; exact ⟨_, _, rfl, rfl, fun j w h => by simp [windowsOf] at h⟩
  | append_singleton es e ih =>
    intro hu
    rw [vsyncsOf_append] at hu
    have hu1 : ∀ x ∈ vsyncsOf M rd es, UsableVSync x :=
      fun x hx => hu x (List.mem_append_left _ hx)
    obtain ⟨p, eff, hrun, hlen, hwin⟩ := ih hu1
    obtain ⟨p0, eff0, hrun0, hp⟩ := PairsOf_run M rd es hu1
    rw [hrun] at hrun0
    cases hrun0
    obtain ⟨p1, eff1, p2, eff2, h1, h2, h3⟩ :=
      HandleEvents_snoc M rd VSyncEventPartitioner.ctor es e
    rw [hrun] at h1
    cases h1
    refine ⟨p2, eff ++ eff2, h3, ?_⟩
    rw [vsyncsOf_append, windowsOf_append]
    cases he : isVSync M e with
    | false =>
      rw [handleEvent_not_vsync M rd p e he] at h2
      cases h2
      rw [vsyncsOf_single_other M rd e he, List.append_nil]
      simp only [windowsOf, List.append_nil]
      exact ⟨hlen, hwin⟩
    | true =>
      rw [vsyncsOf_single_vsync M rd e he] at hu ⊢
      obtain ⟨p', eff', h4, _, _, _, hfew, hwin3⟩ := handleEvent_vsync_spec M rd _ p e hp
        (fun x hx => hu x (List.mem_append_left _ (List.mem_reverse.mp hx))) he
        (hu _ (List.mem_append_right _ (List.mem_singleton_self _)))
      rw [h2] at h4
      cases h4
      rw [List.length_reverse] at hfew
      by_cases hk : (vsyncsOf M rd es).length < 3
      · rw [hfew hk, List.append_nil]
        refine ⟨?_, fun j w hj => WindowAt_append _ _ _ _ (hwin j w hj)⟩
        rw [hlen, List.length_append, List.length_singleton]
        omega
      · match hrv : (vsyncsOf M rd es).reverse with
        | [] =>
          have := congrArg List.length hrv
          rw [List.length_reverse] at this
          simp only [List.length_cons, List.length_nil] at this
          omega
        | [_] =>
          have := congrArg List.length hrv
          rw [List.length_reverse] at this
          simp only [List.length_cons, List.length_nil] at this
          omega
        | [_, _] =>
          have := congrArg List.length hrv
          rw [List.length_reverse] at this
          simp only [List.length_cons, List.length_nil] at this
          omega
        | a :: b :: c :: rest =>
          obtain ⟨r, _, _, hw⟩ := hwin3 a b c rest hrv
          obtain ⟨g0, g1, g2, g3, g4⟩ := getElem?_of_reverse (vsyncsOf M rd es)
            (etwGetVSyncData rd e) a b c rest hrv
          rw [hw]
          refine ⟨?_, ?_⟩
          · rw [List.length_append, hlen, List.length_append, List.length_singleton,
              List.length_singleton]
            omega
          · intro j w hj
            by_cases hjl : j < (windowsOf eff).length
            · rw [List.getElem?_append_left hjl] at hj
              exact WindowAt_append _ _ _ _ (hwin j w hj)
            · rw [List.getElem?_append_right (by omega)] at hj
              have hj0 : j - (windowsOf eff).length = 0 := by
                by_contra hne
                rw [List.getElem?_eq_none (by simp; omega)] at hj
                exact absurd hj (by simp)
              rw [hj0] at hj
              simp only [List.getElem?_cons_zero, Option.some.injEq] at hj
              have hjr : j = rest.length := by omega
              subst hj
              rw [hjr]
              exact ⟨c, b, a, etwGetVSyncData rd e, g1, g2, g3, g4, rfl, rfl, rfl, rfl, rfl,
                rfl⟩

/-- With fewer than four VSync-typed events, whatever their payloads, the third pair slot
is never valid and no window is reported. -/
theorem few_vsyncs (M : LibOVREvents) (rd : List Nat → ℚ) :
    ∀ (es : List EtwEvent),
      ∃ p effects, HandleEvents M rd VSyncEventPartitioner.ctor es = some (p, effects) ∧
        ((vsyncsOf M rd es).length ≤ 3 → (p.StoredVSyncPairs 2).isValid = false) ∧
        ((vsyncsOf M rd es).length ≤ 2 → (p.StoredVSyncPairs 1).isValid = false) ∧
        ((vsyncsOf M rd es).length ≤ 1 → (p.StoredVSyncPairs 0).isValid = false) ∧
        ((vsyncsOf M rd es).length = 0 → p.LastVSyncTime = 0) ∧
        ((vsyncsOf M rd es).length < 4 → windowsOf effects = []) := by
  intro es
  induction es using List.reverseRecOn with
  | nil =>
    exact ⟨_, _, rfl, fun _ => rfl, fun _ => rfl, fun _ => rfl, fun _ => rfl, fun _ => rfl⟩
  | append_singleton es e ih =>
    obtain ⟨p, eff, hrun, i2, i1, i0, il, iw⟩ := ih
    obtain ⟨p1, eff1, p2, eff2, h1, h2, h3⟩ :=
      HandleEvents_snoc M rd VSyncEventPartitioner.ctor es e
    rw [hrun] at h1
    cases h1
    refine ⟨p2, eff ++ eff2, h3, ?_⟩
    rw [vsyncsOf_append, windowsOf_append]
    cases he : isVSync M e with
    | false =>
      rw [handleEvent_not_vsync M rd p e he] at h2
      cases h2
      rw [vsyncsOf_single_other M rd e he, List.append_nil]
      simp only [windowsOf, List.append_nil]
      exact ⟨i2, i1, i0, il, iw⟩
    | true =>
      rw [vsyncsOf_single_vsync M rd e he, List.length_append, List.length_singleton]
      rw [handleEvent_vsync M rd p e he] at h2
      obtain ⟨p', eff', h4, _, _, _, hzero, hpush⟩ := handleVSync_spec (p.storeEvent e)
        (etwGetVSyncData rd e).VSyncTime (toInt32 ((etwGetVSyncData rd e).FrameIndex : Int))
        (storeEvent_lt p e)
      rw [h2] at h4
      cases h4
      by_cases hl0 : (p.storeEvent e).LastVSyncTime = 0
      · obtain ⟨hpairs, heff⟩ := hzero hl0
        rw [hpairs, heff]
        simp only [windowsOf, List.append_nil]
        exact ⟨fun h => i2 (by omega), fun h => i1 (by omega), fun h => i0 (by omega),
          fun h => by omega, fun h => iw (by omega)⟩
      · obtain ⟨q0, q1, q2, hno, _⟩ := hpush hl0
        have hk : (vsyncsOf M rd es).length ≠ 0 := fun hc => hl0 (il hc)
        rw [q1, q2]
        refine ⟨fun h => i1 (by omega), fun h => i0 (by omega), fun h => by omega,
          fun h => by omega, fun h => ?_⟩
        have hinv : (p.StoredVSyncPairs 1).isValid = false := i1 (by omega)
        rw [iw (by omega), hno (fun hc => by
          have h1 : ((p.storeEvent e).StoredVSyncPairs 1).isValid = true := hc.2.1
          have h2 : (p.storeEvent e).StoredVSyncPairs 1 = p.StoredVSyncPairs 1 := rfl
          rw [h2, hinv] at h1
          exact absurd h1 (by decide))]
        rfl

theorem HandleEventsCalls_flatten (M : LibOVREvents) (rd : List Nat → ℚ) :
    ∀ (calls : List (List EtwEvent)) (p : VSyncEventPartitioner),
      HandleEventsCalls M rd p calls = HandleEvents M rd p calls.flatten := by
  intro calls
  induction calls with
  | nil => intro p; rfl
  | cons es calls ih =>
    intro p
    rw [List.flatten_cons, HandleEvents_append]
    cases h : HandleEvents M rd p es with
    | none => simp only [HandleEventsCalls, h]
    | some r1 =>
      cases h2 : HandleEvents M rd r1.1 calls.flatten with
      | none => simp only [HandleEventsCalls, h, ih, h2]
      | some r2 => simp only [HandleEventsCalls, h, ih, h2]

end VSyncEventPartitioner

/-! ## Lemmas on the partitioner: the window of one VSync -/

namespace VSyncEventPartitioner

theorem vsyncsOf_FrameIndex_lt (M : LibOVREvents) (rd : List Nat → ℚ) (es : List EtwEvent) :
    ∀ x ∈ vsyncsOf M rd es, x.FrameIndex < 4294967296 := by
  intro x hx
  unfold vsyncsOf at hx
  rw [List.mem_map] at hx
  obtain ⟨e, _, rfl⟩ := hx
  exact Nat.mod_lt _ (by norm_num)

theorem usable_of_ne (M : LibOVREvents) (rd : List Nat → ℚ) (es : List EtwEvent)
    (hu : ∀ x ∈ vsyncsOf M rd es, x.VSyncTime ≠ 0 ∧ x.FrameIndex ≠ 4294967295) :
    ∀ x ∈ vsyncsOf M rd es, UsableVSync x := by
  intro x hx
  have h1 := vsyncsOf_FrameIndex_lt M rd es x hx
  have h2 := hu x hx
  exact ⟨h2.1, by omega⟩

theorem reverse_three {α : Type} (vs : List α) (h : 3 ≤ vs.length) :
    ∃ a b c rest, vs.reverse = a :: b :: c :: rest := by
  match hrv : vs.reverse with
  | [] =>
    have := congrArg List.length hrv
    rw [List.length_reverse] at this
    simp only [List.length_cons, List.length_nil] at this
    omega
  | [_] =>
    have := congrArg List.length hrv
    rw [List.length_reverse] at this
    simp only [List.length_cons, List.length_nil] at this
    omega
  | [_, _] =>
    have := congrArg List.length hrv
    rw [List.length_reverse] at this
    simp only [List.length_cons, List.length_nil] at this
    omega
  | a :: b :: c :: rest => exact ⟨a, b, c, rest, rfl⟩

/-- One VSync event at the end of a stream whose VSync payloads are usable: the window
reported, if any, in terms of the payloads seen before. -/
theorem vsync_step (M : LibOVREvents) (rd : List Nat → ℚ) (pre : List EtwEvent)
    (e : EtwEvent) (he : isVSync M e = true)
    (hu : ∀ x ∈ vsyncsOf M rd (pre ++ [e]), UsableVSync x) :
    ∃ p1 eff1 p2 eff2,
      HandleEvents M rd VSyncEventPartitioner.ctor pre = some (p1, eff1) ∧
      handleEvent M rd p1 e = some (p2, eff2) ∧
      HandleEvents M rd VSyncEventPartitioner.ctor (pre ++ [e]) = some (p2, eff1 ++ eff2) ∧
      ((vsyncsOf M rd pre).length < 3 → windowsOf eff2 = []) ∧
      (∀ a b c rest, (vsyncsOf M rd pre).reverse = a :: b :: c :: rest →
        ∃ r, (p1.storeEvent e).buildEventList 2048 c.VSyncTime
            (etwGetVSyncData rd e).VSyncTime = some r ∧
          (PartitionerEffect.printfIncreaseSize ∈ eff2 ↔ r.2 = true) ∧
          windowsOf eff2 =
            [{ v0 := c.VSyncTime
               v1 := b.VSyncTime
               v2 := a.VSyncTime
               v3 := (etwGetVSyncData rd e).VSyncTime
               ft := a.FrameIndex
               fn := (etwGetVSyncData rd e).FrameIndex
               bufferedEventSet := r.1 }]) := by
  rw [vsyncsOf_append, vsyncsOf_single_vsync M rd e he] at hu
  have hu1 : ∀ x ∈ vsyncsOf M rd pre, UsableVSync x :=
    fun x hx => hu x (List.mem_append_left _ hx)
  obtain ⟨p0, eff0, hrun0, hp⟩ := PairsOf_run M rd pre hu1
  obtain ⟨p1, eff1, p2, eff2, h1, h2, h3⟩ :=
    HandleEvents_snoc M rd VSyncEventPartitioner.ctor pre e
  rw [hrun0] at h1
  cases h1
  obtain ⟨p', eff', h4, _, _, _, hfew, hwin3⟩ := handleEvent_vsync_spec M rd _ p0 e hp
    (fun x hx => hu1 x (List.mem_reverse.mp hx)) he
    (hu _ (List.mem_append_right _ (List.mem_singleton_self _)))
  rw [h2] at h4
  cases h4
  rw [List.length_reverse] at hfew
  exact ⟨p0, eff0, p2, eff2, hrun0, h2, h3, hfew, hwin3⟩

/-- The event list of every window that one pass of the loop reports is what
`buildEventList` returns for the window's `v0` and `v3` on the ring after the store, and
the size diagnostic is printed only if `buildEventList` says so. -/
theorem handleEvent_windows (M : LibOVREvents) (rd : List Nat → ℚ)
    (p : VSyncEventPartitioner) (e : EtwEvent) (p2 : VSyncEventPartitioner)
    (eff2 : List PartitionerEffect) (h : handleEvent M rd p e = some (p2, eff2)) :
    (∀ w ∈ windowsOf eff2, ∃ r,
        (p.storeEvent e).buildEventList 2048 w.v0 w.v3 = some r ∧ w.bufferedEventSet = r.1) ∧
      (PartitionerEffect.printfIncreaseSize ∈ eff2 → ∃ b e' r,
        (p.storeEvent e).buildEventList 2048 b e' = some r ∧ r.2 = true) := by
  cases he : isVSync M e with
  | false =>
    rw [handleEvent_not_vsync M rd p e he] at h
    cases h
    exact ⟨fun w hw => by simp [windowsOf] at hw, fun hc => by simp at hc⟩
  | true =>
    rw [handleEvent_vsync M rd p e he] at h
    obtain ⟨p', eff', h4, _, _, _, hzero, hpush⟩ := handleVSync_spec (p.storeEvent e)
      (etwGetVSyncData rd e).VSyncTime (toInt32 ((etwGetVSyncData rd e).FrameIndex : Int))
      (storeEvent_lt p e)
    rw [h] at h4
    cases h4
    by_cases hl0 : (p.storeEvent e).LastVSyncTime = 0
    · rw [(hzero hl0).2]
      exact ⟨fun w hw => by simp [windowsOf] at hw, fun hc => by simp at hc⟩
    · obtain ⟨_, _, _, hno, hyes⟩ := hpush hl0
      by_cases hc : ((p.storeEvent e).StoredVSyncPairs 0).isValid = true ∧
          ((p.storeEvent e).StoredVSyncPairs 1).isValid = true ∧
          toInt32 ((etwGetVSyncData rd e).FrameIndex : Int) ≠ -1
      · obtain ⟨r, hr, hincr, hw⟩ := hyes hc
        refine ⟨fun w hmem => ?_, fun hi => ⟨_, _, r, hr, hincr.mp hi⟩⟩
        rw [hw, List.mem_singleton] at hmem
        subst hmem
        exact ⟨r, hr, rfl⟩
      · rw [hno hc]
        exact ⟨fun w hw => by simp [windowsOf] at hw, fun hc => by simp at hc⟩

/-- While fewer than 2048 valid events have arrived in chronological order, every window
carries exactly the events of its time span and the size diagnostic stays silent. -/
theorem buffered_step (M : LibOVREvents) (rd : List Nat → ℚ) (pre : List EtwEvent)
    (e : EtwEvent) (hvalid : ∀ x ∈ pre ++ [e], x.IsValid = true)
    (hs : Chronological (pre ++ [e])) (hlen : (pre ++ [e]).length < NumStoredEvents) :
    ∃ p1 eff1 p2 eff2,
      HandleEvents M rd VSyncEventPartitioner.ctor pre = some (p1, eff1) ∧
      handleEvent M rd p1 e = some (p2, eff2) ∧
      HandleEvents M rd VSyncEventPartitioner.ctor (pre ++ [e]) = some (p2, eff1 ++ eff2) ∧
      Buffered (pre ++ [e]) (p1.storeEvent e) ∧
      (∀ w ∈ windowsOf eff2,
        w.bufferedEventSet = (pre ++ [e]).filter (inWindow w.v0 w.v3)) ∧
      PartitionerEffect.printfIncreaseSize ∉ eff2 := by
  have hlen1 : pre.length + 1 < NumStoredEvents := by
    rw [List.length_append, List.length_singleton] at hlen
    exact hlen
  obtain ⟨p0, eff0, hrun0, hb⟩ := Buffered_run M rd pre (by omega)
  obtain ⟨p1, eff1, p2, eff2, h1, h2, h3⟩ :=
    HandleEvents_snoc M rd VSyncEventPartitioner.ctor pre e
  rw [hrun0] at h1
  cases h1
  have hb2 := Buffered_storeEvent pre p0 e hb hlen1
  have hbuild := buildEventList_Buffered (pre ++ [e]) (p0.storeEvent e) hb2 hvalid hs
  obtain ⟨hw, hi⟩ := handleEvent_windows M rd p0 e p2 eff2 h2
  refine ⟨p0, eff0, p2, eff2, hrun0, h2, h3, hb2, ?_, ?_⟩
  · intro w hmem
    obtain ⟨r, hr, hset⟩ := hw w hmem
    rw [hbuild] at hr
    cases hr
    exact hset
  · intro hc
    obtain ⟨b, e', r, hr, hr2⟩ := hi hc
    rw [hbuild] at hr
    cases hr
    exact Bool.false_ne_true hr2

/-- Events that are not VSync events are stored and report nothing. -/
theorem HandleEvents_no_vsync (M : LibOVREvents) (rd : List Nat → ℚ) :
    ∀ (mid : List EtwEvent) (p : VSyncEventPartitioner),
      (∀ m ∈ mid, isVSync M m = false) → ∃ p', HandleEvents M rd p mid = some (p', []) := by
  intro mid
  induction mid with
  | nil => intro p _; exact ⟨p, rfl⟩
  | cons m mid ih =>
    intro p hm
    obtain ⟨p', h⟩ := ih (p.storeEvent m) (fun x hx => hm x (List.mem_cons_of_mem _ hx))
    refine ⟨p', ?_⟩
    simp only [HandleEvents, handleEvent_not_vsync M rd p m (hm m (List.mem_cons_self _ _)), h,
      List.append_nil]

end VSyncEventPartitioner

/-! ## Lemmas on the partitioner: consecutive windows and the sample stream -/

namespace VSyncEventPartitioner

/-- One VSync event at the end of a short, valid, chronological stream with usable VSync
payloads, the fourth VSync or a later one: the window it reports. -/
theorem full_step (M : LibOVREvents) (rd : List Nat → ℚ) (pre : List EtwEvent)
    (e : EtwEvent) (he : isVSync M e = true)
    (hu : ∀ x ∈ vsyncsOf M rd (pre ++ [e]), UsableVSync x)
    (hvalid : ∀ x ∈ pre ++ [e], x.IsValid = true)
    (hs : Chronological (pre ++ [e])) (hlen : (pre ++ [e]).length < NumStoredEvents)
    (a b c : EtwData_VSync) (rest : List EtwData_VSync)
    (hrev : (vsyncsOf M rd pre).reverse = a :: b :: c :: rest) :
    ∃ p1 eff1 p2 eff2,
      HandleEvents M rd VSyncEventPartitioner.ctor pre = some (p1, eff1) ∧
      handleEvent M rd p1 e = some (p2, eff2) ∧
      HandleEvents M rd VSyncEventPartitioner.ctor (pre ++ [e]) = some (p2, eff1 ++ eff2) ∧
      windowsOf eff2 =
        [{ v0 := c.VSyncTime
           v1 := b.VSyncTime
           v2 := a.VSyncTime
           v3 := (etwGetVSyncData rd e).VSyncTime
           ft := a.FrameIndex
           fn := (etwGetVSyncData rd e).FrameIndex
           bufferedEventSet :=
             (pre ++ [e]).filter (inWindow c.VSyncTime (etwGetVSyncData rd e).VSyncTime) }] := by
  obtain ⟨p1, eff1, p2, eff2, h1, h2, h3, _, hwin⟩ := vsync_step M rd pre e he hu
  obtain ⟨q1, f1, q2, f2, g1, g2, _, _, hset, _⟩ := buffered_step M rd pre e hvalid hs hlen
  rw [h1] at g1
  cases g1
  rw [h2] at g2
  cases g2
  obtain ⟨r, _, _, hw⟩ := hwin a b c rest hrev
  have hr : r.1 = (pre ++ [e]).filter
      (inWindow c.VSyncTime (etwGetVSyncData rd e).VSyncTime) :=
    hset _ (by rw [hw]; exact List.mem_singleton_self _)
  refine ⟨p1, eff1, p2, eff2, h1, h2, h3, ?_⟩
  rw [hw, hr]

theorem vsyncsOf_no_vsync (M : LibOVREvents) (rd : List Nat → ℚ) (mid : List EtwEvent)
    (hmid : ∀ m ∈ mid, isVSync M m = false) : vsyncsOf M rd mid = [] := by
  unfold vsyncsOf
  rw [List.map_eq_nil_iff, List.filter_eq_nil_iff]
  intro m hm
  rw [hmid m hm]
  exact Bool.false_ne_true

/-- Two consecutive windows. With at least three VSyncs before `e1` and no VSync between
`e1` and `e2`, the window reported at `e2` starts at `v1` of the window reported at `e1`:
the two time spans overlap in two VSync intervals. -/
theorem two_windows (M : LibOVREvents) (rd : List Nat → ℚ) (pre mid : List EtwEvent)
    (e1 e2 : EtwEvent) (he1 : isVSync M e1 = true) (he2 : isVSync M e2 = true)
    (hmid : ∀ m ∈ mid, isVSync M m = false)
    (hu : ∀ x ∈ vsyncsOf M rd (pre ++ [e1] ++ mid ++ [e2]), UsableVSync x)
    (hvalid : ∀ x ∈ pre ++ [e1] ++ mid ++ [e2], x.IsValid = true)
    (hs : Chronological (pre ++ [e1] ++ mid ++ [e2]))
    (hlen : (pre ++ [e1] ++ mid ++ [e2]).length < NumStoredEvents)
    (a b c : EtwData_VSync) (rest : List EtwData_VSync)
    (hrev : (vsyncsOf M rd pre).reverse = a :: b :: c :: rest) :
    ∃ p1 eff1 p2 eff2 p3 p4 eff4,
      HandleEvents M rd VSyncEventPartitioner.ctor pre = some (p1, eff1) ∧
      handleEvent M rd p1 e1 = some (p2, eff2) ∧
      HandleEvents M rd p2 mid = some (p3, []) ∧
      handleEvent M rd p3 e2 = some (p4, eff4) ∧
      HandleEvents M rd VSyncEventPartitioner.ctor (pre ++ [e1] ++ mid ++ [e2]) =
        some (p4, eff1 ++ eff2 ++ eff4) ∧
      windowsOf eff2 =
        [{ v0 := c.VSyncTime
           v1 := b.VSyncTime
           v2 := a.VSyncTime
           v3 := (etwGetVSyncData rd e1).VSyncTime
           ft := a.FrameIndex
           fn := (etwGetVSyncData rd e1).FrameIndex
           bufferedEventSet :=
             (pre ++ [e1]).filter
               (inWindow c.VSyncTime (etwGetVSyncData rd e1).VSyncTime) }] ∧
      windowsOf eff4 =
        [{ v0 := b.VSyncTime
           v1 := a.VSyncTime
           v2 := (etwGetVSyncData rd e1).VSyncTime
           v3 := (etwGetVSyncData rd e2).VSyncTime
           ft := (etwGetVSyncData rd e1).FrameIndex
           fn := (etwGetVSyncData rd e2).FrameIndex
           bufferedEventSet :=
             (pre ++ [e1] ++ mid ++ [e2]).filter
               (inWindow b.VSyncTime (etwGetVSyncData rd e2).VSyncTime) }] := by
  have hsplit : pre ++ [e1] ++ mid ++ [e2] = (pre ++ [e1]) ++ (mid ++ [e2]) := by
    simp only [List.append_assoc]
  have hu1 : ∀ x ∈ vsyncsOf M rd (pre ++ [e1]), UsableVSync x := by
    intro x hx
    apply hu
    rw [hsplit, vsyncsOf_append]
    exact List.mem_append_left _ hx
  have hvalid1 : ∀ x ∈ pre ++ [e1], x.IsValid = true := by
    intro x hx
    apply hvalid
    rw [hsplit]
    exact List.mem_append_left _ hx
  have hs1 : Chronological (pre ++ [e1]) := by
    unfold Chronological at hs ⊢
    rw [hsplit] at hs
    exact (List.pairwise_append.mp hs).1
  have hlen1 : (pre ++ [e1]).length < NumStoredEvents := by
    rw [hsplit, List.length_append] at hlen
    omega
  obtain ⟨p1, eff1, p2, eff2, h1, h2, h3, hw1⟩ :=
    full_step M rd pre e1 he1 hu1 hvalid1 hs1 hlen1 a b c rest hrev
  have hrev2 : (vsyncsOf M rd (pre ++ [e1] ++ mid)).reverse =
      etwGetVSyncData rd e1 :: a :: b :: c :: rest := by
    rw [vsyncsOf_append, vsyncsOf_append, vsyncsOf_single_vsync M rd e1 he1,
      vsyncsOf_no_vsync M rd mid hmid, List.append_nil, List.reverse_append, hrev]
    rfl
  obtain ⟨q3, f3, p4, eff4, g1, g2, g3, hw2⟩ :=
    full_step M rd (pre ++ [e1] ++ mid) e2 he2 hu hvalid hs hlen _ a b (c :: rest) hrev2
  obtain ⟨p3, hm⟩ := HandleEvents_no_vsync M rd mid p2 hmid
  have hrun : HandleEvents M rd VSyncEventPartitioner.ctor (pre ++ [e1] ++ mid) =
      some (p3, eff1 ++ eff2) := by
    rw [HandleEvents_append, h3]
    simp only [hm, List.append_nil]
  have hinj := Option.some.inj (hrun.symm.trans g1)
  have hq : p3 = q3 := congrArg Prod.fst hinj
  have hf : eff1 ++ eff2 = f3 := congrArg Prod.snd hinj
  subst hq
  subst hf
  exact ⟨p1, eff1, p2, eff2, p3, p4, eff4, h1, h2, hm, g2, g3, hw1, hw2⟩

theorem sampleVSync_isVSync (t f : Nat) :
    isVSync EtwFrameListener.sampleEvents (sampleVSync t f) = true := by
  simp [isVSync, sampleVSync, EtwFrameListener.sampleEvents]

theorem sampleVSync_data (t f : Nat) (hf : f < 256) :
    etwGetVSyncData sampleReadDouble (sampleVSync t f) =
      { VSyncTime := (t : ℚ), FrameIndex := f, TwGpuEndTime := 0 } := by
  simp [etwGetVSyncData, sampleVSync, sampleReadDouble, readUInt32]
  omega

theorem sampleStream_succ (n : Nat) :
    sampleStream (n + 1) = sampleStream n ++ [sampleVSync (n + 1) n] := by
  unfold sampleStream
  rw [List.range_succ, List.map_append]
  rfl

theorem sampleStream_length (n : Nat) : (sampleStream n).length = n := by
  unfold sampleStream
  rw [List.length_map, List.length_range]

theorem sampleStream_valid (n : Nat) : ∀ x ∈ sampleStream n, x.IsValid = true := by
  intro x hx
  unfold sampleStream at hx
  rw [List.mem_map] at hx
  obtain ⟨k, _, rfl⟩ := hx
  rfl

theorem sampleStream_chronological (n : Nat) : Chronological (sampleStream n) := by
  unfold Chronological sampleStream
  rw [List.pairwise_map]
  refine (List.pairwise_lt_range n).imp ?_
  intro i j hij
  show ((i + 1 : Nat) : ℚ) ≤ ((j + 1 : Nat) : ℚ)
  exact_mod_cast (by omega : i + 1 ≤ j + 1)

theorem sampleStream_vsyncs (n : Nat) (hn : n ≤ 256) :
    vsyncsOf EtwFrameListener.sampleEvents sampleReadDouble (sampleStream n) =
      (List.range n).map (fun (k : Nat) =>
        ({ VSyncTime := ((k + 1 : Nat) : ℚ), FrameIndex := k, TwGpuEndTime := 0 } :
          EtwData_VSync)) := by
  unfold vsyncsOf sampleStream
  rw [List.filter_eq_self.mpr, List.map_map]
  · apply List.map_congr_left
    intro k hk
    rw [List.mem_range] at hk
    exact sampleVSync_data (k + 1) k (by omega)
  · intro x hx
    rw [List.mem_map] at hx
    obtain ⟨k, _, rfl⟩ := hx
    exact sampleVSync_isVSync _ _

theorem sampleStream_usable (n : Nat) (hn : n ≤ 256) :
    ∀ x ∈ vsyncsOf EtwFrameListener.sampleEvents sampleReadDouble (sampleStream n),
      UsableVSync x := by
  intro x hx
  rw [sampleStream_vsyncs n hn, List.mem_map] at hx
  obtain ⟨k, hk, rfl⟩ := hx
  rw [List.mem_range] at hk
  refine ⟨?_, ?_⟩
  · show ((k + 1 : Nat) : ℚ) ≠ 0
    exact_mod_cast Nat.succ_ne_zero k
  · show k < 4294967295
    omega

theorem sampleStream_usable_ne (n : Nat) (hn : n ≤ 256) :
    ∀ x ∈ vsyncsOf EtwFrameListener.sampleEvents sampleReadDouble (sampleStream n),
      x.VSyncTime ≠ 0 ∧ x.FrameIndex ≠ 4294967295 := by
  intro x hx
  have h := sampleStream_usable n hn x hx
  exact ⟨h.1, Nat.ne_of_lt h.2⟩

theorem sampleStream_five :
    sampleStream 3 ++ [sampleVSync 4 3] ++ [] ++ [sampleVSync 5 4] = sampleStream 5 := by
  rw [List.append_nil, ← sampleStream_succ 3, ← sampleStream_succ 4]

theorem sampleStream_three_vsyncs :
    (vsyncsOf EtwFrameListener.sampleEvents sampleReadDouble (sampleStream 3)).reverse =
      [{ VSyncTime := 3, FrameIndex := 2, TwGpuEndTime := 0 },
        { VSyncTime := 2, FrameIndex := 1, TwGpuEndTime := 0 },
        { VSyncTime := 1, FrameIndex := 0, TwGpuEndTime := 0 }] := by
  rw [sampleStream_vsyncs 3 (by decide)]
  simp [List.range_succ]
  norm_num

end VSyncEventPartitioner

/-! ## Lemmas on the stabilization callback -/

theorem analyseWindows_snoc (P : ℚ) (c : FrameCounters) (ws : List VSyncWindow)
    (w : VSyncWindow) :
    analyseWindows P c (ws ++ [w]) = handleVSyncEvents (analyseWindows P c ws) P w := by
  unfold analyseWindows
  rw [List.foldl_append]
  rfl

theorem handleVSyncEvents_reset (c : FrameCounters) (P : ℚ) (w : VSyncWindow)
    (h : w.v2 - w.v1 > P * (3 / 2) ∨ w.ft ≠ (c.lastFrameIndex + 1) % 4294967296) :
    handleVSyncEvents c P w =
      { numFrames := c.numFrames + 1, numValidFrames := 0 + 1, lastFrameIndex := w.ft } := by
  unfold handleVSyncEvents
  rw [if_pos h]

theorem handleVSyncEvents_keep (c : FrameCounters) (P : ℚ) (w : VSyncWindow)
    (h : ¬ (w.v2 - w.v1 > P * (3 / 2) ∨ w.ft ≠ (c.lastFrameIndex + 1) % 4294967296)) :
    handleVSyncEvents c P w =
      { numFrames := c.numFrames + 1, numValidFrames := c.numValidFrames + 1,
        lastFrameIndex := w.ft } := by
  unfold handleVSyncEvents
  rw [if_neg h]

/-- Windows at uniform spacing `P` whose frame indices run 2, 3, 4, ...: after the first
`j` of them the streak is `j`. The first window resets the streak, because its frame index
2 does not follow the initial `lastFrameIndex = 0`, and then counts as one. -/
theorem analyseWindows_uniform (P : ℚ) (hP : 0 ≤ P) (ws : List VSyncWindow)
    (hw : ∀ j w, ws[j]? = some w → w.v2 - w.v1 = P ∧ w.ft = j + 2)
    (hlen : ws.length + 2 < 4294967296) :
    ∀ j, j ≤ ws.length →
      (analyseWindows P FrameCounters.initial (ws.take j)).numValidFrames = (j : Int) ∧
      (analyseWindows P FrameCounters.initial (ws.take j)).lastFrameIndex =
        (if j = 0 then 0 else j + 1) := by
  intro j
  induction j with
  | zero => intro _; exact ⟨rfl, rfl⟩
  | succ j ih =>
    intro hj
    obtain ⟨i1, i2⟩ := ih (by omega)
    have hget : ws[j]? = some (ws.get ⟨j, by omega⟩) := List.getElem?_eq_getElem (by omega)
    obtain ⟨hd, hft⟩ := hw j _ hget
    rw [List.take_succ, hget, Option.toList_some, analyseWindows_snoc]
    have hnot : ¬ (ws.get ⟨j, by omega⟩).v2 - (ws.get ⟨j, by omega⟩).v1 > P * (3 / 2) := by
      rw [hd]
      intro hc
      linarith
    by_cases h0 : j = 0
    · subst h0
      rw [handleVSyncEvents_reset _ _ _ (Or.inr (by
        rw [i2, hft]
        norm_num))]
      refine ⟨by norm_num, ?_⟩
      show (ws.get ⟨0, by omega⟩).ft = _
      rw [hft]
      rfl
    · rw [handleVSyncEvents_keep _ _ _ (by
        rw [i2, if_neg h0, hft]
        intro hc
        rcases hc with hc | hc
        · exact hnot hc
        · apply hc
          rw [Nat.mod_eq_of_lt (by omega)])]
      refine ⟨?_, ?_⟩
      · show (analyseWindows P FrameCounters.initial (List.take j ws)).numValidFrames + 1 = _
        rw [i1]
        push_cast
        rfl
      · show (ws.get ⟨j, by omega⟩).ft = _
        rw [hft, if_neg (by omega)]

theorem sampleStream_vsyncs_length (n : Nat) (hn : n ≤ 256) :
    (vsyncsOf EtwFrameListener.sampleEvents sampleReadDouble (sampleStream n)).length = n := by
  rw [VSyncEventPartitioner.sampleStream_vsyncs n hn, List.length_map, List.length_range]

theorem sampleStream_vsyncs_get (n : Nat) (hn : n ≤ 256) :
    ∀ (k : Nat) x,
      (vsyncsOf EtwFrameListener.sampleEvents sampleReadDouble (sampleStream n))[k]? =
        some x →
      x.VSyncTime = 1 + (k : ℚ) * 1 ∧ x.VSyncTime ≠ 0 ∧ x.FrameIndex = k := by
  intro k x hk
  rw [VSyncEventPartitioner.sampleStream_vsyncs n hn, List.getElem?_map] at hk
  have hlt : k < n := by
    by_contra hc
    rw [List.getElem?_eq_none (by rw [List.length_range]; omega)] at hk
    exact absurd hk (by simp)
  rw [List.getElem?_range hlt] at hk
  simp only [Option.map_some', Option.some.injEq] at hk
  subst hk
  refine ⟨?_, ?_, rfl⟩
  · show ((k + 1 : Nat) : ℚ) = 1 + (k : ℚ) * 1
    push_cast
    ring
  · show ((k + 1 : Nat) : ℚ) ≠ 0
    exact_mod_cast Nat.succ_ne_zero k

namespace VSyncEventPartitioner

/-- After any stream the partitioner remembers the payload time of the last VSync event,
and 0 when there was none. -/
theorem LastVSyncTime_run (M : LibOVREvents) (rd : List Nat → ℚ) :
    ∀ (es : List EtwEvent),
      ∃ p effects, HandleEvents M rd VSyncEventPartitioner.ctor es = some (p, effects) ∧
        p.LastVSyncTime =
          ((vsyncsOf M rd es).getLast?.map EtwData_VSync.VSyncTime).getD 0 := by
  intro es
  induction es using List.reverseRecOn with
  | nil => exact ⟨_, _, rfl, rfl⟩
  | append_singleton es e ih =>
    obtain ⟨p, eff, hrun, hl⟩ := ih
    obtain ⟨p1, eff1, p2, eff2, h1, h2, h3⟩ :=
      HandleEvents_snoc M rd VSyncEventPartitioner.ctor es e
    rw [hrun] at h1
    cases h1
    refine ⟨p2, eff ++ eff2, h3, ?_⟩
    rw [vsyncsOf_append]
    cases he : isVSync M e with
    | false =>
      rw [handleEvent_not_vsync M rd p e he] at h2
      cases h2
      rw [vsyncsOf_single_other M rd e he, List.append_nil]
      exact hl
    | true =>
      rw [handleEvent_vsync M rd p e he] at h2
      obtain ⟨p', eff', h4, _, _, hlast, _⟩ := handleVSync_spec (p.storeEvent e)
        (etwGetVSyncData rd e).VSyncTime (toInt32 ((etwGetVSyncData rd e).FrameIndex : Int))
        (storeEvent_lt p e)
      rw [h2] at h4
      cases h4
      rw [vsyncsOf_single_vsync M rd e he, hlast]
      simp

/-- One VSync event at the end of any stream: it forms no pair when the remembered VSync
time is 0, and pushes one pair onto the front of the pair ring otherwise. -/
theorem vsync_pair_step (M : LibOVREvents) (rd : List Nat → ℚ) (pre : List EtwEvent)
    (e : EtwEvent) (he : isVSync M e = true) :
    ∃ p1 eff1 p2 eff2,
      HandleEvents M rd VSyncEventPartitioner.ctor pre = some (p1, eff1) ∧
      handleEvent M rd p1 e = some (p2, eff2) ∧
      HandleEvents M rd VSyncEventPartitioner.ctor (pre ++ [e]) = some (p2, eff1 ++ eff2) ∧
      p1.LastVSyncTime =
        ((vsyncsOf M rd pre).getLast?.map EtwData_VSync.VSyncTime).getD 0 ∧
      p2.LastVSyncTime = (etwGetVSyncData rd e).VSyncTime ∧
      (p1.LastVSyncTime = 0 → p2.StoredVSyncPairs = p1.StoredVSyncPairs ∧ eff2 = []) ∧
      (p1.LastVSyncTime ≠ 0 →
        p2.StoredVSyncPairs 0 =
          { vsyncBegin := p1.LastVSyncTime
            vsyncEnd := (etwGetVSyncData rd e).VSyncTime
            frameIndex := toInt32 ((etwGetVSyncData rd e).FrameIndex : Int) } ∧
        p2.StoredVSyncPairs 1 = p1.StoredVSyncPairs 0 ∧
        p2.StoredVSyncPairs 2 = p1.StoredVSyncPairs 1) := by
  obtain ⟨p, eff, hrun, hl⟩ := LastVSyncTime_run M rd pre
  obtain ⟨p1, eff1, p2, eff2, h1, h2, h3⟩ :=
    HandleEvents_snoc M rd VSyncEventPartitioner.ctor pre e
  rw [hrun] at h1
  cases h1
  have h2' := h2
  rw [handleEvent_vsync M rd p e he] at h2'
  obtain ⟨p', eff', h4, _, _, hlast, hzero, hpush⟩ := handleVSync_spec (p.storeEvent e)
    (etwGetVSyncData rd e).VSyncTime (toInt32 ((etwGetVSyncData rd e).FrameIndex : Int))
    (storeEvent_lt p e)
  rw [h2'] at h4
  cases h4
  refine ⟨p, eff, p2, eff2, hrun, h2, h3, hl, hlast, fun h0 => hzero h0, fun hne => ?_⟩
  obtain ⟨q0, q1, q2, _⟩ := hpush hne
  exact ⟨q0, q1, q2⟩

/-- The loop of `buildEventList` started `d` slots before the write index with room for
`d` more events: it ends within `d` passes, writes at most `d` events and does not reach
the size limit. -/
theorem buildEventListLoop_bound (ev : Nat → EtwEvent) (S : Nat) (hS : S < NumStoredEvents)
    (outSize : Nat) (b e : ℚ) :
    ∀ (fuel i numEvents : Nat), i < NumStoredEvents →
      (S + NumStoredEvents - i) % NumStoredEvents ≤ fuel →
      numEvents + (S + NumStoredEvents - i) % NumStoredEvents ≤ outSize →
      ∃ r, buildEventListLoop ev S outSize b e fuel i numEvents = some r ∧
        r.1.length ≤ (S + NumStoredEvents - i) % NumStoredEvents ∧ r.2 = false := by
  intro fuel
  induction fuel with
  | zero =>
    intro i n hi hd _
    have : i = S := by simp only [NumStoredEvents] at *; omega
    unfold buildEventListLoop
    exact ⟨([], false), by rw [if_pos this], Nat.zero_le _, rfl⟩
  | succ fuel ih =>
    intro i n hi hd hn
    unfold buildEventListLoop
    by_cases h : i = S
    · exact ⟨([], false), by rw [if_pos h], Nat.zero_le _, rfl⟩
    · rw [if_neg h]
      have hi1 : (i + 1) % NumStoredEvents < NumStoredEvents := Nat.mod_lt _ (by decide)
      have hstep : (S + NumStoredEvents - (i + 1) % NumStoredEvents) % NumStoredEvents + 1 =
          (S + NumStoredEvents - i) % NumStoredEvents := by
        simp only [NumStoredEvents] at *; omega
      dsimp only
      by_cases hw : (ev i).EventTime > b ∧ (ev i).EventTime ≤ e
      · rw [if_pos hw]
        have hlt : n ≠ outSize := by omega
        rw [if_neg hlt]
        obtain ⟨r, hr, hlen, hflag⟩ := ih ((i + 1) % NumStoredEvents) (n + 1) hi1
          (by omega) (by omega)
        refine ⟨(ev i :: r.1, r.2), by rw [hr], ?_, hflag⟩
        show r.1.length + 1 ≤ _
        omega
      · rw [if_neg hw]
        by_cases he : (ev i).EventTime > e
        · exact ⟨([], false), by rw [if_pos he], Nat.zero_le _, rfl⟩
        · rw [if_neg he]
          obtain ⟨r, hr, hlen, hflag⟩ := ih ((i + 1) % NumStoredEvents) n hi1
            (by omega) (by omega)
          exact ⟨r, hr, by omega, hflag⟩

/-- The result of the loop of `buildEventList` does not depend on the fuel once there is
enough of it. -/
theorem buildEventListLoop_fuel (ev : Nat → EtwEvent) (S : Nat) (hS : S < NumStoredEvents)
    (outSize : Nat) (b e : ℚ) :
    ∀ (fuel fuel' i numEvents : Nat), i < NumStoredEvents →
      (S + NumStoredEvents - i) % NumStoredEvents ≤ fuel →
      (S + NumStoredEvents - i) % NumStoredEvents ≤ fuel' →
      buildEventListLoop ev S outSize b e fuel i numEvents =
        buildEventListLoop ev S outSize b e fuel' i numEvents := by
  intro fuel
  induction fuel with
  | zero =>
    intro fuel' i n hi hd _
    have : i = S := by simp only [NumStoredEvents] at *; omega
    unfold buildEventListLoop
    rw [if_pos this, if_pos this]
  | succ fuel ih =>
    intro fuel' i n hi hd hd'
    by_cases h : i = S
    · unfold buildEventListLoop
      rw [if_pos h, if_pos h]
    · cases fuel' with
      | zero =>
        have : i = S := by simp only [NumStoredEvents] at *; omega
        exact absurd this h
      | succ fuel' =>
        have hi1 : (i + 1) % NumStoredEvents < NumStoredEvents := Nat.mod_lt _ (by decide)
        have hstep : (S + NumStoredEvents - (i + 1) % NumStoredEvents) % NumStoredEvents + 1 =
            (S + NumStoredEvents - i) % NumStoredEvents := by
          simp only [NumStoredEvents] at *; omega
        rw [buildEventListLoop, buildEventListLoop, if_neg h, if_neg h]
        dsimp only
        rw [ih fuel' ((i + 1) % NumStoredEvents) (n + 1) hi1 (by omega) (by omega),
          ih fuel' ((i + 1) % NumStoredEvents) n hi1 (by omega) (by omega)]

end VSyncEventPartitioner

/-! ## Lemmas on the ring buffer -/

namespace EtwFrameListener

theorem slots_zero (ev : Nat → EtwEvent) (i : Nat) : slots ev i 0 = [] := by
  simp [slots]

theorem slots_length (ev : Nat → EtwEvent) (i n : Nat) : (slots ev i n).length = n := by
  simp [slots]

theorem slots_succ (ev : Nat → EtwEvent) (i n : Nat) (hi : i < NumStoredEvents) :
    slots ev i (n + 1) = ev i :: slots ev ((i + 1) % NumStoredEvents) n := by
  unfold slots
  rw [List.range_succ_eq_map, List.map_cons, List.map_map]
  have h0 : (i + 0) % NumStoredEvents = i := by simp only [NumStoredEvents] at *; omega
  rw [h0]
  congr 1
  apply List.map_congr_left
  intro k _
  have hk : (i + (k + 1)) % NumStoredEvents = ((i + 1) % NumStoredEvents + k) % NumStoredEvents := by
    simp only [NumStoredEvents]; omega
  simp [Function.comp, hk]

theorem slots_succ_last (ev : Nat → EtwEvent) (i n : Nat) :
    slots ev i (n + 1) = slots ev i n ++ [ev ((i + n) % NumStoredEvents)] := by
  unfold slots
  rw [List.range_succ, List.map_append]
  rfl

theorem slots_add (ev : Nat → EtwEvent) (i a b : Nat) :
    slots ev i (a + b) = slots ev i a ++ slots ev ((i + a) % NumStoredEvents) b := by
  induction b with
  | zero => simp [slots_zero]
  | succ b ih =>
    rw [← Nat.add_assoc, slots_succ_last, ih, slots_succ_last, List.append_assoc]
    have h : ((i + a) % NumStoredEvents + b) % NumStoredEvents = (i + (a + b)) % NumStoredEvents := by
      simp only [NumStoredEvents]; omega
    rw [h]

theorem gatherEvents_eq (ev : Nat → EtwEvent) (S : Nat) (hS : S < NumStoredEvents) :
    ∀ (room i : Nat), i < NumStoredEvents →
      gatherEvents ev S room i =
        (slots ev i (min room ((S + NumStoredEvents - i) % NumStoredEvents)),
          (i + min room ((S + NumStoredEvents - i) % NumStoredEvents)) % NumStoredEvents) := by
  intro room
  induction room with
  | zero =>
    intro i hi
    simp [gatherEvents, slots_zero, Nat.mod_eq_of_lt hi]
  | succ room ih =>
    intro i hi
    unfold gatherEvents
    by_cases h : i = S
    · subst h
      have h1 : (i + NumStoredEvents - i) % NumStoredEvents = 0 := by
        simp only [NumStoredEvents] at *; omega
      simp [h1, slots_zero, Nat.mod_eq_of_lt hi]
    · have hi1 : (i + 1) % NumStoredEvents < NumStoredEvents := by
        simp only [NumStoredEvents]; omega
      rw [if_neg h, ih _ hi1]
      have hm : min (room + 1) ((S + NumStoredEvents - i) % NumStoredEvents) =
          min room ((S + NumStoredEvents - (i + 1) % NumStoredEvents) % NumStoredEvents) + 1 := by
        simp only [NumStoredEvents] at *; omega
      rw [hm, slots_succ ev i _ hi]
      have hj : ((i + 1) % NumStoredEvents +
          min room ((S + NumStoredEvents - (i + 1) % NumStoredEvents) % NumStoredEvents)) % NumStoredEvents =
          (i + (min room ((S + NumStoredEvents - (i + 1) % NumStoredEvents) % NumStoredEvents) + 1)) %
            NumStoredEvents := by
        simp only [NumStoredEvents] at *; omega
      simp [hj]

theorem batches_zero (ev : Nat → EtwEvent) (i : Nat) : batches ev i 0 = [] := by
  unfold batches
  rw [show (0 + (NumStackEvents - 1)) / NumStackEvents = 0 from rfl]
  rfl

theorem batches_pos (ev : Nat → EtwEvent) (i u : Nat) (hi : i < NumStoredEvents)
    (hu : 0 < u) :
    batches ev i u =
      slots ev i (min NumStackEvents u) ::
        batches ev ((i + min NumStackEvents u) % NumStoredEvents) (u - min NumStackEvents u) := by
  unfold batches
  by_cases hle : u ≤ NumStackEvents
  · have h1 : (u + (NumStackEvents - 1)) / NumStackEvents = 1 := by
      simp only [NumStackEvents] at *; omega
    have h2 : (u - min NumStackEvents u + (NumStackEvents - 1)) / NumStackEvents = 0 := by
      simp only [NumStackEvents] at *; omega
    rw [h1, h2, show List.range 1 = [0] from rfl]
    simp [Nat.mod_eq_of_lt hi]
  · have hm : min NumStackEvents u = NumStackEvents := by
      simp only [NumStackEvents] at *; omega
    have h1 : (u + (NumStackEvents - 1)) / NumStackEvents =
        (u - NumStackEvents + (NumStackEvents - 1)) / NumStackEvents + 1 := by
      simp only [NumStackEvents] at *; omega
    rw [hm, h1, List.range_succ_eq_map, List.map_cons, List.map_map]
    have h0 : (i + NumStackEvents * 0) % NumStoredEvents = i := by
      simp [Nat.mod_eq_of_lt hi]
    have h3 : min NumStackEvents (u - NumStackEvents * 0) = NumStackEvents := by
      simp only [NumStackEvents] at *; omega
    rw [h0, h3]
    refine congrArg (List.cons _) ?_
    apply List.map_congr_left
    intro j _
    have hj : (i + NumStackEvents * (j + 1)) % NumStoredEvents =
        ((i + NumStackEvents) % NumStoredEvents + NumStackEvents * j) % NumStoredEvents := by
      simp only [NumStackEvents, NumStoredEvents]; omega
    have hk : u - NumStackEvents * (j + 1) = u - NumStackEvents - NumStackEvents * j := by
      simp only [NumStackEvents]; omega
    simp [Function.comp, hj, hk]

theorem HandleEventsBody_eq (l : EtwFrameListener) (hv : Valid l) :
    HandleEventsBody l =
      ((if l.NumLostEvents > 0 then
          { l with
            UnprocessedEventsIndex :=
              (l.UnprocessedEventsIndex + min NumStackEvents (unread l)) % NumStoredEvents
            Errors := l.Errors ++ [lostEventsError l.NumLostEvents]
            NumLostEvents := 0 }
        else
          { l with
            UnprocessedEventsIndex :=
              (l.UnprocessedEventsIndex + min NumStackEvents (unread l)) % NumStoredEvents }),
        (l.UnprocessedEventsIndex + min NumStackEvents (unread l)) % NumStoredEvents,
        (if l.NumLostEvents > 0 then
            [HandlerEffect.pushError (lostEventsError l.NumLostEvents)]
          else []) ++
          [HandlerEffect.eventHandler
            (slots l.StoredEvents l.UnprocessedEventsIndex (min NumStackEvents (unread l)))]) := by
  unfold HandleEventsBody
  simp only [gatherEvents_eq l.StoredEvents l.StoredEventIndex hv.1 NumStackEvents
    l.UnprocessedEventsIndex hv.2]
  by_cases h : l.NumLostEvents > 0
  · simp [h, pushError, lostEventsError, unread]
  · simp [h, unread]

theorem HandleEventsLoop_eq : ∀ (fuel : Nat) (l : EtwFrameListener), Valid l →
    unread l ≤ fuel * NumStackEvents →
    HandleEventsLoop fuel l.UnprocessedEventsIndex l = some (drained l, drainEffects l) := by
  intro fuel
  induction fuel with
  | zero =>
    intro l hv hu
    have h : l.UnprocessedEventsIndex = l.StoredEventIndex := by
      unfold Valid at hv
      unfold unread at hu
      simp only [NumStoredEvents, NumStackEvents] at *
      omega
    have h0 : unread l = 0 := by
      unfold unread; rw [h]; simp only [NumStoredEvents]; omega
    unfold HandleEventsLoop
    simp [h, drained, drainEffects, h0, batches_zero]
  | succ fuel ih =>
    intro l hv hu
    unfold HandleEventsLoop
    by_cases h : l.UnprocessedEventsIndex = l.StoredEventIndex
    · have h0 : unread l = 0 := by
        unfold unread; rw [h]; simp only [NumStoredEvents]; omega
      simp [h, drained, drainEffects, h0, batches_zero]
    · rw [if_neg h]
      have hpos : 0 < unread l := by
        unfold Valid at hv
        unfold unread
        simp only [NumStoredEvents] at *
        omega
      have hlt : unread l < NumStoredEvents := by
        unfold unread; simp only [NumStoredEvents]; omega
      simp only [HandleEventsBody_eq l hv]
      by_cases hl : l.NumLostEvents > 0
      · simp only [if_pos hl]
        have hv1 : Valid { l with
            UnprocessedEventsIndex :=
              (l.UnprocessedEventsIndex + min NumStackEvents (unread l)) % NumStoredEvents
            Errors := l.Errors ++ [lostEventsError l.NumLostEvents]
            NumLostEvents := 0 } := by
          unfold Valid at *
          simp only [NumStoredEvents] at *
          omega
        have hu1 : unread { l with
            UnprocessedEventsIndex :=
              (l.UnprocessedEventsIndex + min NumStackEvents (unread l)) % NumStoredEvents
            Errors := l.Errors ++ [lostEventsError l.NumLostEvents]
            NumLostEvents := 0 } = unread l - min NumStackEvents (unread l) := by
          unfold Valid at hv
          unfold unread at *
          simp only [NumStoredEvents, NumStackEvents] at *
          omega
        have hih := ih _ hv1 (by rw [hu1]; simp only [NumStackEvents] at *; omega)
        simp only [] at hih
        rw [hih]
        simp only [drained, drainEffects, hu1, if_neg h]
        rw [batches_pos l.StoredEvents l.UnprocessedEventsIndex (unread l) hv.2 hpos]
        simp [h, hl]
      · simp only [if_neg hl]
        have hl0 : l.NumLostEvents = 0 := by omega
        have hv1 : Valid { l with
            UnprocessedEventsIndex :=
              (l.UnprocessedEventsIndex + min NumStackEvents (unread l)) % NumStoredEvents } := by
          unfold Valid at *
          simp only [NumStoredEvents] at *
          omega
        have hu1 : unread { l with
            UnprocessedEventsIndex :=
              (l.UnprocessedEventsIndex + min NumStackEvents (unread l)) % NumStoredEvents } =
              unread l - min NumStackEvents (unread l) := by
          unfold Valid at hv
          unfold unread at *
          simp only [NumStoredEvents, NumStackEvents] at *
          omega
        have hih := ih _ hv1 (by rw [hu1]; simp only [NumStackEvents] at *; omega)
        simp only [] at hih
        rw [hih]
        simp only [drained, drainEffects, hu1, if_neg h]
        rw [batches_pos l.StoredEvents l.UnprocessedEventsIndex (unread l) hv.2 hpos]
        simp [h, hl0]

theorem HandleEvents_eq (l : EtwFrameListener) (hv : Valid l) :
    HandleEvents l = some (drained l, drainEffects l) := by
  unfold HandleEvents
  apply HandleEventsLoop_eq NumStoredEvents l hv
  unfold unread
  simp only [NumStoredEvents, NumStackEvents]
  omega

theorem handlerCalls_map (bs : List (List EtwEvent)) :
    handlerCalls (bs.map HandlerEffect.eventHandler) = bs := by
  induction bs with
  | nil => rfl
  | cons b bs ih => simp [handlerCalls, ih]

theorem pushedErrors_map (bs : List (List EtwEvent)) :
    pushedErrors (bs.map HandlerEffect.eventHandler) = [] := by
  induction bs with
  | nil => rfl
  | cons b bs ih => simp [pushedErrors, ih]

theorem handlerCalls_drainEffects (l : EtwFrameListener) :
    handlerCalls (drainEffects l) =
      batches l.StoredEvents l.UnprocessedEventsIndex (unread l) := by
  unfold drainEffects
  split
  · simp [handlerCalls, handlerCalls_map]
  · simp [handlerCalls_map]

theorem batches_join (ev : Nat → EtwEvent) :
    ∀ (u i : Nat), i < NumStoredEvents → (batches ev i u).flatten = slots ev i u := by
  intro u
  induction u using Nat.strong_induction_on with
  | _ u ih =>
    intro i hi
    by_cases hu : u = 0
    · subst hu
      simp [batches_zero, slots_zero]
    · have hpos : 0 < u := Nat.pos_of_ne_zero hu
      rw [batches_pos ev i u hi hpos, List.flatten_cons]
      have hm : 0 < min NumStackEvents u := by simp only [NumStackEvents]; omega
      rw [ih (u - min NumStackEvents u) (by omega) _ (Nat.mod_lt _ (by decide)),
        ← slots_add]
      congr 1
      omega

theorem batches_length (ev : Nat → EtwEvent) (i u : Nat) :
    (batches ev i u).length = (u + (NumStackEvents - 1)) / NumStackEvents := by
  simp [batches]

theorem batches_getElem (ev : Nat → EtwEvent) (i u j : Nat) (b : List EtwEvent)
    (h : (batches ev i u)[j]? = some b) :
    b.length = min NumStackEvents (u - NumStackEvents * j) ∧
      j < (u + (NumStackEvents - 1)) / NumStackEvents := by
  unfold batches at h
  rw [List.getElem?_map] at h
  cases hr : (List.range ((u + (NumStackEvents - 1)) / NumStackEvents))[j]? with
  | none => rw [hr] at h; simp at h
  | some k =>
    rw [hr] at h
    have hk := List.getElem?_eq_some.mp hr
    obtain ⟨hlt, hkj⟩ := hk
    simp only [List.getElem_range] at hkj
    simp only [List.length_range] at hlt
    subst hkj
    simp only [Option.map_some', Option.some.injEq] at h
    subst h
    exact ⟨slots_length _ _ _, hlt⟩

theorem storeEvent_StoredEvents (l : EtwFrameListener) (e : EtwEvent) :
    (storeEvent l e).StoredEvents = Function.update l.StoredEvents l.StoredEventIndex e := by
  unfold storeEvent SignalWork
  dsimp only
  split_ifs <;> rfl

theorem storeEvent_StoredEventIndex (l : EtwFrameListener) (e : EtwEvent) :
    (storeEvent l e).StoredEventIndex = (l.StoredEventIndex + 1) % NumStoredEvents := by
  unfold storeEvent SignalWork
  dsimp only
  split_ifs <;> rfl

theorem storeEvent_UnprocessedEventsIndex (l : EtwFrameListener) (e : EtwEvent) :
    (storeEvent l e).UnprocessedEventsIndex =
      if (l.StoredEventIndex + 1) % NumStoredEvents = l.UnprocessedEventsIndex then
        (l.UnprocessedEventsIndex + 1) % NumStoredEvents
      else l.UnprocessedEventsIndex := by
  unfold storeEvent SignalWork
  dsimp only
  split_ifs <;> rfl

theorem storeEvent_NumLostEvents (l : EtwFrameListener) (e : EtwEvent) :
    (storeEvent l e).NumLostEvents =
      if (l.StoredEventIndex + 1) % NumStoredEvents = l.UnprocessedEventsIndex then
        l.NumLostEvents + 1
      else l.NumLostEvents := by
  unfold storeEvent SignalWork
  dsimp only
  split_ifs <;> rfl

theorem storeEvent_Errors (l : EtwFrameListener) (e : EtwEvent) :
    (storeEvent l e).Errors = l.Errors := by
  unfold storeEvent SignalWork
  dsimp only
  split_ifs <;> rfl

theorem storeEvent_EtwDataConv (l : EtwFrameListener) (e : EtwEvent) :
    (storeEvent l e).EtwDataConv = l.EtwDataConv := by
  unfold storeEvent SignalWork
  dsimp only
  split_ifs <;> rfl

theorem storeEvent_Valid (l : EtwFrameListener) (e : EtwEvent) (hv : Valid l) :
    Valid (storeEvent l e) := by
  unfold Valid at *
  rw [storeEvent_StoredEventIndex, storeEvent_UnprocessedEventsIndex]
  refine ⟨Nat.mod_lt _ (by decide), ?_⟩
  split_ifs
  · exact Nat.mod_lt _ (by decide)
  · exact hv.2

theorem storeEvent_unread (l : EtwFrameListener) (e : EtwEvent) (hv : Valid l) :
    unread (storeEvent l e) = min (unread l + 1) (NumStoredEvents - 1) := by
  unfold Valid at hv
  unfold unread
  rw [storeEvent_StoredEventIndex, storeEvent_UnprocessedEventsIndex]
  split_ifs <;> simp only [NumStoredEvents] at * <;> omega

theorem storeEvent_lost (l : EtwFrameListener) (e : EtwEvent) (hv : Valid l) :
    (storeEvent l e).NumLostEvents =
      l.NumLostEvents + (unread l + 1 - (NumStoredEvents - 1)) := by
  unfold Valid at hv
  unfold unread
  rw [storeEvent_NumLostEvents]
  split_ifs <;> simp only [NumStoredEvents] at * <;> omega

theorem slots_update (ev : Nat → EtwEvent) (s : Nat) (e : EtwEvent) (i n : Nat)
    (h : ∀ k, k < n → (i + k) % NumStoredEvents ≠ s) :
    slots (Function.update ev s e) i n = slots ev i n := by
  unfold slots
  apply List.map_congr_left
  intro k hk
  rw [List.mem_range] at hk
  exact Function.update_noteq (h k hk) e ev

theorem storeEvent_unreadEvents (l : EtwFrameListener) (e : EtwEvent) (hv : Valid l) :
    unreadEvents (storeEvent l e) =
      (unreadEvents l ++ [e]).drop (unread l + 1 - (NumStoredEvents - 1)) := by
  have hu := storeEvent_unread l e hv
  unfold unreadEvents
  rw [hu, storeEvent_StoredEvents, storeEvent_UnprocessedEventsIndex]
  unfold Valid at hv
  by_cases h : (l.StoredEventIndex + 1) % NumStoredEvents = l.UnprocessedEventsIndex
  · rw [if_pos h]
    have h1 : unread l = (NumStoredEvents - 2) + 1 := by
      unfold unread; simp only [NumStoredEvents] at *; omega
    have h2 : min (unread l + 1) (NumStoredEvents - 1) = (NumStoredEvents - 2) + 1 := by
      rw [h1]; rfl
    have h3 : unread l + 1 - (NumStoredEvents - 1) = 1 := by rw [h1]; rfl
    rw [h2, h3, h1, slots_succ _ l.UnprocessedEventsIndex _ hv.2, slots_succ_last,
      slots_update]
    · have h4 : ((l.UnprocessedEventsIndex + 1) % NumStoredEvents + (NumStoredEvents - 2)) %
          NumStoredEvents = l.StoredEventIndex := by
        simp only [NumStoredEvents] at *; omega
      rw [h4]
      simp
    · intro k hk
      simp only [NumStoredEvents] at *
      omega
  · rw [if_neg h]
    have h1 : unread l + 1 ≤ NumStoredEvents - 1 := by
      unfold unread; simp only [NumStoredEvents] at *; omega
    have h2 : min (unread l + 1) (NumStoredEvents - 1) = unread l + 1 := by omega
    have h3 : unread l + 1 - (NumStoredEvents - 1) = 0 := by omega
    rw [h2, h3, slots_succ_last, slots_update]
    · have h4 : (l.UnprocessedEventsIndex + unread l) % NumStoredEvents =
          l.StoredEventIndex := by
        unfold unread; simp only [NumStoredEvents] at *; omega
      rw [h4]
      simp
    · intro k hk
      unfold unread at hk
      simp only [NumStoredEvents] at *
      omega

theorem unread_lt (l : EtwFrameListener) : unread l < NumStoredEvents :=
  Nat.mod_lt _ (by decide)

theorem unreadEvents_length (l : EtwFrameListener) : (unreadEvents l).length = unread l :=
  slots_length _ _ _

theorem unread_add (l : EtwFrameListener) (hv : Valid l) :
    (l.UnprocessedEventsIndex + unread l) % NumStoredEvents = l.StoredEventIndex := by
  unfold Valid at hv
  unfold unread
  simp only [NumStoredEvents] at *
  omega

theorem storeEvents_spec : ∀ (es : List EtwEvent) (l : EtwFrameListener), Valid l →
    Valid (storeEvents l es) ∧
      unread (storeEvents l es) = min (unread l + es.length) (NumStoredEvents - 1) ∧
      (storeEvents l es).NumLostEvents =
        l.NumLostEvents + (unread l + es.length - (NumStoredEvents - 1)) ∧
      unreadEvents (storeEvents l es) =
        (unreadEvents l ++ es).drop (unread l + es.length - (NumStoredEvents - 1)) ∧
      (storeEvents l es).Errors = l.Errors ∧
      (storeEvents l es).EtwDataConv = l.EtwDataConv := by
  intro es
  induction es with
  | nil =>
    intro l hv
    have h := unread_lt l
    refine ⟨hv, ?_, ?_, ?_, rfl, rfl⟩
    · simp only [storeEvents, List.foldl_nil, List.length_nil, NumStoredEvents] at *; omega
    · simp only [storeEvents, List.foldl_nil, List.length_nil, NumStoredEvents] at *; omega
    · have h0 : unread l + ([] : List EtwEvent).length - (NumStoredEvents - 1) = 0 := by
        simp only [List.length_nil, NumStoredEvents] at *; omega
      rw [h0]
      simp [storeEvents]
  | cons e es ih =>
    intro l hv
    have h := unread_lt l
    have hv1 := storeEvent_Valid l e hv
    obtain ⟨i1, i2, i3, i4, i5, i6⟩ := ih (storeEvent l e) hv1
    have hu1 := storeEvent_unread l e hv
    have hl1 := storeEvent_lost l e hv
    have he1 := storeEvent_unreadEvents l e hv
    have hs : storeEvents l (e :: es) = storeEvents (storeEvent l e) es := rfl
    rw [hs]
    refine ⟨i1, ?_, ?_, ?_, ?_, ?_⟩
    · rw [i2, hu1]
      simp only [List.length_cons, NumStoredEvents] at *
      omega
    · rw [i3, hl1, hu1]
      simp only [List.length_cons, NumStoredEvents] at *
      omega
    · rw [i4, he1, hu1, ← List.drop_append_of_le_length, List.drop_drop, List.append_assoc,
        List.singleton_append]
      · refine congrFun (congrArg List.drop ?_) _
        simp only [List.length_cons, NumStoredEvents] at *
        omega
      · rw [List.length_append, unreadEvents_length]
        simp only [List.length_singleton, NumStoredEvents] at *
        omega
    · rw [i5, storeEvent_Errors]
    · rw [i6, storeEvent_EtwDataConv]

theorem ProcessEvent_accepted (M : LibOVREvents) (l : EtwFrameListener) (p : EVENT_RECORD)
    (h : accepted M l.EtwDataConv p) :
    ProcessEvent M l p = storeEvent l (deserialized M l.EtwDataConv p) := by
  unfold ProcessEvent
  obtain ⟨h1, h2⟩ := h
  simp [h1, h2, deserialized]

theorem ProcessEvent_rejected (M : LibOVREvents) (l : EtwFrameListener) (p : EVENT_RECORD)
    (h : ¬ accepted M l.EtwDataConv p) :
    ProcessEvent M l p = l := by
  unfold ProcessEvent
  unfold accepted at h
  by_cases h1 : p.Flags &&& EVENT_HEADER_FLAG_CLASSIC_HEADER = 0
  · have h2 : ¬ (l.EtwDataConv.Deserialize M p EtwEvent.ctor).ok = true := fun hc => h ⟨h1, hc⟩
    simp [h1, h2]
  · simp [h1]

theorem ProcessEvents_accepted (M : LibOVREvents) :
    ∀ (ps : List EVENT_RECORD) (l : EtwFrameListener),
      (∀ p ∈ ps, accepted M l.EtwDataConv p) →
      ProcessEvents M l ps = storeEvents l (ps.map (deserialized M l.EtwDataConv)) := by
  intro ps
  induction ps with
  | nil => intro l _; rfl
  | cons p ps ih =>
    intro l h
    have hp := h p (List.mem_cons_self _ _)
    have hs : ProcessEvents M l (p :: ps) = ProcessEvents M (ProcessEvent M l p) ps := rfl
    rw [hs, ProcessEvent_accepted M l p hp]
    have hc := storeEvent_EtwDataConv l (deserialized M l.EtwDataConv p)
    rw [ih (storeEvent l (deserialized M l.EtwDataConv p))
      (by rw [hc]; exact fun q hq => h q (List.mem_cons_of_mem _ hq)), hc]
    rfl

theorem ctor_Valid (M : LibOVREvents) (freq : Nat) (signalMessages : Int)
    (startupErrors : List EtwListenerError) (workPending : Bool) :
    Valid (EtwFrameListener.ctor M freq signalMessages startupErrors workPending) := by
  show (0 : Nat) < NumStoredEvents ∧ (0 : Nat) < NumStoredEvents
  decide

theorem drained_Valid (l : EtwFrameListener) (hv : Valid l) : Valid (drained l) := by
  unfold drained
  by_cases h : l.UnprocessedEventsIndex = l.StoredEventIndex
  · rw [if_pos h]; exact hv
  · rw [if_neg h]; exact ⟨hv.1, hv.1⟩

theorem ProcessEvent_Valid (M : LibOVREvents) (l : EtwFrameListener) (p : EVENT_RECORD)
    (hv : Valid l) : Valid (ProcessEvent M l p) := by
  by_cases h : accepted M l.EtwDataConv p
  · rw [ProcessEvent_accepted M l p h]
    exact storeEvent_Valid l _ hv
  · rw [ProcessEvent_rejected M l p h]
    exact hv

theorem Reachable_Valid (M : LibOVREvents) (l : EtwFrameListener) (h : Reachable M l) :
    Valid l := by
  induction h with
  | ctor freq signalMessages startupErrors workPending => exact ctor_Valid M _ _ _ _
  | ProcessEvent p _ ih => exact ProcessEvent_Valid M _ p ih
  | HandleEvents _ hd ih =>
    rw [HandleEvents_eq _ ih] at hd
    cases hd
    exact drained_Valid _ ih

theorem unread_eq_zero_iff (l : EtwFrameListener) (hv : Valid l) :
    unread l = 0 ↔ l.UnprocessedEventsIndex = l.StoredEventIndex := by
  unfold Valid at hv
  unfold unread
  simp only [NumStoredEvents] at *
  omega

theorem drained_cursors (l : EtwFrameListener) :
    (drained l).UnprocessedEventsIndex = (drained l).StoredEventIndex ∧
      (drained l).StoredEventIndex = l.StoredEventIndex ∧
      (drained l).StoredEvents = l.StoredEvents := by
  unfold drained
  by_cases h : l.UnprocessedEventsIndex = l.StoredEventIndex
  · rw [if_pos h]; exact ⟨h, rfl, rfl⟩
  · rw [if_neg h]; exact ⟨rfl, rfl, rfl⟩

end EtwFrameListener

/-! ## Lemmas on the registry and the deserialiser -/

theorem find_registerStruct (conv : EtwEventDataConv) (provider : EtwProviders)
    (eventId structSize : Nat) (version : Int) (key : EtwEventKey) :
    (conv.registerStruct provider eventId structSize version).find key =
      if key = ⟨provider, eventId⟩ ∧ conv.find key = none then some ⟨structSize, version⟩
      else conv.find key := by
  unfold EtwEventDataConv.registerStruct
  by_cases hk : key = ⟨provider, eventId⟩
  · rw [← hk]
    cases hf : conv.find key with
    | some info =>
      rw [if_neg (fun hc => by simp at hc)]
      exact hf
    | none =>
      rw [if_pos ⟨rfl, rfl⟩]
      have hf2 := hf
      unfold EtwEventDataConv.find at hf2
      rw [Option.map_eq_none'] at hf2
      show Option.map Prod.snd (List.find? (fun kv => decide (kv.1 = key))
        (conv.EventToDeserializeMap ++ [(key, ⟨structSize, version⟩)])) = _
      simp [List.find?_append, hf2]
  · rw [if_neg (fun hc => hk hc.1)]
    cases hf : conv.find ⟨provider, eventId⟩ with
    | some info => rfl
    | none =>
      have hk2 : ¬ (({ Provider := provider, Id := eventId } : EtwEventKey) = key) :=
        fun hc => hk hc.symm
      unfold EtwEventDataConv.find
      simp only [List.find?_append]
      cases hm : List.find? (fun kv => decide (kv.1 = key)) conv.EventToDeserializeMap with
      | some kv => simp
      | none => simp [hk2]

theorem Deserialize_of_find_none (M : LibOVREvents) (conv : EtwEventDataConv)
    (event : EVENT_RECORD) (buffer : EtwEvent)
    (hf : conv.find ⟨etwLookupProviderId M event.ProviderId, event.Id⟩ = none) :
    conv.Deserialize M event buffer = { ok := false, buffer := buffer, log := [] } := by
  unfold EtwEventDataConv.Deserialize
  simp only [hf]

theorem Deserialize_of_find_some (M : LibOVREvents) (conv : EtwEventDataConv)
    (event : EVENT_RECORD) (buffer : EtwEvent) (info : EtwStructInfo)
    (hf : conv.find ⟨etwLookupProviderId M event.ProviderId, event.Id⟩ = some info) :
    conv.Deserialize M event buffer =
      if info.Version ≠ (event.Version : Int) then
        { ok := false,
          buffer := { buffer with
            ProviderId := etwLookupProviderId M event.ProviderId, EventId := (event.Id : Int) },
          log := ["[EtwEventDataConv] Mismatched deserialization structure version."] }
      else if info.StructSize ≠ event.UserDataLength then
        { ok := false,
          buffer := { buffer with
            ProviderId := etwLookupProviderId M event.ProviderId, EventId := (event.Id : Int) },
          log := ["[EtwEventDataConv] Unable to deserialize event. Sizes don't match."] }
      else if info.StructSize > EtwEvent.MaxUserDataSize then
        { ok := false,
          buffer := { buffer with
            ProviderId := etwLookupProviderId M event.ProviderId, EventId := (event.Id : Int) },
          log := ["[EtwEventDataConv] Increase EtwEvent::MaxUserDataSize"] }
      else
        { ok := true,
          buffer :=
            { UserData :=
                event.UserData.take ((event.UserDataLength : Int).toNat) ++
                  buffer.UserData.drop ((event.UserDataLength : Int).toNat)
              UserDataSize := (event.UserDataLength : Int)
              ProviderId := etwLookupProviderId M event.ProviderId
              EventId := (event.Id : Int)
              EventTime := (event.TimeStamp : ℚ) * conv.PerfFrequencyInverse },
          log := [] } := by
  unfold EtwEventDataConv.Deserialize
  simp only [hf]

theorem Deserialize_ok_iff_aux (M : LibOVREvents) (conv : EtwEventDataConv)
    (event : EVENT_RECORD) (buffer : EtwEvent) :
    (conv.Deserialize M event buffer).ok = true ↔
      ∃ info, conv.find ⟨etwLookupProviderId M event.ProviderId, event.Id⟩ = some info ∧
        info.Version = (event.Version : Int) ∧
        info.StructSize = event.UserDataLength ∧
        info.StructSize ≤ EtwEvent.MaxUserDataSize := by
  cases hf : conv.find ⟨etwLookupProviderId M event.ProviderId, event.Id⟩ with
  | none =>
    rw [Deserialize_of_find_none M conv event buffer hf]
    constructor
    · intro h; exact absurd h Bool.false_ne_true
    · rintro ⟨info, h, _⟩; exact absurd h (by simp)
  | some info =>
    rw [Deserialize_of_find_some M conv event buffer info hf]
    by_cases h1 : info.Version = (event.Version : Int)
    · rw [if_neg (not_not.mpr h1)]
      by_cases h2 : info.StructSize = event.UserDataLength
      · rw [if_neg (not_not.mpr h2)]
        by_cases h3 : info.StructSize > EtwEvent.MaxUserDataSize
        · rw [if_pos h3]
          constructor
          · intro h; exact absurd h Bool.false_ne_true
          · rintro ⟨info2, e, _, _, h4⟩
            cases e
            exact absurd h4 (Nat.not_le.mpr h3)
        · rw [if_neg h3]
          constructor
          · intro _; exact ⟨info, rfl, h1, h2, Nat.not_lt.mp h3⟩
          · intro _; rfl
      · rw [if_pos h2]
        constructor
        · intro h; exact absurd h Bool.false_ne_true
        · rintro ⟨info2, e, _, h4, _⟩
          cases e
          exact absurd h4 h2
    · rw [if_pos h1]
      constructor
      · intro h; exact absurd h Bool.false_ne_true
      · rintro ⟨info2, e, h4, _⟩
        cases e
        exact absurd h4 h1

theorem Deserialize_ok_buffer (M : LibOVREvents) (conv : EtwEventDataConv)
    (event : EVENT_RECORD) (buffer : EtwEvent)
    (h : (conv.Deserialize M event buffer).ok = true) :
    (conv.Deserialize M event buffer).buffer =
      { UserData :=
          event.UserData.take ((event.UserDataLength : Int).toNat) ++
            buffer.UserData.drop ((event.UserDataLength : Int).toNat)
        UserDataSize := (event.UserDataLength : Int)
        ProviderId := etwLookupProviderId M event.ProviderId
        EventId := (event.Id : Int)
        EventTime := (event.TimeStamp : ℚ) * conv.PerfFrequencyInverse } := by
  obtain ⟨info, hf, h1, h2, h3⟩ := (Deserialize_ok_iff_aux M conv event buffer).mp h
  rw [Deserialize_of_find_some M conv event buffer info hf, if_neg (not_not.mpr h1),
    if_neg (not_not.mpr h2), if_neg (Nat.not_lt.mpr h3)]

theorem registerStruct_Sdk (conv : EtwEventDataConv) (eventId structSize : Nat)
    (version : Int)
    (h : ∀ key info, conv.find key = some info → key.Provider = EtwProviders.Sdk) :
    ∀ key info,
      (conv.registerStruct EtwProviders.Sdk eventId structSize version).find key = some info →
        key.Provider = EtwProviders.Sdk := by
  intro key info hf
  rw [find_registerStruct] at hf
  by_cases hc : key = ⟨EtwProviders.Sdk, eventId⟩ ∧ conv.find key = none
  · rw [hc.1]
  · rw [if_neg hc] at hf
    exact h key info hf

theorem find_setFrequency (c : EtwEventDataConv) (f : Nat) (q : ℚ) (key : EtwEventKey) :
    EtwEventDataConv.find { c with PerfFrequency := f, PerfFrequencyInverse := q } key =
      c.find key :=
  rfl

theorem ctor_find_Sdk (M : LibOVREvents) (freq : Nat) (key : EtwEventKey)
    (info : EtwStructInfo) (h : (EtwEventDataConv.ctor M freq).find key = some info) :
    key.Provider = EtwProviders.Sdk := by
  have h0 : ∀ key info,
      EtwEventDataConv.find
        { PerfFrequency := 0, PerfFrequencyInverse := 0, EventToDeserializeMap := [] }
        key = some info → key.Provider = EtwProviders.Sdk := by
    intro key info hf
    exact absurd hf (by simp [EtwEventDataConv.find])
  have h1 := registerStruct_Sdk _ M.DistortionBegin_value 8 0 h0
  have h2 := registerStruct_Sdk _ M.DistortionEnd_value 8 0 h1
  have h3 := registerStruct_Sdk _ M.PoseLatchCPUWrite_value 84 0 h2
  have h4 := registerStruct_Sdk _ M.PoseLatchGPULatchReadback_value 28 0 h3
  have h5 := registerStruct_Sdk _ M.VSync_value 20 0 h4
  have h6 := registerStruct_Sdk _ M.AppCompositorFocus_value 8 0 h5
  have h7 := registerStruct_Sdk _ M.AppConnect_value 8 0 h6
  have h8 := registerStruct_Sdk _ M.AppDisconnect_value 8 0 h7
  have h9 := registerStruct_Sdk _ M.AppNoOp_value 8 0 h8
  have h10 := registerStruct_Sdk _ M.LatencyTiming_value 72 0 h9
  have h11 := registerStruct_Sdk _ M.EndFrameAppTiming_value 60 0 h10
  exact h11 key info (Eq.trans (find_setFrequency _ freq (1 / (freq : ℚ)) key).symm h)

/-! ## Lemmas on sequences of writes -/

namespace EtwFrameListener

theorem sample_find :
    (EtwEventDataConv.ctor sampleEvents 10000000).find ⟨EtwProviders.Sdk, 5⟩ =
      some ⟨20, 0⟩ := by
  unfold EtwEventDataConv.ctor
  simp only [find_setFrequency, find_registerStruct]
  simp [EtwEventDataConv.find, sampleEvents]

theorem sampleRecord_ok (t : Int) :
    ((EtwEventDataConv.ctor sampleEvents 10000000).Deserialize sampleEvents (sampleRecord t)
      EtwEvent.ctor).ok = true := by
  have hk : etwLookupProviderId sampleEvents (sampleRecord t).ProviderId =
      EtwProviders.Sdk := by
    simp [etwLookupProviderId, sampleEvents, sampleRecord]
  have hid : (sampleRecord t).Id = 5 := by simp [sampleRecord]
  have hlen : (sampleRecord t).UserDataLength = 20 := by
    simp [EVENT_RECORD.UserDataLength, sampleRecord]
  have hver : (0 : Int) = (((sampleRecord t).Version : Nat) : Int) := by simp [sampleRecord]
  refine (Deserialize_ok_iff_aux sampleEvents (EtwEventDataConv.ctor sampleEvents 10000000)
    (sampleRecord t) EtwEvent.ctor).mpr ⟨⟨20, 0⟩, ?_, hver, ?_, ?_⟩
  · rw [hk, hid]; exact sample_find
  · exact hlen.symm
  · exact Nat.le_of_ble_eq_true rfl

theorem sampleRecord_accepted (t : Int) :
    accepted sampleEvents sampleListener.EtwDataConv (sampleRecord t) := by
  have hflags : (sampleRecord t).Flags &&& EVENT_HEADER_FLAG_CLASSIC_HEADER = 0 := by
    simp [sampleRecord]
  exact ⟨hflags, sampleRecord_ok t⟩

theorem Reachable_ProcessEvents (M : LibOVREvents) (ps : List EVENT_RECORD) :
    ∀ (l : EtwFrameListener), Reachable M l → Reachable M (ProcessEvents M l ps) := by
  induction ps with
  | nil => intro l h; exact h
  | cons p ps ih => intro l h; exact ih _ (Reachable.ProcessEvent p h)

theorem sampleRecords_accepted (n : Nat) :
    ∀ p ∈ sampleRecords n, accepted sampleEvents sampleListener.EtwDataConv p := by
  intro p hp
  unfold sampleRecords at hp
  rw [List.mem_map] at hp
  obtain ⟨t, _, rfl⟩ := hp
  exact sampleRecord_accepted _

theorem sampleRecords_length (n : Nat) : (sampleRecords n).length = n := by
  unfold sampleRecords
  rw [List.length_map, List.length_range]

theorem unreadEvents_of_empty (l : EtwFrameListener)
    (h : l.UnprocessedEventsIndex = l.StoredEventIndex) : unreadEvents l = [] := by
  have h0 : unread l = 0 := by
    unfold unread; rw [h]; simp only [NumStoredEvents]; omega
  unfold unreadEvents
  rw [h0, slots_zero]

theorem writes_spec (M : LibOVREvents) (l : EtwFrameListener) (ps : List EVENT_RECORD)
    (hv : Valid l) (hacc : ∀ p ∈ ps, accepted M l.EtwDataConv p) :
    Valid (ProcessEvents M l ps) ∧
      unread (ProcessEvents M l ps) = min (unread l + ps.length) (NumStoredEvents - 1) ∧
      (ProcessEvents M l ps).NumLostEvents =
        l.NumLostEvents + (unread l + ps.length - (NumStoredEvents - 1)) ∧
      unreadEvents (ProcessEvents M l ps) =
        (unreadEvents l ++ ps.map (deserialized M l.EtwDataConv)).drop
          (unread l + ps.length - (NumStoredEvents - 1)) ∧
      (ProcessEvents M l ps).Errors = l.Errors := by
  rw [ProcessEvents_accepted M ps l hacc]
  obtain ⟨h1, h2, h3, h4, h5, _⟩ :=
    storeEvents_spec (ps.map (deserialized M l.EtwDataConv)) l hv
  rw [List.length_map] at h2 h3 h4
  exact ⟨h1, h2, h3, h4, h5⟩

theorem drain_calls (l : EtwFrameListener) (hv : Valid l) :
    (handlerCalls (drainEffects l)).flatten = unreadEvents l := by
  rw [handlerCalls_drainEffects, batches_join _ _ _ hv.2]
  rfl

theorem writes_then_drain (M : LibOVREvents) (l : EtwFrameListener) (ps : List EVENT_RECORD)
    (hv : Valid l) (h0 : l.UnprocessedEventsIndex = l.StoredEventIndex)
    (hacc : ∀ p ∈ ps, accepted M l.EtwDataConv p) :
    HandleEvents (ProcessEvents M l ps) =
        some (drained (ProcessEvents M l ps), drainEffects (ProcessEvents M l ps)) ∧
      (handlerCalls (drainEffects (ProcessEvents M l ps))).flatten =
        (ps.map (deserialized M l.EtwDataConv)).drop (ps.length - (NumStoredEvents - 1)) := by
  obtain ⟨h1, _, _, h4, _⟩ := writes_spec M l ps hv hacc
  have hu : unread l = 0 := (unread_eq_zero_iff l hv).mpr h0
  refine ⟨HandleEvents_eq _ h1, ?_⟩
  rw [drain_calls _ h1, h4, unreadEvents_of_empty l h0, hu]
  simp

theorem ctor_unread (M : LibOVREvents) (freq : Nat) (signalMessages : Int)
    (startupErrors : List EtwListenerError) (workPending : Bool) :
    unread (EtwFrameListener.ctor M freq signalMessages startupErrors workPending) = 0 :=
  (unread_eq_zero_iff _ (ctor_Valid M freq signalMessages startupErrors workPending)).mpr rfl

theorem lost_after_writes (M : LibOVREvents) (freq : Nat) (signalMessages : Int)
    (startupErrors : List EtwListenerError) (workPending : Bool) (ps : List EVENT_RECORD)
    (hacc : ∀ p ∈ ps, accepted M (EtwEventDataConv.ctor M freq) p) :
    (ProcessEvents M (EtwFrameListener.ctor M freq signalMessages startupErrors workPending)
        ps).NumLostEvents = ps.length - (NumStoredEvents - 1) := by
  obtain ⟨_, _, h3, _⟩ := writes_spec M
    (EtwFrameListener.ctor M freq signalMessages startupErrors workPending) ps
    (ctor_Valid M _ _ _ _) hacc
  rw [h3, ctor_unread]
  show 0 + (0 + ps.length - (NumStoredEvents - 1)) = ps.length - (NumStoredEvents - 1)
  omega

theorem sampleWritten_EtwDataConv (n : Nat) :
    (sampleWritten n).EtwDataConv = sampleListener.EtwDataConv := by
  unfold sampleWritten
  rw [ProcessEvents_accepted _ _ _ (sampleRecords_accepted n)]
  exact (storeEvents_spec _ _ (ctor_Valid _ _ _ _ _)).2.2.2.2.2

theorem overflow_then_drain (M : LibOVREvents) (freq : Nat) (signalMessages : Int)
    (startupErrors : List EtwListenerError) (workPending : Bool) (ps : List EVENT_RECORD)
    (hacc : ∀ p ∈ ps, accepted M (EtwEventDataConv.ctor M freq) p)
    (hN : NumStoredEvents ≤ ps.length) :
    ∃ l' rest,
      HandleEvents
          (ProcessEvents M
            (EtwFrameListener.ctor M freq signalMessages startupErrors workPending) ps) =
        some (l', HandlerEffect.pushError
          (lostEventsError (ps.length - (NumStoredEvents - 1))) :: rest) ∧
      pushedErrors rest = [] ∧
      handlerCalls rest ≠ [] ∧
      l'.Errors = startupErrors ++ [lostEventsError (ps.length - (NumStoredEvents - 1))] ∧
      l'.NumLostEvents = 0 := by
  obtain ⟨h1, h2, h3, _, h5⟩ := writes_spec M
    (EtwFrameListener.ctor M freq signalMessages startupErrors workPending) ps
    (ctor_Valid M _ _ _ _) hacc
  rw [ctor_unread] at h2 h3
  have hlost : (ProcessEvents M
      (EtwFrameListener.ctor M freq signalMessages startupErrors workPending) ps).NumLostEvents =
      ps.length - (NumStoredEvents - 1) := by
    rw [h3]
    show 0 + (0 + ps.length - (NumStoredEvents - 1)) = ps.length - (NumStoredEvents - 1)
    omega
  have hun : unread (ProcessEvents M
      (EtwFrameListener.ctor M freq signalMessages startupErrors workPending) ps) =
      NumStoredEvents - 1 := by
    rw [h2]
    simp only [NumStoredEvents] at *
    omega
  have hne : (ProcessEvents M
      (EtwFrameListener.ctor M freq signalMessages startupErrors workPending)
        ps).UnprocessedEventsIndex ≠
      (ProcessEvents M
        (EtwFrameListener.ctor M freq signalMessages startupErrors workPending)
          ps).StoredEventIndex := by
    intro hc
    have h0 := (unread_eq_zero_iff _ h1).mpr hc
    rw [hun] at h0
    exact absurd h0 (by decide)
  have hpos : (ProcessEvents M
      (EtwFrameListener.ctor M freq signalMessages startupErrors workPending)
        ps).NumLostEvents > 0 := by
    rw [hlost]
    simp only [NumStoredEvents] at *
    omega
  have herr : (ProcessEvents M
      (EtwFrameListener.ctor M freq signalMessages startupErrors workPending) ps).Errors =
      startupErrors := h5
  refine ⟨drained (ProcessEvents M
      (EtwFrameListener.ctor M freq signalMessages startupErrors workPending) ps),
    (batches (ProcessEvents M
      (EtwFrameListener.ctor M freq signalMessages startupErrors workPending) ps).StoredEvents
      (ProcessEvents M
        (EtwFrameListener.ctor M freq signalMessages startupErrors workPending)
          ps).UnprocessedEventsIndex
      (unread (ProcessEvents M
        (EtwFrameListener.ctor M freq signalMessages startupErrors workPending) ps))).map
      HandlerEffect.eventHandler, ?_, pushedErrors_map _, ?_, ?_, ?_⟩
  · rw [HandleEvents_eq _ h1]
    unfold drainEffects
    rw [if_pos ⟨hne, hpos⟩, hlost]
    rfl
  · rw [handlerCalls_map, hun]
    intro hc
    have hl := congrArg List.length hc
    rw [batches_length] at hl
    exact absurd hl (by decide)
  · unfold drained
    rw [if_neg hne]
    show (if (ProcessEvents M
        (EtwFrameListener.ctor M freq signalMessages startupErrors workPending)
          ps).NumLostEvents > 0 then _ else _) = _
    rw [if_pos hpos, hlost, herr]
  · unfold drained
    rw [if_neg hne]

end EtwFrameListener

/-! ## Lemmas on the signal counter, on conservation and on start-up -/

namespace EtwFrameListener

theorem storeEvent_signal (l : EtwFrameListener) (e : EtwEvent) :
    (storeEvent l e).EventsSinceLastSignal = l.EventsSinceLastSignal + 1 ∧
      (storeEvent l e).NumEventsOnSignal = l.NumEventsOnSignal ∧
      ((storeEvent l e).WorkPending = true ↔
        l.WorkPending = true ∨
          ((l.EventsSinceLastSignal + 1 : Nat) : Int) > l.NumEventsOnSignal) := by
  unfold storeEvent SignalWork
  dsimp only
  split_ifs <;> simp_all

/-- The signal counter only grows: after the events `es` it is the old value plus their
number, and work is pending afterwards exactly when it was pending before or the counter
has gone above the threshold. -/
theorem storeEvents_signal : ∀ (es : List EtwEvent) (l : EtwFrameListener),
    (storeEvents l es).EventsSinceLastSignal = l.EventsSinceLastSignal + es.length ∧
      (storeEvents l es).NumEventsOnSignal = l.NumEventsOnSignal ∧
      ((storeEvents l es).WorkPending = true ↔
        l.WorkPending = true ∨
          (es ≠ [] ∧ ((l.EventsSinceLastSignal + es.length : Nat) : Int) >
            l.NumEventsOnSignal)) := by
  intro es
  induction es using List.reverseRecOn with
  | nil => intro l; simp [storeEvents]
  | append_singleton es e ih =>
    intro l
    obtain ⟨i1, i2, i3⟩ := ih l
    have hs : storeEvents l (es ++ [e]) = storeEvent (storeEvents l es) e := by
      simp [storeEvents, List.foldl_append]
    obtain ⟨s1, s2, s3⟩ := storeEvent_signal (storeEvents l es) e
    rw [hs, s1, s2, s3, i1, i2, i3, List.length_append, List.length_singleton]
    refine ⟨by omega, rfl, ?_⟩
    constructor
    · rintro (h | h)
      · rcases h with h | h
        · exact Or.inl h
        · refine Or.inr ⟨by simp, ?_⟩
          have := h.2
          push_cast at this ⊢
          omega
      · exact Or.inr ⟨by simp, by push_cast at h ⊢; omega⟩
    · rintro (h | h)
      · exact Or.inl (Or.inl h)
      · exact Or.inr (by have := h.2; push_cast at this ⊢; omega)

theorem handlerCalls_append (xs ys : List HandlerEffect) :
    handlerCalls (xs ++ ys) = handlerCalls xs ++ handlerCalls ys := by
  induction xs with
  | nil => rfl
  | cons x xs ih =>
    cases x with
    | pushError e => simpa [handlerCalls] using ih
    | eventHandler es => simp [handlerCalls, ih]

theorem pushedErrors_append (xs ys : List HandlerEffect) :
    pushedErrors (xs ++ ys) = pushedErrors xs ++ pushedErrors ys := by
  induction xs with
  | nil => rfl
  | cons x xs ih =>
    cases x with
    | pushError e => simp [pushedErrors, ih]
    | eventHandler es => simpa [pushedErrors] using ih

theorem pushedErrors_drainEffects (l : EtwFrameListener) :
    pushedErrors (drainEffects l) =
      if l.UnprocessedEventsIndex ≠ l.StoredEventIndex ∧ l.NumLostEvents > 0 then
        [lostEventsError l.NumLostEvents]
      else [] := by
  unfold drainEffects
  rw [pushedErrors_append, pushedErrors_map, List.append_nil]
  split_ifs <;> rfl

theorem drained_EtwDataConv (l : EtwFrameListener) :
    (drained l).EtwDataConv = l.EtwDataConv := by
  unfold drained
  split_ifs <;> rfl

theorem drained_unread (l : EtwFrameListener) (hv : Valid l) : unread (drained l) = 0 := by
  rw [unread_eq_zero_iff _ (drained_Valid l hv)]
  exact (drained_cursors l).1

theorem drained_NumLostEvents (l : EtwFrameListener) :
    (drained l).NumLostEvents =
      if l.UnprocessedEventsIndex = l.StoredEventIndex then l.NumLostEvents else 0 := by
  unfold drained
  split_ifs <;> rfl

theorem ProcessEvent_EtwDataConv (M : LibOVREvents) (l : EtwFrameListener)
    (p : EVENT_RECORD) : (ProcessEvent M l p).EtwDataConv = l.EtwDataConv := by
  by_cases h : accepted M l.EtwDataConv p
  · rw [ProcessEvent_accepted M l p h, storeEvent_EtwDataConv]
  · rw [ProcessEvent_rejected M l p h]

/-- One write: the unread count and the loss counter together grow by one for an accepted
record and stay for any other. -/
theorem ProcessEvent_count (M : LibOVREvents) (l : EtwFrameListener) (p : EVENT_RECORD)
    (hv : Valid l) :
    (ProcessEvent M l p).NumLostEvents + unread (ProcessEvent M l p) =
      (if p.Flags &&& EVENT_HEADER_FLAG_CLASSIC_HEADER = 0 ∧
          (l.EtwDataConv.Deserialize M p EtwEvent.ctor).ok = true then 1 else 0) +
        (l.NumLostEvents + unread l) := by
  by_cases h : accepted M l.EtwDataConv p
  · have h' : p.Flags &&& EVENT_HEADER_FLAG_CLASSIC_HEADER = 0 ∧
        (l.EtwDataConv.Deserialize M p EtwEvent.ctor).ok = true := h
    rw [ProcessEvent_accepted M l p h, storeEvent_unread l _ hv, storeEvent_lost l _ hv,
      if_pos h']
    have := unread_lt l
    simp only [NumStoredEvents] at *
    omega
  · have h' : ¬ (p.Flags &&& EVENT_HEADER_FLAG_CLASSIC_HEADER = 0 ∧
        (l.EtwDataConv.Deserialize M p EtwEvent.ctor).ok = true) := h
    rw [ProcessEvent_rejected M l p h, if_neg h']
    omega

/-- In every state that writes and drains produce, events are lost only while the ring is
full. -/
theorem Reachable_lost (M : LibOVREvents) (l : EtwFrameListener) (h : Reachable M l) :
    l.NumLostEvents > 0 → unread l = NumStoredEvents - 1 := by
  induction h with
  | ctor freq signalMessages startupErrors workPending =>
    intro hc
    exact absurd hc (Nat.lt_irrefl 0)
  | @ProcessEvent l p hr ih =>
    have hv := Reachable_Valid M l hr
    by_cases ha : accepted M l.EtwDataConv p
    · rw [ProcessEvent_accepted M l p ha, storeEvent_unread l _ hv, storeEvent_lost l _ hv]
      intro hc
      have := unread_lt l
      by_cases h0 : l.NumLostEvents > 0
      · have := ih h0
        simp only [NumStoredEvents] at *
        omega
      · simp only [NumStoredEvents] at *
        omega
    · rw [ProcessEvent_rejected M l p ha]
      exact ih
  | @HandleEvents l l' effects hr hd ih =>
    have hv := Reachable_Valid M l hr
    rw [HandleEvents_eq _ hv] at hd
    cases hd
    rw [drained_NumLostEvents]
    by_cases h0 : l.UnprocessedEventsIndex = l.StoredEventIndex
    · rw [if_pos h0]
      intro hc
      have h1 := ih hc
      have h2 := (unread_eq_zero_iff l hv).mpr h0
      rw [h2] at h1
      exact absurd h1 (by decide)
    · rw [if_neg h0]
      intro hc
      exact absurd hc (Nat.lt_irrefl 0)

/-- Conservation over a sequence of calls from any state with in-range cursors. -/
theorem runCalls_conserves (M : LibOVREvents) :
    ∀ (calls : List ListenerCall) (l : EtwFrameListener), Valid l →
      ∃ l' effects, runCalls M l calls = some (l', effects) ∧
        ∃ ks : List Nat, pushedErrors effects = ks.map lostEventsError ∧
          acceptedWrites M l.EtwDataConv calls + (l.NumLostEvents + unread l) =
            (handlerCalls effects).flatten.length + ks.sum +
              l'.NumLostEvents + unread l' := by
  intro calls
  induction calls with
  | nil =>
    intro l _
    exact ⟨l, [], rfl, [], rfl, by simp [acceptedWrites, handlerCalls]⟩
  | cons c calls ih =>
    intro l hv
    cases c with
    | ProcessEvent p =>
      obtain ⟨l', eff, hrun, ks, hks, heq⟩ := ih (ProcessEvent M l p) (ProcessEvent_Valid M l p hv)
      refine ⟨l', eff, hrun, ks, hks, ?_⟩
      rw [ProcessEvent_EtwDataConv] at heq
      have hc := ProcessEvent_count M l p hv
      show (if p.Flags &&& EVENT_HEADER_FLAG_CLASSIC_HEADER = 0 ∧
          (l.EtwDataConv.Deserialize M p EtwEvent.ctor).ok = true then 1 else 0) +
          acceptedWrites M l.EtwDataConv calls + (l.NumLostEvents + unread l) = _
      omega
    | HandleEvents =>
      obtain ⟨l', eff, hrun, ks, hks, heq⟩ := ih (drained l) (drained_Valid l hv)
      have hd := HandleEvents_eq l hv
      refine ⟨l', drainEffects l ++ eff, ?_, ?_⟩
      · simp only [runCalls, hd, hrun]
      · rw [drained_EtwDataConv, drained_unread l hv, drained_NumLostEvents] at heq
        have hcalls := drain_calls l hv
        have hlen : (handlerCalls (drainEffects l)).flatten.length = unread l := by
          rw [hcalls, unreadEvents_length]
        rw [pushedErrors_append, pushedErrors_drainEffects, handlerCalls_append,
          List.flatten_append, List.length_append, hlen]
        show ∃ ks', _ ∧ acceptedWrites M l.EtwDataConv calls + _ = _
        by_cases h0 : l.UnprocessedEventsIndex = l.StoredEventIndex
        · rw [if_pos h0] at heq
          have hu := (unread_eq_zero_iff l hv).mpr h0
          refine ⟨ks, ?_, ?_⟩
          · rw [if_neg (fun hc => hc.1 h0), List.nil_append, hks]
          · omega
        · rw [if_neg h0] at heq
          by_cases hl : l.NumLostEvents > 0
          · refine ⟨l.NumLostEvents :: ks, ?_, ?_⟩
            · rw [if_pos ⟨h0, hl⟩, hks]
              rfl
            · rw [List.sum_cons]
              omega
          · refine ⟨ks, ?_, ?_⟩
            · rw [if_neg (fun hc => hl hc.2), List.nil_append, hks]
            · omega

theorem enableProviders_Errors : ∀ (statuses : List Nat) (l : EtwFrameListener),
    (enableProviders l statuses).Errors =
      l.Errors ++ (statuses.filter (fun s => decide (s ≠ ERROR_SUCCESS))).map
        (fun s =>
          ({ code := ovrError_EtwListenerRuntime
             desc := "EnableTrace failed: " ++ toString s } : EtwListenerError)) := by
  intro statuses
  induction statuses with
  | nil => intro l; simp [enableProviders]
  | cons s statuses ih =>
    intro l
    have hstep : enableProviders l (s :: statuses) =
        enableProviders
          (if !(enableProvider s).Succeeded then l.pushError (enableProvider s) else l)
          statuses := rfl
    by_cases hs : s = ERROR_SUCCESS
    · have h1 : (enableProvider s).Succeeded = true := by
        unfold enableProvider
        rw [if_neg (fun hc => hc hs)]
        rfl
      have hif : (if !(enableProvider s).Succeeded then l.pushError (enableProvider s)
          else l) = l := by
        rw [h1]
        rfl
      rw [hstep, hif, ih, List.filter_cons_of_neg (by simp [hs])]
    · have h1 : enableProvider s =
          { code := ovrError_EtwListenerRuntime
            desc := "EnableTrace failed: " ++ toString s } := by
        unfold enableProvider
        rw [if_pos hs]
      have h2 : (enableProvider s).Succeeded = false := by
        rw [h1]
        rfl
      have hif : (if !(enableProvider s).Succeeded then l.pushError (enableProvider s)
          else l) = l.pushError (enableProvider s) := by
        rw [h2]
        rfl
      rw [hstep, hif, ih, List.filter_cons_of_pos (by simp [hs]), List.map_cons, h1]
      show (l.Errors ++ [_]) ++ _ = _
      rw [List.append_assoc]
      rfl

/-- Whatever `findOVRProviders` returns is success or an error of class Runtime. -/
theorem findOVRProviders_code : ∀ (again : List EnumerateAnswer) (answer : EnumerateAnswer)
    (err : EtwListenerError), findOVRProviders answer again = some err →
      err = EtwListenerError.ctor ∨ err.code = ovrError_EtwListenerRuntime := by
  intro again
  induction again with
  | nil =>
    intro answer err h
    unfold findOVRProviders at h
    split_ifs at h <;> first | (cases h; exact Or.inr rfl) | (cases h; exact Or.inl rfl)
  | cons next rest ih =>
    intro answer err h
    unfold findOVRProviders at h
    split_ifs at h
    · cases h; exact Or.inr rfl
    · exact ih next err h
    · cases h; exact Or.inr rfl
    · cases h; exact Or.inl rfl

theorem startRealtimeTracing_not_started (l : EtwFrameListener) (os : TraceAnswers)
    (hstart : (if os.startTrace = ERROR_ALREADY_EXISTS then os.startTraceAgain
      else os.startTrace) ≠ ERROR_SUCCESS) :
    startRealtimeTracing l os =
      some (l.pushError
        { code := ovrError_EtwListenerInitialize
          desc := "Failed to start tracing: " ++
            toString (if os.startTrace = ERROR_ALREADY_EXISTS then os.startTraceAgain
              else os.startTrace) }, false) := by
  unfold startRealtimeTracing
  dsimp only
  rw [if_pos hstart]
  rfl

theorem startRealtimeTracing_started (l : EtwFrameListener) (os : TraceAnswers)
    (err : EtwListenerError)
    (hstart : (if os.startTrace = ERROR_ALREADY_EXISTS then os.startTraceAgain
      else os.startTrace) = ERROR_SUCCESS)
    (hfind : findOVRProviders os.enumerate os.enumerateAgain = some err) :
    startRealtimeTracing l os =
      if !err.Succeeded then some (l.pushError err, false)
      else if !os.openTraceValid then
        some ((enableProviders l os.enableTrace).pushError
          { code := ovrError_EtwListenerInitialize, desc := "Consumer failed to OpenTrace" },
          false)
      else some (enableProviders l os.enableTrace, true) := by
  unfold startRealtimeTracing
  dsimp only
  rw [if_neg (fun hc => hc hstart), hfind]

theorem WaitUntilWorkAvailable_pending (l : EtwFrameListener) (timeout : Int)
    (h : l.WorkPending = true) :
    ∃ l', WaitUntilWorkAvailable l timeout = some (l', true) ∧
      l'.WorkPending = false ∧
      l'.EventsSinceLastSignal = l.EventsSinceLastSignal ∧
      l'.NumEventsOnSignal = l.NumEventsOnSignal ∧
      l'.EtwDataConv = l.EtwDataConv := by
  refine ⟨{ l with WorkPending := false }, ?_, rfl, rfl, rfl, rfl⟩
  unfold WaitUntilWorkAvailable
  by_cases ht : timeout > -1
  · rw [if_pos ht, h]
  · rw [if_neg ht, if_pos h]

end EtwFrameListener

/-! ## Lemmas on the searches -/

/-- The recursion of `etwFindLeftEvent` follows the call that `etwFindLeftEventCall`
names. -/
theorem etwFindLeftEventAux_call (time : ℚ) (events : List EtwEvent)
    (fuel lo numEvents lo' numEvents' : Nat)
    (h : etwFindLeftEventCall time events lo numEvents = some (lo', numEvents')) :
    etwFindLeftEventAux time events (fuel + 1) lo numEvents =
      etwFindLeftEventAux time events fuel lo' numEvents' := by
  unfold etwFindLeftEventCall at h
  rw [etwFindLeftEventAux]
  split_ifs at h with h0 h1 h2
  rw [if_neg h0, if_neg h1, if_neg h2]
  dsimp only at h ⊢
  cases hget : events[lo + numEvents / 2]? with
  | none => rw [hget] at h; simp at h
  | some e =>
    rw [hget] at h
    dsimp only at h ⊢
    split_ifs at h with h3 h4
    · rw [if_neg h3, if_pos h4]
      cases h
      rfl
    · rw [if_neg h3, if_neg h4]
      cases h
      rfl

/-- The recursion of `etwFindRightEvent` follows the call that `etwFindRightEventCall`
names. -/
theorem etwFindRightEventAux_call (time : ℚ) (events : List EtwEvent)
    (fuel lo numEvents lo' numEvents' : Nat)
    (h : etwFindRightEventCall time events lo numEvents = some (lo', numEvents')) :
    etwFindRightEventAux time events (fuel + 1) lo numEvents =
      etwFindRightEventAux time events fuel lo' numEvents' := by
  unfold etwFindRightEventCall at h
  rw [etwFindRightEventAux]
  split_ifs at h with h0 h1 h2
  rw [if_neg h0, if_neg h1, if_neg h2]
  dsimp only at h ⊢
  cases hget : events[lo + numEvents / 2]? with
  | none => rw [hget] at h; simp at h
  | some e =>
    rw [hget] at h
    dsimp only at h ⊢
    split_ifs at h with h3 h4
    · rw [if_neg h3, if_pos h4]
      cases h
      rfl
    · rw [if_neg h3, if_neg h4]
      cases h
      rfl

/-! ## The listener: drains, writes, losses and errors -/

namespace EtwFrameListener

/-- Claim C1. From every listener state reachable by `ProcessEvent` writes and `HandleEvents`
drains, `HandleEvents` returns, and the arguments of its successive handler invocations,
concatenated, are exactly the events in the slots `UnprocessedEventsIndex`,
`UnprocessedEventsIndex + 1`, ... (mod 1900), oldest first, up to but excluding
`StoredEventIndex` (the slot reached after `unread l` steps, and none before). On return
the unread cursor equals the write cursor, and the write cursor and the stored events are
unchanged. -/
theorem HandleEvents_drains_unread (M : LibOVREvents) (l : EtwFrameListener)
    (h : Reachable M l) :
    ∃ l' effects, HandleEvents l = some (l', effects) ∧
      (handlerCalls effects).flatten =
        (List.range (unread l)).map
          (fun k => l.StoredEvents ((l.UnprocessedEventsIndex + k) % NumStoredEvents)) ∧
      (l.UnprocessedEventsIndex + unread l) % NumStoredEvents = l.StoredEventIndex ∧
      (∀ k, k < unread l →
        (l.UnprocessedEventsIndex + k) % NumStoredEvents ≠ l.StoredEventIndex) ∧
      l'.UnprocessedEventsIndex = l'.StoredEventIndex ∧
      l'.StoredEventIndex = l.StoredEventIndex ∧
      l'.StoredEvents = l.StoredEvents := by
  have hv := Reachable_Valid M l h
  obtain ⟨d1, d2, d3⟩ := drained_cursors l
  refine ⟨drained l, drainEffects l, HandleEvents_eq l hv, ?_, unread_add l hv, ?_, d1, d2, d3⟩
  · rw [handlerCalls_drainEffects, batches_join _ _ _ hv.2]
    rfl
  · intro k hk
    unfold Valid at hv
    unfold unread at hk
    simp only [NumStoredEvents] at *
    omega

/-- Claim C1 at a reachable state: the sample listener after three records. -/
theorem HandleEvents_drains_unread_witness :
    Reachable sampleEvents (sampleWritten 3) ∧
      ∃ l' effects, HandleEvents (sampleWritten 3) = some (l', effects) ∧
        (handlerCalls effects).flatten =
          (List.range (unread (sampleWritten 3))).map
            (fun k => (sampleWritten 3).StoredEvents
              (((sampleWritten 3).UnprocessedEventsIndex + k) % NumStoredEvents)) ∧
        ((sampleWritten 3).UnprocessedEventsIndex + unread (sampleWritten 3)) %
            NumStoredEvents = (sampleWritten 3).StoredEventIndex ∧
        (∀ k, k < unread (sampleWritten 3) →
          ((sampleWritten 3).UnprocessedEventsIndex + k) % NumStoredEvents ≠
            (sampleWritten 3).StoredEventIndex) ∧
        l'.UnprocessedEventsIndex = l'.StoredEventIndex ∧
        l'.StoredEventIndex = (sampleWritten 3).StoredEventIndex ∧
        l'.StoredEvents = (sampleWritten 3).StoredEvents :=
  ⟨Reachable_ProcessEvents _ _ _ (Reachable.ctor 10000000 50 [] false),
    HandleEvents_drains_unread sampleEvents (sampleWritten 3)
      (Reachable_ProcessEvents _ _ _ (Reachable.ctor 10000000 50 [] false))⟩

/-- Claim C6. With `u` unread events in a reachable state, `HandleEvents` invokes the
handler exactly `ceil (u / 192)` times, so never when `u = 0`; every invocation receives at
least 1 and at most `NumStackEvents = 192` events, and every invocation but the last
receives exactly 192. -/
theorem HandleEvents_batch_sizes (M : LibOVREvents) (l : EtwFrameListener)
    (h : Reachable M l) :
    ∃ l' effects, HandleEvents l = some (l', effects) ∧
      (handlerCalls effects).length = (unread l + 191) / 192 ∧
      (unread l = 0 → handlerCalls effects = []) ∧
      ∀ (j : Nat) (b : List EtwEvent), (handlerCalls effects)[j]? = some b →
        1 ≤ b.length ∧ b.length ≤ NumStackEvents ∧
          (j + 1 < (handlerCalls effects).length → b.length = NumStackEvents) := by
  have hv := Reachable_Valid M l h
  refine ⟨drained l, drainEffects l, HandleEvents_eq l hv, ?_, ?_, ?_⟩
  · rw [handlerCalls_drainEffects, batches_length]
    rfl
  · intro h0
    rw [handlerCalls_drainEffects, h0, batches_zero]
  · intro j b hb
    rw [handlerCalls_drainEffects] at hb ⊢
    obtain ⟨h1, h2⟩ := batches_getElem _ _ _ _ _ hb
    rw [batches_length, h1]
    simp only [NumStackEvents] at *
    omega

/-- Claim C6 at a reachable state: the sample listener after 400 records. -/
theorem HandleEvents_batch_sizes_witness :
    Reachable sampleEvents (sampleWritten 400) ∧
      ∃ l' effects, HandleEvents (sampleWritten 400) = some (l', effects) ∧
        (handlerCalls effects).length = (unread (sampleWritten 400) + 191) / 192 ∧
        (unread (sampleWritten 400) = 0 → handlerCalls effects = []) ∧
        ∀ (j : Nat) (b : List EtwEvent), (handlerCalls effects)[j]? = some b →
          1 ≤ b.length ∧ b.length ≤ NumStackEvents ∧
            (j + 1 < (handlerCalls effects).length → b.length = NumStackEvents) :=
  ⟨Reachable_ProcessEvents _ _ _ (Reachable.ctor 10000000 50 [] false),
    HandleEvents_batch_sizes sampleEvents (sampleWritten 400)
      (Reachable_ProcessEvents _ _ _ (Reachable.ctor 10000000 50 [] false))⟩

/-- Claim C2, refuted as stated. `N = 1900` does not exceed `NumStoredEvents`, yet after
1900 accepted records were written into the fresh sample listener one `HandleEvents` call
delivers only the last 1899 events: the first one was overwritten. -/
theorem HandleEvents_full_ring_counterexample :
    (sampleRecords 1900).length ≤ NumStoredEvents ∧
      (∀ p ∈ sampleRecords 1900, accepted sampleEvents sampleListener.EtwDataConv p) ∧
      sampleListener.UnprocessedEventsIndex = sampleListener.StoredEventIndex ∧
      ∃ l' effects, HandleEvents (sampleWritten 1900) = some (l', effects) ∧
        (handlerCalls effects).flatten =
          ((sampleRecords 1900).map
            (deserialized sampleEvents sampleListener.EtwDataConv)).drop 1 ∧
        (handlerCalls effects).flatten ≠
          (sampleRecords 1900).map (deserialized sampleEvents sampleListener.EtwDataConv) := by
  obtain ⟨h1, h2⟩ := writes_then_drain sampleEvents sampleListener (sampleRecords 1900)
    (ctor_Valid _ _ _ _ _) rfl (sampleRecords_accepted 1900)
  rw [sampleRecords_length] at h2
  refine ⟨by rw [sampleRecords_length], sampleRecords_accepted 1900, rfl, _, _, h1, h2, ?_⟩
  rw [h2]
  intro hc
  have hl := congrArg List.length hc
  rw [List.length_drop, List.length_map, sampleRecords_length] at hl
  simp only [NumStoredEvents] at hl
  omega

/-- Claim C2, amended. For every `N ≤ NumStoredEvents - 1 = 1899` and every sequence of `N`
accepted records written by `ProcessEvent` into a listener with no unread events, one
`HandleEvents` call returns and delivers to the handler exactly the `N` events stored for
them, in the order they were written. -/
theorem HandleEvents_delivers_written (M : LibOVREvents) (l : EtwFrameListener)
    (ps : List EVENT_RECORD) (hv : Valid l)
    (h0 : l.UnprocessedEventsIndex = l.StoredEventIndex)
    (hN : ps.length ≤ NumStoredEvents - 1)
    (hacc : ∀ p ∈ ps, accepted M l.EtwDataConv p) :
    ∃ l' effects, HandleEvents (ProcessEvents M l ps) = some (l', effects) ∧
      (handlerCalls effects).flatten = ps.map (deserialized M l.EtwDataConv) := by
  obtain ⟨h1, h2⟩ := writes_then_drain M l ps hv h0 hacc
  refine ⟨_, _, h1, ?_⟩
  rw [h2, Nat.sub_eq_zero_of_le hN, List.drop_zero]

/-- Claim C2 as amended, at the sample listener and 1899 records. -/
theorem HandleEvents_delivers_written_witness :
    Valid sampleListener ∧
      sampleListener.UnprocessedEventsIndex = sampleListener.StoredEventIndex ∧
      (sampleRecords 1899).length ≤ NumStoredEvents - 1 ∧
      (∀ p ∈ sampleRecords 1899, accepted sampleEvents sampleListener.EtwDataConv p) ∧
      ∃ l' effects,
        HandleEvents (ProcessEvents sampleEvents sampleListener (sampleRecords 1899)) =
          some (l', effects) ∧
        (handlerCalls effects).flatten =
          (sampleRecords 1899).map (deserialized sampleEvents sampleListener.EtwDataConv) :=
  ⟨ctor_Valid _ _ _ _ _, rfl, by rw [sampleRecords_length]; decide,
    sampleRecords_accepted 1899,
    HandleEvents_delivers_written sampleEvents sampleListener (sampleRecords 1899)
      (ctor_Valid _ _ _ _ _) rfl (by rw [sampleRecords_length]; decide)
      (sampleRecords_accepted 1899)⟩

/-- Claim C3. A write of an accepted record stores the event in slot `StoredEventIndex`,
leaves the other slots alone and advances `StoredEventIndex` by one (mod 1900). When
`(StoredEventIndex + 1) mod 1900` equals `UnprocessedEventsIndex`, the unread cursor
advances by exactly one (mod 1900), `NumLostEvents` grows by exactly one, and the unread
events afterwards are the former ones without the oldest, followed by the new event. In
every other state the write leaves `UnprocessedEventsIndex` and `NumLostEvents`
unchanged. -/
theorem ProcessEvent_overwrites_oldest (M : LibOVREvents) (l : EtwFrameListener)
    (p : EVENT_RECORD) (h : accepted M l.EtwDataConv p) :
    (ProcessEvent M l p).StoredEvents l.StoredEventIndex = deserialized M l.EtwDataConv p ∧
      (∀ i, i ≠ l.StoredEventIndex →
        (ProcessEvent M l p).StoredEvents i = l.StoredEvents i) ∧
      (ProcessEvent M l p).StoredEventIndex = (l.StoredEventIndex + 1) % NumStoredEvents ∧
      ((l.StoredEventIndex + 1) % NumStoredEvents = l.UnprocessedEventsIndex →
        (ProcessEvent M l p).UnprocessedEventsIndex =
            (l.UnprocessedEventsIndex + 1) % NumStoredEvents ∧
          (ProcessEvent M l p).NumLostEvents = l.NumLostEvents + 1 ∧
          (Valid l →
            unreadEvents (ProcessEvent M l p) =
              (unreadEvents l).drop 1 ++ [deserialized M l.EtwDataConv p])) ∧
      ((l.StoredEventIndex + 1) % NumStoredEvents ≠ l.UnprocessedEventsIndex →
        (ProcessEvent M l p).UnprocessedEventsIndex = l.UnprocessedEventsIndex ∧
          (ProcessEvent M l p).NumLostEvents = l.NumLostEvents) := by
  rw [ProcessEvent_accepted M l p h]
  refine ⟨?_, ?_, storeEvent_StoredEventIndex l _, ?_, ?_⟩
  · rw [storeEvent_StoredEvents]
    exact Function.update_same _ _ _
  · intro i hi
    rw [storeEvent_StoredEvents]
    exact Function.update_noteq hi _ _
  · intro hc
    refine ⟨?_, ?_, ?_⟩
    · rw [storeEvent_UnprocessedEventsIndex, if_pos hc]
    · rw [storeEvent_NumLostEvents, if_pos hc]
    · intro hv
      have hu : unread l = NumStoredEvents - 1 := by
        unfold Valid at hv
        unfold unread
        simp only [NumStoredEvents] at *
        omega
      rw [storeEvent_unreadEvents l _ hv, hu,
        show NumStoredEvents - 1 + 1 - (NumStoredEvents - 1) = 1 from rfl,
        List.drop_append_of_le_length]
      rw [unreadEvents_length, hu]
      decide
  · intro hc
    exact ⟨by rw [storeEvent_UnprocessedEventsIndex, if_neg hc],
      by rw [storeEvent_NumLostEvents, if_neg hc]⟩

/-- Claim C3 at the sample listener, full after 1899 records, and one more record. -/
theorem ProcessEvent_overwrites_oldest_witness :
    accepted sampleEvents (sampleWritten 1899).EtwDataConv (sampleRecord 1899) ∧
      (ProcessEvent sampleEvents (sampleWritten 1899) (sampleRecord 1899)).StoredEvents
          (sampleWritten 1899).StoredEventIndex =
        deserialized sampleEvents (sampleWritten 1899).EtwDataConv (sampleRecord 1899) ∧
      (∀ i, i ≠ (sampleWritten 1899).StoredEventIndex →
        (ProcessEvent sampleEvents (sampleWritten 1899) (sampleRecord 1899)).StoredEvents i =
          (sampleWritten 1899).StoredEvents i) ∧
      (ProcessEvent sampleEvents (sampleWritten 1899) (sampleRecord 1899)).StoredEventIndex =
        ((sampleWritten 1899).StoredEventIndex + 1) % NumStoredEvents ∧
      (((sampleWritten 1899).StoredEventIndex + 1) % NumStoredEvents =
          (sampleWritten 1899).UnprocessedEventsIndex →
        (ProcessEvent sampleEvents (sampleWritten 1899)
            (sampleRecord 1899)).UnprocessedEventsIndex =
            ((sampleWritten 1899).UnprocessedEventsIndex + 1) % NumStoredEvents ∧
          (ProcessEvent sampleEvents (sampleWritten 1899) (sampleRecord 1899)).NumLostEvents =
            (sampleWritten 1899).NumLostEvents + 1 ∧
          (Valid (sampleWritten 1899) →
            unreadEvents (ProcessEvent sampleEvents (sampleWritten 1899) (sampleRecord 1899)) =
              (unreadEvents (sampleWritten 1899)).drop 1 ++
                [deserialized sampleEvents (sampleWritten 1899).EtwDataConv
                  (sampleRecord 1899)])) ∧
      (((sampleWritten 1899).StoredEventIndex + 1) % NumStoredEvents ≠
          (sampleWritten 1899).UnprocessedEventsIndex →
        (ProcessEvent sampleEvents (sampleWritten 1899)
            (sampleRecord 1899)).UnprocessedEventsIndex =
            (sampleWritten 1899).UnprocessedEventsIndex ∧
          (ProcessEvent sampleEvents (sampleWritten 1899) (sampleRecord 1899)).NumLostEvents =
            (sampleWritten 1899).NumLostEvents) :=
  have hacc : accepted sampleEvents (sampleWritten 1899).EtwDataConv (sampleRecord 1899) := by
    rw [sampleWritten_EtwDataConv]
    exact sampleRecord_accepted 1899
  ⟨hacc, ProcessEvent_overwrites_oldest sampleEvents (sampleWritten 1899) (sampleRecord 1899)
    hacc⟩

/-- Claim C4, refuted as stated. `N = 1901` exceeds `C = 1900`; after 1901 accepted records
were written into the fresh sample listener `NumLostEvents` is 2, not `N - C = 1`. -/
theorem NumLostEvents_counterexample :
    NumStoredEvents < (sampleRecords 1901).length ∧
      (∀ p ∈ sampleRecords 1901, accepted sampleEvents sampleListener.EtwDataConv p) ∧
      (sampleWritten 1901).NumLostEvents = 2 ∧
      (sampleWritten 1901).NumLostEvents ≠ (sampleRecords 1901).length - NumStoredEvents := by
  have h := lost_after_writes sampleEvents 10000000 50 [] false (sampleRecords 1901)
    (sampleRecords_accepted 1901)
  rw [sampleRecords_length] at h
  have h2 : (sampleWritten 1901).NumLostEvents = 2 := h
  refine ⟨by rw [sampleRecords_length]; decide, sampleRecords_accepted 1901, h2, ?_⟩
  rw [h2, sampleRecords_length]
  decide

/-- Claim C4, amended. Starting from a freshly constructed listener, for every `N > C =
NumStoredEvents = 1900`, after `N` accepted records have been written by `ProcessEvent`
with no `HandleEvents` call in between, `NumLostEvents` equals `N - (C - 1) = N - 1899`:
the ring holds at most `C - 1` unread events. -/
theorem NumLostEvents_after_writes (M : LibOVREvents) (freq : Nat) (signalMessages : Int)
    (startupErrors : List EtwListenerError) (workPending : Bool) (ps : List EVENT_RECORD)
    (hacc : ∀ p ∈ ps, accepted M (EtwEventDataConv.ctor M freq) p)
    (hN : NumStoredEvents < ps.length) :
    (ProcessEvents M (EtwFrameListener.ctor M freq signalMessages startupErrors workPending)
        ps).NumLostEvents = ps.length - (NumStoredEvents - 1) ∧
      ps.length - (NumStoredEvents - 1) = ps.length - NumStoredEvents + 1 := by
  refine ⟨lost_after_writes M freq signalMessages startupErrors workPending ps hacc, ?_⟩
  simp only [NumStoredEvents] at *
  omega

/-- Claim C4 as amended, at the sample listener and 1901 records. -/
theorem NumLostEvents_after_writes_witness :
    (∀ p ∈ sampleRecords 1901,
        accepted sampleEvents (EtwEventDataConv.ctor sampleEvents 10000000) p) ∧
      NumStoredEvents < (sampleRecords 1901).length ∧
      (ProcessEvents sampleEvents (EtwFrameListener.ctor sampleEvents 10000000 50 [] false)
          (sampleRecords 1901)).NumLostEvents =
        (sampleRecords 1901).length - (NumStoredEvents - 1) ∧
      (sampleRecords 1901).length - (NumStoredEvents - 1) =
        (sampleRecords 1901).length - NumStoredEvents + 1 :=
  ⟨sampleRecords_accepted 1901, by rw [sampleRecords_length]; decide,
    NumLostEvents_after_writes sampleEvents 10000000 50 [] false (sampleRecords 1901)
      (sampleRecords_accepted 1901) (by rw [sampleRecords_length]; decide)⟩

/-- Claim C5, refuted as stated (the case `k = 5`). After `1900 + 5` accepted records were
written into the fresh sample listener without a drain, `HandleEvents` pushes one error,
and that error carries the count 6, not 5: no error "Lost 5 Events" is in the list. -/
theorem HandleEvents_lost_count_counterexample :
    (sampleRecords 1905).length = NumStoredEvents + 5 ∧
      (∀ p ∈ sampleRecords 1905, accepted sampleEvents sampleListener.EtwDataConv p) ∧
      ∃ l' effects, HandleEvents (sampleWritten 1905) = some (l', effects) ∧
        pushedErrors effects = [⟨ovrError_EtwListenerLostEvents, "Lost 6 Events"⟩] ∧
        l'.Errors = [⟨ovrError_EtwListenerLostEvents, "Lost 6 Events"⟩] ∧
        (⟨ovrError_EtwListenerLostEvents, "Lost 5 Events"⟩ : EtwListenerError) ∉ l'.Errors := by
  obtain ⟨l', rest, h1, h2, _, h4, _⟩ := overflow_then_drain sampleEvents 10000000 50 []
    false (sampleRecords 1905) (sampleRecords_accepted 1905)
    (by rw [sampleRecords_length]; decide)
  rw [sampleRecords_length] at h1 h4
  have he : lostEventsError (1905 - (NumStoredEvents - 1)) =
      ⟨ovrError_EtwListenerLostEvents, "Lost 6 Events"⟩ := by decide
  rw [he] at h1 h4
  refine ⟨by rw [sampleRecords_length], sampleRecords_accepted 1905, l', _, h1, ?_, h4, ?_⟩
  · simp [pushedErrors, h2]
  · rw [h4]
    decide

/-- Claim C5, amended. For every `k ≥ 1`: after `1900 + k` accepted records were written
into a fresh listener without a drain, the next `HandleEvents` call appends exactly one
error to the error list, with code `ovrError_EtwListenerLostEvents` and carrying the count
`k + 1` (description "Lost k+1 Events"); it is pushed before the handler is invoked for
the first time, the handler is invoked, no other error is pushed, and `NumLostEvents` is 0
when `HandleEvents` returns. -/
theorem HandleEvents_reports_lost (M : LibOVREvents) (freq : Nat) (signalMessages : Int)
    (startupErrors : List EtwListenerError) (workPending : Bool) (k : Nat)
    (ps : List EVENT_RECORD) (hk : 1 ≤ k) (hlen : ps.length = NumStoredEvents + k)
    (hacc : ∀ p ∈ ps, accepted M (EtwEventDataConv.ctor M freq) p) :
    ∃ l' rest,
      HandleEvents
          (ProcessEvents M
            (EtwFrameListener.ctor M freq signalMessages startupErrors workPending) ps) =
        some (l', HandlerEffect.pushError
          ⟨ovrError_EtwListenerLostEvents, "Lost " ++ toString (k + 1) ++ " Events"⟩ ::
            rest) ∧
      pushedErrors rest = [] ∧
      handlerCalls rest ≠ [] ∧
      l'.Errors = startupErrors ++
        [⟨ovrError_EtwListenerLostEvents, "Lost " ++ toString (k + 1) ++ " Events"⟩] ∧
      l'.NumLostEvents = 0 := by
  have hc : ps.length - (NumStoredEvents - 1) = k + 1 := by
    simp only [NumStoredEvents] at *
    omega
  have h := overflow_then_drain M freq signalMessages startupErrors workPending ps hacc
    (by omega)
  rw [hc] at h
  exact h

/-- Claim C5 as amended, at `k = 5` and the sample listener. -/
theorem HandleEvents_reports_lost_witness :
    1 ≤ 5 ∧ (sampleRecords 1905).length = NumStoredEvents + 5 ∧
      (∀ p ∈ sampleRecords 1905,
        accepted sampleEvents (EtwEventDataConv.ctor sampleEvents 10000000) p) ∧
      ∃ l' rest,
        HandleEvents
            (ProcessEvents sampleEvents
              (EtwFrameListener.ctor sampleEvents 10000000 50 [] false)
              (sampleRecords 1905)) =
          some (l', HandlerEffect.pushError
            ⟨ovrError_EtwListenerLostEvents, "Lost " ++ toString (5 + 1) ++ " Events"⟩ ::
              rest) ∧
        pushedErrors rest = [] ∧
        handlerCalls rest ≠ [] ∧
        l'.Errors = [] ++
          [⟨ovrError_EtwListenerLostEvents, "Lost " ++ toString (5 + 1) ++ " Events"⟩] ∧
        l'.NumLostEvents = 0 :=
  ⟨by decide, by rw [sampleRecords_length], sampleRecords_accepted 1905,
    HandleEvents_reports_lost sampleEvents 10000000 50 [] false 5 (sampleRecords 1905)
      (by decide) (by rw [sampleRecords_length]) (sampleRecords_accepted 1905)⟩

/-- Claim C7. `GetAndClearErrors` returns every error pushed since the previous drain, in
the order they were pushed, and leaves the error list empty: a second call made right
afterwards returns the empty list, and `HasErrors` is false. -/
theorem GetAndClearErrors_returns_pushed (l : EtwFrameListener)
    (errors : List EtwListenerError) :
    (GetAndClearErrors (errors.foldl pushError (GetAndClearErrors l).2)).1 = errors ∧
      (GetAndClearErrors (errors.foldl pushError (GetAndClearErrors l).2)).2.Errors = [] ∧
      (GetAndClearErrors
        (GetAndClearErrors (errors.foldl pushError (GetAndClearErrors l).2)).2).1 = [] ∧
      HasErrors (GetAndClearErrors (errors.foldl pushError (GetAndClearErrors l).2)).2 =
        false := by
  have hfold : ∀ (es : List EtwListenerError) (l0 : EtwFrameListener),
      (es.foldl pushError l0).Errors = l0.Errors ++ es := by
    intro es
    induction es with
    | nil => intro l0; simp
    | cons e es ih =>
      intro l0
      rw [List.foldl_cons, ih]
      simp [pushError]
  refine ⟨?_, rfl, rfl, rfl⟩
  show (errors.foldl pushError (GetAndClearErrors l).2).Errors = errors
  rw [hfold]
  rfl

theorem ProcessEvent_mismatch (M : LibOVREvents) (l : EtwFrameListener) (p : EVENT_RECORD)
    (info : EtwStructInfo)
    (hfind : l.EtwDataConv.find ⟨etwLookupProviderId M p.ProviderId, p.Id⟩ = some info)
    (hmis : info.Version ≠ (p.Version : Int) ∨ info.StructSize ≠ p.UserDataLength) :
    ProcessEvent M l p = l ∧
      (l.EtwDataConv.Deserialize M p EtwEvent.ctor).ok = false ∧
      (l.EtwDataConv.Deserialize M p EtwEvent.ctor).log.length = 1 := by
  have hd := Deserialize_of_find_some M l.EtwDataConv p EtwEvent.ctor info hfind
  have hok : (l.EtwDataConv.Deserialize M p EtwEvent.ctor).ok = false ∧
      (l.EtwDataConv.Deserialize M p EtwEvent.ctor).log.length = 1 := by
    rw [hd]
    by_cases h1 : info.Version ≠ (p.Version : Int)
    · rw [if_pos h1]
      exact ⟨rfl, rfl⟩
    · rw [if_neg h1]
      have h2 : info.StructSize ≠ p.UserDataLength := by
        cases hmis with
        | inl h => exact absurd h h1
        | inr h => exact h
      rw [if_pos h2]
      exact ⟨rfl, rfl⟩
  refine ⟨?_, hok⟩
  apply ProcessEvent_rejected
  intro hacc
  have h2 : (l.EtwDataConv.Deserialize M p EtwEvent.ctor).ok = true := hacc.2
  rw [hok.1] at h2
  exact absurd h2 Bool.false_ne_true

theorem sampleMismatch_find :
    sampleListener.EtwDataConv.find
        ⟨etwLookupProviderId sampleEvents sampleMismatch.ProviderId, sampleMismatch.Id⟩ =
      some ⟨20, 0⟩ := by
  have hk : etwLookupProviderId sampleEvents sampleMismatch.ProviderId = EtwProviders.Sdk := by
    simp [etwLookupProviderId, sampleEvents, sampleMismatch]
  have hid : sampleMismatch.Id = 5 := by simp [sampleMismatch]
  rw [hk, hid]
  exact sample_find

/-- Claim C10, refuted as stated. The sample listener, fresh and without errors, receives
a record of a registered (provider, eventId) whose version, 1, differs from the registered
version 0: the record is not stored, and no error is recorded either. The error list stays
empty, `HasErrors` stays false and `GetAndClearErrors` returns nothing. -/
theorem ProcessEvent_mismatch_counterexample :
    sampleListener.EtwDataConv.find
        ⟨etwLookupProviderId sampleEvents sampleMismatch.ProviderId, sampleMismatch.Id⟩ =
        some ⟨20, 0⟩ ∧
      (0 : Int) ≠ (sampleMismatch.Version : Int) ∧
      (ProcessEvent sampleEvents sampleListener sampleMismatch).Errors = [] ∧
      HasErrors (ProcessEvent sampleEvents sampleListener sampleMismatch) = false ∧
      (GetAndClearErrors (ProcessEvent sampleEvents sampleListener sampleMismatch)).1 = [] ∧
      ¬ ∃ e ∈ (ProcessEvent sampleEvents sampleListener sampleMismatch).Errors,
        e.code = ovrError_EtwListenerRuntime := by
  have hv : (0 : Int) ≠ (sampleMismatch.Version : Int) := by
    simp [sampleMismatch]
  have h := (ProcessEvent_mismatch sampleEvents sampleListener sampleMismatch ⟨20, 0⟩
    sampleMismatch_find (Or.inl hv)).1
  rw [h]
  refine ⟨sampleMismatch_find, hv, rfl, rfl, rfl, ?_⟩
  rintro ⟨e, he, _⟩
  exact absurd he (List.not_mem_nil e)

/-- Claim C10, amended. When `ProcessEvent` receives a record for a registered (provider,
eventId) whose version or payload size differs from the registry entry, the record is not
stored in the ring buffer and the listener is left exactly as it was: `Deserialize` returns
false after handing one message to `LogError`, and nothing is added to the error list of
the listener, so `HasErrors` and what `GetAndClearErrors` returns are unaffected. -/
theorem ProcessEvent_mismatch_not_stored (M : LibOVREvents) (l : EtwFrameListener)
    (p : EVENT_RECORD) (info : EtwStructInfo)
    (hfind : l.EtwDataConv.find ⟨etwLookupProviderId M p.ProviderId, p.Id⟩ = some info)
    (hmis : info.Version ≠ (p.Version : Int) ∨ info.StructSize ≠ p.UserDataLength) :
    ProcessEvent M l p = l ∧
      (ProcessEvent M l p).Errors = l.Errors ∧
      HasErrors (ProcessEvent M l p) = HasErrors l ∧
      (GetAndClearErrors (ProcessEvent M l p)).1 = (GetAndClearErrors l).1 ∧
      (l.EtwDataConv.Deserialize M p EtwEvent.ctor).ok = false ∧
      (l.EtwDataConv.Deserialize M p EtwEvent.ctor).log.length = 1 := by
  obtain ⟨h1, h2, h3⟩ := ProcessEvent_mismatch M l p info hfind hmis
  rw [h1]
  exact ⟨rfl, rfl, rfl, rfl, h2, h3⟩

/-- Claim C10 as amended, at the sample listener and the record with the wrong version. -/
theorem ProcessEvent_mismatch_not_stored_witness :
    sampleListener.EtwDataConv.find
        ⟨etwLookupProviderId sampleEvents sampleMismatch.ProviderId, sampleMismatch.Id⟩ =
        some ⟨20, 0⟩ ∧
      ((0 : Int) ≠ (sampleMismatch.Version : Int) ∨ 20 ≠ sampleMismatch.UserDataLength) ∧
      ProcessEvent sampleEvents sampleListener sampleMismatch = sampleListener ∧
      (ProcessEvent sampleEvents sampleListener sampleMismatch).Errors =
        sampleListener.Errors ∧
      HasErrors (ProcessEvent sampleEvents sampleListener sampleMismatch) =
        HasErrors sampleListener ∧
      (GetAndClearErrors (ProcessEvent sampleEvents sampleListener sampleMismatch)).1 =
        (GetAndClearErrors sampleListener).1 ∧
      (sampleListener.EtwDataConv.Deserialize sampleEvents sampleMismatch EtwEvent.ctor).ok =
        false ∧
      (sampleListener.EtwDataConv.Deserialize sampleEvents sampleMismatch
        EtwEvent.ctor).log.length = 1 :=
  ⟨sampleMismatch_find, Or.inl (by simp [sampleMismatch]),
    ProcessEvent_mismatch_not_stored sampleEvents sampleListener sampleMismatch ⟨20, 0⟩
      sampleMismatch_find (Or.inl (by simp [sampleMismatch]))⟩

end EtwFrameListener

/-! ## The registry and the deserialiser -/

/-- Claim C8. `Deserialize` returns true if and only if the record's (provider, eventId) is
in the registry, the record's version equals the registered version, the record's payload
length equals the registered struct size, and that size is at most
`EtwEvent::MaxUserDataSize = 96`; for every other record it returns false. The registry
entry of a key is the one that the first `registerStruct` call for that key put there. -/
theorem Deserialize_ok_iff (M : LibOVREvents) (conv : EtwEventDataConv)
    (event : EVENT_RECORD) (buffer : EtwEvent) :
    ((conv.Deserialize M event buffer).ok = true ↔
        ∃ info, conv.find ⟨etwLookupProviderId M event.ProviderId, event.Id⟩ = some info ∧
          info.Version = (event.Version : Int) ∧
          info.StructSize = event.UserDataLength ∧
          info.StructSize ≤ 96) ∧
      ((conv.Deserialize M event buffer).ok = false ↔
        ¬ ∃ info, conv.find ⟨etwLookupProviderId M event.ProviderId, event.Id⟩ = some info ∧
          info.Version = (event.Version : Int) ∧
          info.StructSize = event.UserDataLength ∧
          info.StructSize ≤ 96) ∧
      ∀ (provider : EtwProviders) (eventId structSize : Nat) (version : Int)
        (key : EtwEventKey),
        (conv.registerStruct provider eventId structSize version).find key =
          if key = ⟨provider, eventId⟩ ∧ conv.find key = none then
            some ⟨structSize, version⟩
          else conv.find key := by
  have h := Deserialize_ok_iff_aux M conv event buffer
  refine ⟨h, ?_, fun provider eventId structSize version key =>
    find_registerStruct conv provider eventId structSize version key⟩
  rw [← h]
  cases (conv.Deserialize M event buffer).ok <;> simp

/-- Claim C9. Whenever `Deserialize` of the converter built by the constructor returns
true, the output event has `ProviderId` equal to the record's provider, which is `Sdk`, so
`IsValid` holds for it; `EventId` equal to the record's event id; `UserDataSize` equal to
the record's payload length, with `0 ≤ UserDataSize ≤ 96`; and its first `UserDataSize`
payload bytes equal to the record's payload bytes. -/
theorem Deserialize_ok_output (M : LibOVREvents) (freq : Nat) (event : EVENT_RECORD)
    (buffer : EtwEvent)
    (h : ((EtwEventDataConv.ctor M freq).Deserialize M event buffer).ok = true) :
    ((EtwEventDataConv.ctor M freq).Deserialize M event buffer).buffer.ProviderId =
        etwLookupProviderId M event.ProviderId ∧
      ((EtwEventDataConv.ctor M freq).Deserialize M event buffer).buffer.ProviderId =
        EtwProviders.Sdk ∧
      ((EtwEventDataConv.ctor M freq).Deserialize M event buffer).buffer.IsValid = true ∧
      ((EtwEventDataConv.ctor M freq).Deserialize M event buffer).buffer.EventId =
        (event.Id : Int) ∧
      ((EtwEventDataConv.ctor M freq).Deserialize M event buffer).buffer.UserDataSize =
        (event.UserDataLength : Int) ∧
      0 ≤ ((EtwEventDataConv.ctor M freq).Deserialize M event buffer).buffer.UserDataSize ∧
      ((EtwEventDataConv.ctor M freq).Deserialize M event buffer).buffer.UserDataSize ≤ 96 ∧
      ((EtwEventDataConv.ctor M freq).Deserialize M event buffer).buffer.UserData.take
          ((EtwEventDataConv.ctor M freq).Deserialize M event
            buffer).buffer.UserDataSize.toNat =
        event.UserData := by
  obtain ⟨info, hf, _, h2, h3⟩ := (Deserialize_ok_iff_aux M _ event buffer).mp h
  have hsdk := ctor_find_Sdk M freq _ info hf
  simp only at hsdk
  rw [Deserialize_ok_buffer M _ event buffer h]
  have hlen : event.UserDataLength ≤ 96 := by rw [← h2]; exact h3
  refine ⟨rfl, hsdk, ?_, rfl, rfl, ?_, ?_, ?_⟩
  · simp [EtwEvent.IsValid, hsdk]
  · simp
  · simp only [Nat.cast_le_ofNat]
    exact hlen
  · simp [EVENT_RECORD.UserDataLength]

/-- Claim C9 at the sample record and the converter of the sample listener. -/
theorem Deserialize_ok_output_witness :
    ((EtwEventDataConv.ctor EtwFrameListener.sampleEvents 10000000).Deserialize EtwFrameListener.sampleEvents
        (EtwFrameListener.sampleRecord 3) EtwEvent.ctor).ok = true ∧
      ((EtwEventDataConv.ctor EtwFrameListener.sampleEvents 10000000).Deserialize EtwFrameListener.sampleEvents
        (EtwFrameListener.sampleRecord 3) EtwEvent.ctor).buffer.ProviderId =
          etwLookupProviderId EtwFrameListener.sampleEvents (EtwFrameListener.sampleRecord 3).ProviderId ∧
      ((EtwEventDataConv.ctor EtwFrameListener.sampleEvents 10000000).Deserialize EtwFrameListener.sampleEvents
        (EtwFrameListener.sampleRecord 3) EtwEvent.ctor).buffer.ProviderId =
          EtwProviders.Sdk ∧
      ((EtwEventDataConv.ctor EtwFrameListener.sampleEvents 10000000).Deserialize EtwFrameListener.sampleEvents
        (EtwFrameListener.sampleRecord 3) EtwEvent.ctor).buffer.IsValid = true ∧
      ((EtwEventDataConv.ctor EtwFrameListener.sampleEvents 10000000).Deserialize EtwFrameListener.sampleEvents
        (EtwFrameListener.sampleRecord 3) EtwEvent.ctor).buffer.EventId =
          ((EtwFrameListener.sampleRecord 3).Id : Int) ∧
      ((EtwEventDataConv.ctor EtwFrameListener.sampleEvents 10000000).Deserialize EtwFrameListener.sampleEvents
        (EtwFrameListener.sampleRecord 3) EtwEvent.ctor).buffer.UserDataSize =
          ((EtwFrameListener.sampleRecord 3).UserDataLength : Int) ∧
      0 ≤ ((EtwEventDataConv.ctor EtwFrameListener.sampleEvents 10000000).Deserialize EtwFrameListener.sampleEvents
        (EtwFrameListener.sampleRecord 3) EtwEvent.ctor).buffer.UserDataSize ∧
      ((EtwEventDataConv.ctor EtwFrameListener.sampleEvents 10000000).Deserialize EtwFrameListener.sampleEvents
        (EtwFrameListener.sampleRecord 3) EtwEvent.ctor).buffer.UserDataSize ≤ 96 ∧
      ((EtwEventDataConv.ctor EtwFrameListener.sampleEvents 10000000).Deserialize EtwFrameListener.sampleEvents
        (EtwFrameListener.sampleRecord 3) EtwEvent.ctor).buffer.UserData.take
          ((EtwEventDataConv.ctor EtwFrameListener.sampleEvents 10000000).Deserialize EtwFrameListener.sampleEvents
            (EtwFrameListener.sampleRecord 3) EtwEvent.ctor).buffer.UserDataSize.toNat =
        (EtwFrameListener.sampleRecord 3).UserData :=
  ⟨EtwFrameListener.sampleRecord_ok 3,
    Deserialize_ok_output EtwFrameListener.sampleEvents 10000000 (EtwFrameListener.sampleRecord 3)
      EtwEvent.ctor (EtwFrameListener.sampleRecord_ok 3)⟩

/-! ## The documented contracts that the code misses -/

/-- Claim C11, the code at a failing input. The sample record has an event id that is not
registered, and the output event holds `UserDataSize = 5` before the call: `Deserialize`
returns false and leaves `UserDataSize` at 5, where its documentation says it is set
to 0. -/
theorem Deserialize_unregistered_keeps_UserDataSize :
    (EtwEventDataConv.ctor EtwFrameListener.sampleEvents 10000000).find
        ⟨etwLookupProviderId EtwFrameListener.sampleEvents sampleUnregistered.ProviderId,
          sampleUnregistered.Id⟩ = none ∧
      ((EtwEventDataConv.ctor EtwFrameListener.sampleEvents 10000000).Deserialize
        EtwFrameListener.sampleEvents sampleUnregistered
        { EtwEvent.ctor with UserDataSize := 5 }).ok = false ∧
      ((EtwEventDataConv.ctor EtwFrameListener.sampleEvents 10000000).Deserialize
        EtwFrameListener.sampleEvents sampleUnregistered
        { EtwEvent.ctor with UserDataSize := 5 }).buffer.UserDataSize = 5 := by
  have hk : etwLookupProviderId EtwFrameListener.sampleEvents sampleUnregistered.ProviderId =
      EtwProviders.Sdk := by
    simp [etwLookupProviderId, EtwFrameListener.sampleEvents, sampleUnregistered]
  have hid : sampleUnregistered.Id = 99 := by simp [sampleUnregistered]
  have hf : (EtwEventDataConv.ctor EtwFrameListener.sampleEvents 10000000).find
      ⟨etwLookupProviderId EtwFrameListener.sampleEvents sampleUnregistered.ProviderId,
        sampleUnregistered.Id⟩ = none := by
    rw [hk, hid]
    unfold EtwEventDataConv.ctor
    simp only [find_setFrequency, find_registerStruct]
    simp [EtwEventDataConv.find, EtwFrameListener.sampleEvents]
  rw [Deserialize_of_find_none _ _ _ _ hf]
  exact ⟨hf, rfl, rfl⟩

/-- Claim C19, the code at a failing input. The array holds events at times 1, 2, 3 and the
time sought is 3: the search compares the middle element, then recurses on `&events[2]`
with count `3 - 1 = 2` and reads `events[3]`, beyond the array, although `events[2]` has
the time sought. -/
theorem etwFindExactEvent_reads_beyond_array :
    etwFindExactEvent 3 [sampleTimed 1, sampleTimed 2, sampleTimed 3] =
      some FindResult.outOfBounds := by
  unfold etwFindExactEvent
  simp [etwFindExactEventAux, sampleTimed]
  norm_num

/-- Claim C20, the code at a failing input. The array holds events at times 1, 2, 3 and the
time is 5: the search recurses on `&events[1]` with count `3 - 1 + 1 = 3`, then on
`&events[2]` with count 3, and reads `events[3]`, beyond the array, where the claim
promises the element at time 3. -/
theorem etwFindLeftEvent_reads_beyond_array :
    (sampleTimed 1).EventTime ≤ 5 ∧
      etwFindLeftEvent 5 [sampleTimed 1, sampleTimed 2, sampleTimed 3] =
        some FindResult.outOfBounds := by
  constructor
  · simp only [sampleTimed]
    norm_num
  · unfold etwFindLeftEvent
    simp [etwFindLeftEventAux, sampleTimed]
    norm_num

/-! ## The partitioner: windows and their events -/

namespace VSyncEventPartitioner

/-- Claim C12. A stream fed to a fresh partitioner ends in the VSync event `e`, and every
VSync payload of the stream has a non-zero time and a frame index other than `0xFFFFFFFF`.
The run returns. If fewer than three VSync events precede `e`, the pass for `e` calls no
window callback. If `j + 3` VSync events precede `e`, so that `e` is VSync number
`k = j + 3`, the pass calls the callback exactly once, with `v0`, `v1`, `v2`, `v3` the times
of VSyncs `k - 3`, `k - 2`, `k - 1`, `k`, with `frameIndex` the frame index of VSync `k - 1`
and `nextFrameIndex` that of VSync `k`. -/
theorem HandleEvents_window_of_vsync (M : LibOVREvents) (rd : List Nat → ℚ)
    (pre : List EtwEvent) (e : EtwEvent) (he : isVSync M e = true)
    (hu : ∀ x ∈ vsyncsOf M rd (pre ++ [e]), x.VSyncTime ≠ 0 ∧ x.FrameIndex ≠ 4294967295) :
    ∃ p1 eff1 p2 eff2,
      HandleEvents M rd VSyncEventPartitioner.ctor pre = some (p1, eff1) ∧
      handleEvent M rd p1 e = some (p2, eff2) ∧
      HandleEvents M rd VSyncEventPartitioner.ctor (pre ++ [e]) = some (p2, eff1 ++ eff2) ∧
      ((vsyncsOf M rd pre).length < 3 → windowsOf eff2 = []) ∧
      (∀ j, (vsyncsOf M rd pre).length = j + 3 →
        ∃ w x0 x1 x2 x3, windowsOf eff2 = [w] ∧
          (vsyncsOf M rd (pre ++ [e]))[j]? = some x0 ∧
          (vsyncsOf M rd (pre ++ [e]))[j + 1]? = some x1 ∧
          (vsyncsOf M rd (pre ++ [e]))[j + 2]? = some x2 ∧
          (vsyncsOf M rd (pre ++ [e]))[j + 3]? = some x3 ∧
          w.v0 = x0.VSyncTime ∧ w.v1 = x1.VSyncTime ∧ w.v2 = x2.VSyncTime ∧
          w.v3 = x3.VSyncTime ∧ w.ft = x2.FrameIndex ∧ w.fn = x3.FrameIndex) := by
  obtain ⟨p1, eff1, p2, eff2, h1, h2, h3, hfew, hwin⟩ :=
    vsync_step M rd pre e he (usable_of_ne M rd _ hu)
  refine ⟨p1, eff1, p2, eff2, h1, h2, h3, hfew, ?_⟩
  intro j hj
  obtain ⟨a, b, c, rest, hrev⟩ := reverse_three (vsyncsOf M rd pre) (by omega)
  obtain ⟨r, _, _, hw⟩ := hwin a b c rest hrev
  obtain ⟨g0, g1, g2, g3, g4⟩ :=
    getElem?_of_reverse (vsyncsOf M rd pre) (etwGetVSyncData rd e) a b c rest hrev
  have hjr : j = rest.length := by omega
  subst hjr
  rw [vsyncsOf_append, vsyncsOf_single_vsync M rd e he]
  exact ⟨_, c, b, a, etwGetVSyncData rd e, hw, g1, g2, g3, g4, rfl, rfl, rfl, rfl, rfl, rfl⟩

/-- Witness for claim C12: the sample stream of three VSyncs followed by a fourth. -/
theorem HandleEvents_window_of_vsync_witness :
    isVSync EtwFrameListener.sampleEvents (sampleVSync 4 3) = true ∧
      (∀ x ∈ vsyncsOf EtwFrameListener.sampleEvents sampleReadDouble
          (sampleStream 3 ++ [sampleVSync 4 3]),
        x.VSyncTime ≠ 0 ∧ x.FrameIndex ≠ 4294967295) ∧
      ∃ p1 eff1 p2 eff2,
        HandleEvents EtwFrameListener.sampleEvents sampleReadDouble
            VSyncEventPartitioner.ctor (sampleStream 3) = some (p1, eff1) ∧
        handleEvent EtwFrameListener.sampleEvents sampleReadDouble p1 (sampleVSync 4 3) =
          some (p2, eff2) ∧
        HandleEvents EtwFrameListener.sampleEvents sampleReadDouble
            VSyncEventPartitioner.ctor (sampleStream 3 ++ [sampleVSync 4 3]) =
          some (p2, eff1 ++ eff2) ∧
        ((vsyncsOf EtwFrameListener.sampleEvents sampleReadDouble (sampleStream 3)).length < 3 →
          windowsOf eff2 = []) ∧
        (∀ j,
          (vsyncsOf EtwFrameListener.sampleEvents sampleReadDouble (sampleStream 3)).length =
            j + 3 →
          ∃ w x0 x1 x2 x3, windowsOf eff2 = [w] ∧
            (vsyncsOf EtwFrameListener.sampleEvents sampleReadDouble
              (sampleStream 3 ++ [sampleVSync 4 3]))[j]? = some x0 ∧
            (vsyncsOf EtwFrameListener.sampleEvents sampleReadDouble
              (sampleStream 3 ++ [sampleVSync 4 3]))[j + 1]? = some x1 ∧
            (vsyncsOf EtwFrameListener.sampleEvents sampleReadDouble
              (sampleStream 3 ++ [sampleVSync 4 3]))[j + 2]? = some x2 ∧
            (vsyncsOf EtwFrameListener.sampleEvents sampleReadDouble
              (sampleStream 3 ++ [sampleVSync 4 3]))[j + 3]? = some x3 ∧
            w.v0 = x0.VSyncTime ∧ w.v1 = x1.VSyncTime ∧ w.v2 = x2.VSyncTime ∧
            w.v3 = x3.VSyncTime ∧ w.ft = x2.FrameIndex ∧ w.fn = x3.FrameIndex) :=
  ⟨sampleVSync_isVSync 4 3,
    by rw [← sampleStream_succ 3]; exact sampleStream_usable_ne 4 (by decide),
    HandleEvents_window_of_vsync EtwFrameListener.sampleEvents sampleReadDouble
      (sampleStream 3) (sampleVSync 4 3) (sampleVSync_isVSync 4 3)
      (by rw [← sampleStream_succ 3]; exact sampleStream_usable_ne 4 (by decide))⟩

/-- Claim C13. Whatever the calls of `HandleEvents` on a fresh partitioner, and whatever
the payloads: if the events of all calls together contain fewer than four VSync-typed
events, every call returns and the window callback is never invoked. -/
theorem HandleEventsCalls_few_vsyncs (M : LibOVREvents) (rd : List Nat → ℚ)
    (calls : List (List EtwEvent))
    (h : (calls.flatten.filter (isVSync M)).length < 4) :
    ∃ p effects,
      HandleEventsCalls M rd VSyncEventPartitioner.ctor calls = some (p, effects) ∧
      windowsOf effects = [] := by
  obtain ⟨p, eff, hrun, _, _, _, _, hw⟩ := few_vsyncs M rd calls.flatten
  refine ⟨p, eff, ?_, hw ?_⟩
  · rw [HandleEventsCalls_flatten]
    exact hrun
  · unfold vsyncsOf
    rw [List.length_map]
    exact h

/-- Witness for claim C13: three calls with three VSync events and two other events. -/
theorem HandleEventsCalls_few_vsyncs_witness :
    (([[sampleVSync 1 0, sampleTimed 1], [sampleVSync 2 1],
        [sampleTimed 2, sampleVSync 3 2]] : List (List EtwEvent)).flatten.filter
          (isVSync EtwFrameListener.sampleEvents)).length < 4 ∧
      ∃ p effects,
        HandleEventsCalls EtwFrameListener.sampleEvents sampleReadDouble
            VSyncEventPartitioner.ctor
            [[sampleVSync 1 0, sampleTimed 1], [sampleVSync 2 1],
              [sampleTimed 2, sampleVSync 3 2]] = some (p, effects) ∧
        windowsOf effects = [] :=
  ⟨by decide,
    HandleEventsCalls_few_vsyncs EtwFrameListener.sampleEvents sampleReadDouble
      [[sampleVSync 1 0, sampleTimed 1], [sampleVSync 2 1], [sampleTimed 2, sampleVSync 3 2]]
      (by decide)⟩

/-- Claim C14. The events that have reached a fresh partitioner, `pre` and then `e`, are
valid, in non-decreasing `EventTime` order and fewer than 2048. The run returns, and for
every window `w` that the pass for `e` hands to the callback the event list is exactly the
buffered events with `w.v0 < EventTime ≤ w.v3`, in buffer order, where `w.v0` is the oldest
pair's `vsyncBegin` and `w.v3` the newest pair's `vsyncEnd`; `buildEventList` returns that
list for any `begin` and `end` and does not print the size diagnostic. A buffered event at
time `w.v3` is in the list (when `w.v0 < w.v3`) and one at time `w.v0` is not. -/
theorem buildEventList_window_events (M : LibOVREvents) (rd : List Nat → ℚ)
    (pre : List EtwEvent) (e : EtwEvent) (hvalid : ∀ x ∈ pre ++ [e], x.IsValid = true)
    (hs : Chronological (pre ++ [e])) (hlen : (pre ++ [e]).length < 2048) :
    ∃ p1 eff1 p2 eff2,
      HandleEvents M rd VSyncEventPartitioner.ctor pre = some (p1, eff1) ∧
      handleEvent M rd p1 e = some (p2, eff2) ∧
      HandleEvents M rd VSyncEventPartitioner.ctor (pre ++ [e]) = some (p2, eff1 ++ eff2) ∧
      (∀ begin_ end_, (p1.storeEvent e).buildEventList 2048 begin_ end_ =
        some ((pre ++ [e]).filter
          (fun x => decide (begin_ < x.EventTime ∧ x.EventTime ≤ end_)), false)) ∧
      PartitionerEffect.printfIncreaseSize ∉ eff2 ∧
      ∀ w ∈ windowsOf eff2,
        (p1.storeEvent e).buildEventList 2048 w.v0 w.v3 = some (w.bufferedEventSet, false) ∧
        w.bufferedEventSet = (pre ++ [e]).filter
          (fun x => decide (w.v0 < x.EventTime ∧ x.EventTime ≤ w.v3)) ∧
        ∀ x ∈ pre ++ [e],
          (x.EventTime = w.v3 → w.v0 < w.v3 → x ∈ w.bufferedEventSet) ∧
          (x.EventTime = w.v0 → x ∉ w.bufferedEventSet) := by
  obtain ⟨p1, eff1, p2, eff2, h1, h2, h3, hb, hset, hno⟩ :=
    buffered_step M rd pre e hvalid hs hlen
  have hbuild := buildEventList_Buffered (pre ++ [e]) (p1.storeEvent e) hb hvalid hs
  refine ⟨p1, eff1, p2, eff2, h1, h2, h3, hbuild, hno, ?_⟩
  intro w hw
  have hw2 := hset w hw
  refine ⟨?_, hw2, ?_⟩
  · rw [hbuild, hw2]
  · intro x hx
    rw [hw2]
    constructor
    · intro ht hlt
      rw [List.mem_filter]
      refine ⟨hx, ?_⟩
      unfold inWindow
      rw [decide_eq_true_iff, ht]
      exact ⟨hlt, le_refl _⟩
    · intro ht hc
      rw [List.mem_filter] at hc
      have h := hc.2
      unfold inWindow at h
      rw [decide_eq_true_iff, ht] at h
      exact lt_irrefl _ h.1

/-- Witness for claim C14: the sample stream of three VSyncs followed by a fourth. -/
theorem buildEventList_window_events_witness :
    (∀ x ∈ sampleStream 3 ++ [sampleVSync 4 3], x.IsValid = true) ∧
      Chronological (sampleStream 3 ++ [sampleVSync 4 3]) ∧
      (sampleStream 3 ++ [sampleVSync 4 3]).length < 2048 ∧
      ∃ p1 eff1 p2 eff2,
        HandleEvents EtwFrameListener.sampleEvents sampleReadDouble
            VSyncEventPartitioner.ctor (sampleStream 3) = some (p1, eff1) ∧
        handleEvent EtwFrameListener.sampleEvents sampleReadDouble p1 (sampleVSync 4 3) =
          some (p2, eff2) ∧
        HandleEvents EtwFrameListener.sampleEvents sampleReadDouble
            VSyncEventPartitioner.ctor (sampleStream 3 ++ [sampleVSync 4 3]) =
          some (p2, eff1 ++ eff2) ∧
        (∀ begin_ end_, (p1.storeEvent (sampleVSync 4 3)).buildEventList 2048 begin_ end_ =
          some ((sampleStream 3 ++ [sampleVSync 4 3]).filter
            (fun x => decide (begin_ < x.EventTime ∧ x.EventTime ≤ end_)), false)) ∧
        PartitionerEffect.printfIncreaseSize ∉ eff2 ∧
        ∀ w ∈ windowsOf eff2,
          (p1.storeEvent (sampleVSync 4 3)).buildEventList 2048 w.v0 w.v3 =
            some (w.bufferedEventSet, false) ∧
          w.bufferedEventSet = (sampleStream 3 ++ [sampleVSync 4 3]).filter
            (fun x => decide (w.v0 < x.EventTime ∧ x.EventTime ≤ w.v3)) ∧
          ∀ x ∈ sampleStream 3 ++ [sampleVSync 4 3],
            (x.EventTime = w.v3 → w.v0 < w.v3 → x ∈ w.bufferedEventSet) ∧
            (x.EventTime = w.v0 → x ∉ w.bufferedEventSet) :=
  ⟨by rw [← sampleStream_succ 3]; exact sampleStream_valid 4,
    by rw [← sampleStream_succ 3]; exact sampleStream_chronological 4,
    by rw [← sampleStream_succ 3, sampleStream_length]; decide,
    buildEventList_window_events EtwFrameListener.sampleEvents sampleReadDouble
      (sampleStream 3) (sampleVSync 4 3)
      (by rw [← sampleStream_succ 3]; exact sampleStream_valid 4)
      (by rw [← sampleStream_succ 3]; exact sampleStream_chronological 4)
      (by rw [← sampleStream_succ 3, sampleStream_length]; decide)⟩

/-- Claim C15, refuted as stated. The sample stream has five VSync events at times 1 to 5,
in chronological order. The fourth triggers the first window callback, whose window ends at
`v3 = 4`, and the fifth triggers the next one. The event stamped 4 is in the event list of
the first callback and in the event list of the next callback as well. -/
theorem consecutive_windows_share_event :
    Chronological (sampleStream 3 ++ [sampleVSync 4 3] ++ [] ++ [sampleVSync 5 4]) ∧
      ∃ p1 eff1 p2 eff2 p3 eff3 w1 w2,
        HandleEvents EtwFrameListener.sampleEvents sampleReadDouble
            VSyncEventPartitioner.ctor (sampleStream 3) = some (p1, eff1) ∧
        windowsOf eff1 = [] ∧
        handleEvent EtwFrameListener.sampleEvents sampleReadDouble p1 (sampleVSync 4 3) =
          some (p2, eff2) ∧
        handleEvent EtwFrameListener.sampleEvents sampleReadDouble p2 (sampleVSync 5 4) =
          some (p3, eff3) ∧
        windowsOf eff2 = [w1] ∧ windowsOf eff3 = [w2] ∧
        (sampleVSync 4 3).EventTime = w1.v3 ∧
        sampleVSync 4 3 ∈ w1.bufferedEventSet ∧
        sampleVSync 4 3 ∈ w2.bufferedEventSet := by
  have hchron : Chronological
      (sampleStream 3 ++ [sampleVSync 4 3] ++ [] ++ [sampleVSync 5 4]) := by
    rw [sampleStream_five]; exact sampleStream_chronological 5
  refine ⟨hchron, ?_⟩
  obtain ⟨p1, eff1, p2, eff2, p3, p4, eff4, h1, h2, hm, h4, _, hw1, hw2⟩ :=
    two_windows EtwFrameListener.sampleEvents sampleReadDouble (sampleStream 3) []
      (sampleVSync 4 3) (sampleVSync 5 4) (sampleVSync_isVSync 4 3) (sampleVSync_isVSync 5 4)
      (fun m hm => absurd hm (List.not_mem_nil m))
      (by rw [sampleStream_five]; exact sampleStream_usable 5 (by decide))
      (by rw [sampleStream_five]; exact sampleStream_valid 5)
      hchron
      (by rw [sampleStream_five, sampleStream_length]; decide)
      _ _ _ _ sampleStream_three_vsyncs
  have hp : p2 = p3 := congrArg Prod.fst (Option.some.inj hm)
  subst hp
  obtain ⟨q, f, hq, _, _, _, _, hfew⟩ :=
    few_vsyncs EtwFrameListener.sampleEvents sampleReadDouble (sampleStream 3)
  have hinj := Option.some.inj (h1.symm.trans hq)
  have hf : eff1 = f := congrArg Prod.snd hinj
  subst hf
  have hnone : windowsOf eff1 = [] := hfew (by
    rw [sampleStream_vsyncs 3 (by decide), List.length_map, List.length_range]
    decide)
  have hd4 := sampleVSync_data 4 3 (by decide)
  have hd5 := sampleVSync_data 5 4 (by decide)
  refine ⟨p1, eff1, p2, eff2, p4, eff4, _, _, h1, hnone, h2, h4, hw1, hw2, ?_, ?_, ?_⟩
  · show (sampleVSync 4 3).EventTime =
      (etwGetVSyncData sampleReadDouble (sampleVSync 4 3)).VSyncTime
    rw [hd4]
    rfl
  · show sampleVSync 4 3 ∈ (sampleStream 3 ++ [sampleVSync 4 3]).filter
      (inWindow 1 (etwGetVSyncData sampleReadDouble (sampleVSync 4 3)).VSyncTime)
    rw [List.mem_filter, hd4]
    refine ⟨List.mem_append_right _ (List.mem_singleton_self _), ?_⟩
    unfold inWindow
    rw [decide_eq_true_iff]
    show (1 : ℚ) < ((4 : Nat) : ℚ) ∧ ((4 : Nat) : ℚ) ≤ ((4 : Nat) : ℚ)
    norm_num
  · show sampleVSync 4 3 ∈
      (sampleStream 3 ++ [sampleVSync 4 3] ++ [] ++ [sampleVSync 5 4]).filter
        (inWindow 2 (etwGetVSyncData sampleReadDouble (sampleVSync 5 4)).VSyncTime)
    rw [List.mem_filter, hd5]
    refine ⟨List.mem_append_left _ (List.mem_append_left _
      (List.mem_append_right _ (List.mem_singleton_self _))), ?_⟩
    unfold inWindow
    rw [decide_eq_true_iff]
    show (2 : ℚ) < ((4 : Nat) : ℚ) ∧ ((4 : Nat) : ℚ) ≤ ((5 : Nat) : ℚ)
    norm_num

/-- Claim C15, amended. A valid, chronological stream of fewer than 2048 events with
usable VSync payloads reaches a fresh partitioner: `pre` with at least three VSync events,
the VSync `e1`, events `mid` without a VSync, the VSync `e2`. The passes for `e1` and `e2`
call the window callback once each, with windows `w1` and `w2`, and none is called in
between. The next window starts at `v1` of the first (`w2.v0 = w1.v1`), so the two time
spans overlap. A buffered event stamped `w1.v3` is in the first list exactly when
`w1.v0 < w1.v3`, and it is in the next list exactly when `w1.v1 < w1.v3 ≤ w2.v3`: it is
not excluded from the next callback. -/
theorem consecutive_windows_overlap (M : LibOVREvents) (rd : List Nat → ℚ)
    (pre mid : List EtwEvent) (e1 e2 : EtwEvent)
    (he1 : isVSync M e1 = true) (he2 : isVSync M e2 = true)
    (hmid : ∀ m ∈ mid, isVSync M m = false)
    (hu : ∀ x ∈ vsyncsOf M rd (pre ++ [e1] ++ mid ++ [e2]),
      x.VSyncTime ≠ 0 ∧ x.FrameIndex ≠ 4294967295)
    (hvalid : ∀ x ∈ pre ++ [e1] ++ mid ++ [e2], x.IsValid = true)
    (hs : Chronological (pre ++ [e1] ++ mid ++ [e2]))
    (hlen : (pre ++ [e1] ++ mid ++ [e2]).length < 2048)
    (h3 : 3 ≤ (vsyncsOf M rd pre).length) :
    ∃ p1 eff1 p2 eff2 p3 p4 eff4 w1 w2,
      HandleEvents M rd VSyncEventPartitioner.ctor pre = some (p1, eff1) ∧
      handleEvent M rd p1 e1 = some (p2, eff2) ∧
      HandleEvents M rd p2 mid = some (p3, []) ∧
      handleEvent M rd p3 e2 = some (p4, eff4) ∧
      HandleEvents M rd VSyncEventPartitioner.ctor (pre ++ [e1] ++ mid ++ [e2]) =
        some (p4, eff1 ++ eff2 ++ eff4) ∧
      windowsOf eff2 = [w1] ∧ windowsOf eff4 = [w2] ∧
      w2.v0 = w1.v1 ∧ w2.v1 = w1.v2 ∧ w2.v2 = w1.v3 ∧
      ∀ y ∈ pre ++ [e1], y.EventTime = w1.v3 →
        (y ∈ w1.bufferedEventSet ↔ w1.v0 < w1.v3) ∧
        (y ∈ w2.bufferedEventSet ↔ w1.v1 < w1.v3 ∧ w1.v3 ≤ w2.v3) := by
  obtain ⟨a, b, c, rest, hrev⟩ := reverse_three (vsyncsOf M rd pre) h3
  obtain ⟨p1, eff1, p2, eff2, p3, p4, eff4, h1, h2, hm, h4, h5, hw1, hw2⟩ :=
    two_windows M rd pre mid e1 e2 he1 he2 hmid (usable_of_ne M rd _ hu) hvalid hs hlen
      a b c rest hrev
  refine ⟨p1, eff1, p2, eff2, p3, p4, eff4, _, _, h1, h2, hm, h4, h5, hw1, hw2, rfl, rfl,
    rfl, ?_⟩
  intro y hy ht
  have ht' : y.EventTime = (etwGetVSyncData rd e1).VSyncTime := ht
  constructor
  · show y ∈ (pre ++ [e1]).filter
        (inWindow c.VSyncTime (etwGetVSyncData rd e1).VSyncTime) ↔
      c.VSyncTime < (etwGetVSyncData rd e1).VSyncTime
    rw [List.mem_filter]
    unfold inWindow
    rw [decide_eq_true_iff, ht']
    exact ⟨fun h => h.2.1, fun h => ⟨hy, h, le_refl _⟩⟩
  · show y ∈ (pre ++ [e1] ++ mid ++ [e2]).filter
        (inWindow b.VSyncTime (etwGetVSyncData rd e2).VSyncTime) ↔
      b.VSyncTime < (etwGetVSyncData rd e1).VSyncTime ∧
        (etwGetVSyncData rd e1).VSyncTime ≤ (etwGetVSyncData rd e2).VSyncTime
    rw [List.mem_filter]
    unfold inWindow
    rw [decide_eq_true_iff, ht']
    exact ⟨fun h => h.2,
      fun h => ⟨List.mem_append_left _ (List.mem_append_left _ hy), h⟩⟩

/-- Witness for claim C15, amended: the sample stream of five VSyncs. -/
theorem consecutive_windows_overlap_witness :
    isVSync EtwFrameListener.sampleEvents (sampleVSync 4 3) = true ∧
      isVSync EtwFrameListener.sampleEvents (sampleVSync 5 4) = true ∧
      (∀ m ∈ ([] : List EtwEvent), isVSync EtwFrameListener.sampleEvents m = false) ∧
      (∀ x ∈ vsyncsOf EtwFrameListener.sampleEvents sampleReadDouble
          (sampleStream 3 ++ [sampleVSync 4 3] ++ [] ++ [sampleVSync 5 4]),
        x.VSyncTime ≠ 0 ∧ x.FrameIndex ≠ 4294967295) ∧
      (∀ x ∈ sampleStream 3 ++ [sampleVSync 4 3] ++ [] ++ [sampleVSync 5 4],
        x.IsValid = true) ∧
      Chronological (sampleStream 3 ++ [sampleVSync 4 3] ++ [] ++ [sampleVSync 5 4]) ∧
      (sampleStream 3 ++ [sampleVSync 4 3] ++ [] ++ [sampleVSync 5 4]).length < 2048 ∧
      3 ≤ (vsyncsOf EtwFrameListener.sampleEvents sampleReadDouble (sampleStream 3)).length ∧
      ∃ p1 eff1 p2 eff2 p3 p4 eff4 w1 w2,
        HandleEvents EtwFrameListener.sampleEvents sampleReadDouble
            VSyncEventPartitioner.ctor (sampleStream 3) = some (p1, eff1) ∧
        handleEvent EtwFrameListener.sampleEvents sampleReadDouble p1 (sampleVSync 4 3) =
          some (p2, eff2) ∧
        HandleEvents EtwFrameListener.sampleEvents sampleReadDouble p2 [] = some (p3, []) ∧
        handleEvent EtwFrameListener.sampleEvents sampleReadDouble p3 (sampleVSync 5 4) =
          some (p4, eff4) ∧
        HandleEvents EtwFrameListener.sampleEvents sampleReadDouble
            VSyncEventPartitioner.ctor
            (sampleStream 3 ++ [sampleVSync 4 3] ++ [] ++ [sampleVSync 5 4]) =
          some (p4, eff1 ++ eff2 ++ eff4) ∧
        windowsOf eff2 = [w1] ∧ windowsOf eff4 = [w2] ∧
        w2.v0 = w1.v1 ∧ w2.v1 = w1.v2 ∧ w2.v2 = w1.v3 ∧
        ∀ y ∈ sampleStream 3 ++ [sampleVSync 4 3], y.EventTime = w1.v3 →
          (y ∈ w1.bufferedEventSet ↔ w1.v0 < w1.v3) ∧
          (y ∈ w2.bufferedEventSet ↔ w1.v1 < w1.v3 ∧ w1.v3 ≤ w2.v3) :=
  ⟨sampleVSync_isVSync 4 3, sampleVSync_isVSync 5 4,
    fun m hm => absurd hm (List.not_mem_nil m),
    by rw [sampleStream_five]; exact sampleStream_usable_ne 5 (by decide),
    by rw [sampleStream_five]; exact sampleStream_valid 5,
    by rw [sampleStream_five]; exact sampleStream_chronological 5,
    by rw [sampleStream_five, sampleStream_length]; decide,
    by rw [sampleStream_vsyncs 3 (by decide), List.length_map, List.length_range],
    consecutive_windows_overlap EtwFrameListener.sampleEvents sampleReadDouble
      (sampleStream 3) [] (sampleVSync 4 3) (sampleVSync 5 4)
      (sampleVSync_isVSync 4 3) (sampleVSync_isVSync 5 4)
      (fun m hm => absurd hm (List.not_mem_nil m))
      (by rw [sampleStream_five]; exact sampleStream_usable_ne 5 (by decide))
      (by rw [sampleStream_five]; exact sampleStream_valid 5)
      (by rw [sampleStream_five]; exact sampleStream_chronological 5)
      (by rw [sampleStream_five, sampleStream_length]; decide)
      (by rw [sampleStream_vsyncs 3 (by decide), List.length_map, List.length_range])⟩

end VSyncEventPartitioner

/-! ## The partitioner and the stabilization callback -/

/-- Claim C18. A stream fed to a fresh partitioner has `N + 1` VSync events; VSync `k` has
the non-zero payload time `t0 + k * P` and the frame index `k`, where `P` is the
`vsyncToVSync` period of the stabilization callback. The run returns and calls the window
callback `N - 2` times; `numValidFrames` is `j` after the `j`-th callback, so the test
`numValidFrames >= 10` holds after the `j`-th callback exactly when `j` is at least 10; the
10th window is the one reported at the VSync with frame index 12; and the test holds at the
end of the stream for every `N` from 12 on. -/
theorem uniform_stream_stabilizes (M : LibOVREvents) (rd : List Nat → ℚ)
    (es : List EtwEvent) (N : Nat) (t0 P : ℚ) (hP : 0 ≤ P) (hN : N < 4294967295)
    (hlen : (vsyncsOf M rd es).length = N + 1)
    (hvs : ∀ (k : Nat) x, (vsyncsOf M rd es)[k]? = some x →
      x.VSyncTime = t0 + (k : ℚ) * P ∧ x.VSyncTime ≠ 0 ∧ x.FrameIndex = k) :
    ∃ p effects,
      VSyncEventPartitioner.HandleEvents M rd VSyncEventPartitioner.ctor es =
        some (p, effects) ∧
      (windowsOf effects).length = N - 2 ∧
      (∀ j, j ≤ N - 2 →
        (analyseWindows P FrameCounters.initial
          ((windowsOf effects).take j)).numValidFrames = (j : Int)) ∧
      (∀ j, j ≤ N - 2 →
        ((analyseWindows P FrameCounters.initial
          ((windowsOf effects).take j)).numValidFrames ≥ 10 ↔ 10 ≤ j)) ∧
      (∀ w, (windowsOf effects)[9]? = some w → w.fn = 12) ∧
      (12 ≤ N →
        (analyseWindows P FrameCounters.initial (windowsOf effects)).numValidFrames ≥
          10) := by
  have hu : ∀ x ∈ vsyncsOf M rd es, UsableVSync x := by
    intro x hx
    obtain ⟨k, hk⟩ := List.mem_iff_getElem?.mp hx
    obtain ⟨_, h2, h3⟩ := hvs k x hk
    have hlt : k < (vsyncsOf M rd es).length := (List.getElem?_eq_some.mp hk).1
    exact ⟨h2, by rw [h3]; omega⟩
  obtain ⟨p, eff, hrun, hwl, hwin⟩ := VSyncEventPartitioner.run_windows M rd es hu
  have hcount : (windowsOf eff).length = N - 2 := by rw [hwl, hlen]; omega
  have hshape : ∀ j w, (windowsOf eff)[j]? = some w →
      w.v2 - w.v1 = P ∧ w.ft = j + 2 ∧ w.fn = j + 3 := by
    intro j w hj
    obtain ⟨x0, x1, x2, x3, _, g1, g2, g3, _, e1, e2, _, e4, e5⟩ := hwin j w hj
    obtain ⟨a1, _, _⟩ := hvs _ _ g1
    obtain ⟨a2, _, c2⟩ := hvs _ _ g2
    obtain ⟨_, _, c3⟩ := hvs _ _ g3
    refine ⟨?_, by rw [e4, c2], by rw [e5, c3]⟩
    rw [e2, e1, a2, a1]
    push_cast
    ring
  have hcnt := analyseWindows_uniform P hP (windowsOf eff)
    (fun j w hj => ⟨(hshape j w hj).1, (hshape j w hj).2.1⟩) (by rw [hcount]; omega)
  refine ⟨p, eff, hrun, hcount, ?_, ?_, ?_, ?_⟩
  · intro j hj
    exact (hcnt j (by rw [hcount]; exact hj)).1
  · intro j hj
    rw [(hcnt j (by rw [hcount]; exact hj)).1]
    exact ⟨fun h => by exact_mod_cast h, fun h => by exact_mod_cast h⟩
  · intro w hw
    exact (hshape 9 w hw).2.2
  · intro h12
    have h := (hcnt (windowsOf eff).length (le_refl _)).1
    rw [List.take_length] at h
    rw [h, hcount]
    have : (10 : Nat) ≤ N - 2 := by omega
    exact_mod_cast this

/-- Witness for claim C18: the sample stream of thirteen VSyncs, frame indices 0 to 12,
times 1 to 13, period 1. -/
theorem uniform_stream_stabilizes_witness :
    (0 : ℚ) ≤ 1 ∧ 12 < 4294967295 ∧
      (vsyncsOf EtwFrameListener.sampleEvents sampleReadDouble (sampleStream 13)).length =
        12 + 1 ∧
      (∀ (k : Nat) x,
        (vsyncsOf EtwFrameListener.sampleEvents sampleReadDouble (sampleStream 13))[k]? =
          some x →
        x.VSyncTime = 1 + (k : ℚ) * 1 ∧ x.VSyncTime ≠ 0 ∧ x.FrameIndex = k) ∧
      ∃ p effects,
        VSyncEventPartitioner.HandleEvents EtwFrameListener.sampleEvents sampleReadDouble
            VSyncEventPartitioner.ctor (sampleStream 13) = some (p, effects) ∧
        (windowsOf effects).length = 12 - 2 ∧
        (∀ j, j ≤ 12 - 2 →
          (analyseWindows 1 FrameCounters.initial
            ((windowsOf effects).take j)).numValidFrames = (j : Int)) ∧
        (∀ j, j ≤ 12 - 2 →
          ((analyseWindows 1 FrameCounters.initial
            ((windowsOf effects).take j)).numValidFrames ≥ 10 ↔ 10 ≤ j)) ∧
        (∀ w, (windowsOf effects)[9]? = some w → w.fn = 12) ∧
        (12 ≤ 12 →
          (analyseWindows 1 FrameCounters.initial (windowsOf effects)).numValidFrames ≥
            10) :=
  ⟨by norm_num, by decide, sampleStream_vsyncs_length 13 (by decide),
    sampleStream_vsyncs_get 13 (by decide),
    uniform_stream_stabilizes EtwFrameListener.sampleEvents sampleReadDouble
      (sampleStream 13) 12 1 1 (by norm_num) (by decide)
      (sampleStream_vsyncs_length 13 (by decide)) (sampleStream_vsyncs_get 13 (by decide))⟩

/-! ## The listener: signals and start-up errors -/

namespace EtwFrameListener

/-- Claim C22, the code at a failing input. The listener is constructed with
`signalMessages = 1` and `WorkPending` clear, and two accepted records are written. The
first write, the `n`-th accepted event for `n = 1`, does not signal work; the second one
does, because `ProcessEvent` tests `EventsSinceLastSignal > NumEventsOnSignal`. -/
theorem ProcessEvent_signals_one_event_late :
    sampleListenerOne.NumEventsOnSignal = 1 ∧
      sampleListenerOne.WorkPending = false ∧
      (∀ p ∈ sampleRecords 2, accepted sampleEvents sampleListenerOne.EtwDataConv p) ∧
      (ProcessEvents sampleEvents sampleListenerOne (sampleRecords 1)).EventsSinceLastSignal =
        1 ∧
      (ProcessEvents sampleEvents sampleListenerOne (sampleRecords 1)).WorkPending = false ∧
      (ProcessEvents sampleEvents sampleListenerOne (sampleRecords 2)).WorkPending = true := by
  have hacc : ∀ n, ∀ p ∈ sampleRecords n,
      accepted sampleEvents sampleListenerOne.EtwDataConv p := sampleRecords_accepted
  refine ⟨rfl, rfl, hacc 2, ?_, ?_, ?_⟩
  · rw [ProcessEvents_accepted _ _ _ (hacc 1)]
    rw [(storeEvents_signal _ _).1, List.length_map, sampleRecords_length]
    rfl
  · rw [ProcessEvents_accepted _ _ _ (hacc 1)]
    rw [Bool.eq_false_iff]
    intro hc
    rw [(storeEvents_signal _ _).2.2, List.length_map, sampleRecords_length] at hc
    rcases hc with hc | hc
    · exact Bool.false_ne_true hc
    · exact absurd hc.2 (by decide)
  · rw [ProcessEvents_accepted _ _ _ (hacc 2)]
    rw [(storeEvents_signal _ _).2.2, List.length_map, sampleRecords_length]
    refine Or.inr ⟨?_, by decide⟩
    intro hc
    have := congrArg List.length hc
    rw [List.length_map, sampleRecords_length] at this
    exact absurd this (by decide)

/-- Claim C26, the code at a failing input. The listener has threshold 1. The second
accepted write signals work; the waiter takes the signal (`WaitUntilWorkAvailable` returns
true and clears `WorkPending`), and `EventsSinceLastSignal` is still 2 then: it is not
reset. The very next accepted write signals again, with one event written since the
signal, where the threshold asks for more than one. -/
theorem EventsSinceLastSignal_not_reset :
    (ProcessEvents sampleEvents sampleListenerOne (sampleRecords 2)).WorkPending = true ∧
      ∃ l', WaitUntilWorkAvailable
          (ProcessEvents sampleEvents sampleListenerOne (sampleRecords 2)) 0 = some (l', true) ∧
        l'.WorkPending = false ∧
        l'.EventsSinceLastSignal = 2 ∧
        l'.NumEventsOnSignal = 1 ∧
        accepted sampleEvents l'.EtwDataConv (sampleRecord 2) ∧
        (ProcessEvent sampleEvents l' (sampleRecord 2)).EventsSinceLastSignal = 3 ∧
        (ProcessEvent sampleEvents l' (sampleRecord 2)).WorkPending = true := by
  have hacc : ∀ p ∈ sampleRecords 2,
      accepted sampleEvents sampleListenerOne.EtwDataConv p := sampleRecords_accepted 2
  have hrun := ProcessEvents_accepted sampleEvents (sampleRecords 2) sampleListenerOne hacc
  obtain ⟨s1, s2, s3⟩ := storeEvents_signal
    ((sampleRecords 2).map (deserialized sampleEvents sampleListenerOne.EtwDataConv))
    sampleListenerOne
  obtain ⟨_, _, _, _, _, sconv⟩ := storeEvents_spec
    ((sampleRecords 2).map (deserialized sampleEvents sampleListenerOne.EtwDataConv))
    sampleListenerOne (ctor_Valid _ _ _ _ _)
  rw [← hrun] at s1 s2 s3 sconv
  rw [List.length_map, sampleRecords_length] at s1 s3
  have hpend : (ProcessEvents sampleEvents sampleListenerOne (sampleRecords 2)).WorkPending =
      true := by
    rw [s3]
    refine Or.inr ⟨?_, by decide⟩
    intro hc
    have := congrArg List.length hc
    rw [List.length_map, sampleRecords_length] at this
    exact absurd this (by decide)
  have hcount : (ProcessEvents sampleEvents sampleListenerOne
      (sampleRecords 2)).EventsSinceLastSignal = 2 := s1
  have haccept : accepted sampleEvents
      (ProcessEvents sampleEvents sampleListenerOne (sampleRecords 2)).EtwDataConv
      (sampleRecord 2) := by
    rw [sconv]
    exact sampleRecord_accepted 2
  obtain ⟨l', hwait, hp', hc', hn', hconv'⟩ := WaitUntilWorkAvailable_pending
    (ProcessEvents sampleEvents sampleListenerOne (sampleRecords 2)) 0 hpend
  have haccept' : accepted sampleEvents l'.EtwDataConv (sampleRecord 2) := by
    rw [hconv']
    exact haccept
  refine ⟨hpend, l', hwait, hp', hc'.trans hcount, hn'.trans s2, haccept', ?_, ?_⟩
  · rw [ProcessEvent_accepted _ _ _ haccept', (storeEvent_signal _ _).1, hc', hcount]
  · rw [ProcessEvent_accepted _ _ _ haccept', (storeEvent_signal _ _).2.2, hc', hcount, hn',
      s2]
    exact Or.inr (by decide)

/-- Claim C23, refuted as stated. The session starts, the providers are enumerated, one
provider is found and `EnableTraceEx2` fails for it with status 5: `startRealtimeTracing`
returns true, and the one error in the listener's error list has the code
`ovrError_EtwListenerRuntime = -91002`, not `ovrError_EtwListenerInitialize = -91001`. -/
theorem enableProvider_failure_counterexample :
    ovrError_EtwListenerInitialize = -91001 ∧
      ∃ l', startRealtimeTracing sampleListener sampleEnableFails = some (l', true) ∧
        l'.Errors = [{ code := -91002, desc := "EnableTrace failed: 5" }] :=
  ⟨rfl, _, rfl, rfl⟩

/-- Claim C23, amended, with every path of `startRealtimeTracing`; `status` is what the
last `StartTraceW` returned. If the session does not start, the one error recorded has
the code `ovrError_EtwListenerInitialize = -91001` and the method returns false. If it
starts and `findOVRProviders` returns an error, that error is recorded, it has the code
`ovrError_EtwListenerRuntime = -91002`, and the method returns false. If it starts and
the providers are enumerated, one error is recorded for every provider for which
`EnableTraceEx2` returns a status other than `ERROR_SUCCESS`, in order, each with the code
`ovrError_EtwListenerRuntime = -91002` and the description "EnableTrace failed: " followed
by the status; these failures do not abort start-up, which then fails only if `OpenTraceW`
does, with an error of code `ovrError_EtwListenerInitialize`. -/
theorem startRealtimeTracing_enable_errors (l : EtwFrameListener) (os : TraceAnswers)
    (err : EtwListenerError)
    (hfind : findOVRProviders os.enumerate os.enumerateAgain = some err) :
    ((if os.startTrace = ERROR_ALREADY_EXISTS then os.startTraceAgain else os.startTrace) ≠
        ERROR_SUCCESS →
      ∃ l', startRealtimeTracing l os = some (l', false) ∧
        l'.Errors = l.Errors ++
          [{ code := -91001
             desc := "Failed to start tracing: " ++
              toString (if os.startTrace = ERROR_ALREADY_EXISTS then os.startTraceAgain
                else os.startTrace) }]) ∧
      ((if os.startTrace = ERROR_ALREADY_EXISTS then os.startTraceAgain else os.startTrace) =
          ERROR_SUCCESS → err.Succeeded = false →
        err.code = -91002 ∧
          ∃ l', startRealtimeTracing l os = some (l', false) ∧
            l'.Errors = l.Errors ++ [err]) ∧
      ((if os.startTrace = ERROR_ALREADY_EXISTS then os.startTraceAgain else os.startTrace) =
          ERROR_SUCCESS → err.Succeeded = true →
        ∃ l', startRealtimeTracing l os = some (l', os.openTraceValid) ∧
          l'.Errors =
            l.Errors ++
              (os.enableTrace.filter (fun s => decide (s ≠ ERROR_SUCCESS))).map
                (fun s =>
                  ({ code := -91002, desc := "EnableTrace failed: " ++ toString s } :
                    EtwListenerError)) ++
              (if os.openTraceValid then []
                else [{ code := -91001, desc := "Consumer failed to OpenTrace" }])) := by
  refine ⟨fun hstart => ?_, fun hstart hfail => ?_, fun hstart hok => ?_⟩
  · exact ⟨_, startRealtimeTracing_not_started l os hstart, rfl⟩
  · constructor
    · rcases findOVRProviders_code _ _ _ hfind with h | h
      · rw [h] at hfail
        exact absurd hfail (by decide)
      · exact h
    · refine ⟨l.pushError err, ?_, rfl⟩
      rw [startRealtimeTracing_started l os err hstart hfind, hfail]
      rfl
  · rw [startRealtimeTracing_started l os err hstart hfind, hok]
    cases hopen : os.openTraceValid with
    | false =>
      refine ⟨_, rfl, ?_⟩
      show (enableProviders l os.enableTrace).Errors ++ [_] = _
      rw [enableProviders_Errors]
      rfl
    | true =>
      refine ⟨_, rfl, ?_⟩
      rw [enableProviders_Errors]
      simp

/-- Witness for claim C23, amended: the sample answers, one provider failing with
status 5. -/
theorem startRealtimeTracing_enable_errors_witness :
    findOVRProviders sampleEnableFails.enumerate sampleEnableFails.enumerateAgain =
        some EtwListenerError.ctor ∧
      (if sampleEnableFails.startTrace = ERROR_ALREADY_EXISTS then
          sampleEnableFails.startTraceAgain
        else sampleEnableFails.startTrace) = ERROR_SUCCESS ∧
      EtwListenerError.ctor.Succeeded = true ∧
      ∃ l', startRealtimeTracing sampleListener sampleEnableFails =
          some (l', sampleEnableFails.openTraceValid) ∧
        l'.Errors =
          sampleListener.Errors ++
            (sampleEnableFails.enableTrace.filter (fun s => decide (s ≠ ERROR_SUCCESS))).map
              (fun s =>
                ({ code := -91002, desc := "EnableTrace failed: " ++ toString s } :
                  EtwListenerError)) ++
            (if sampleEnableFails.openTraceValid then []
              else [{ code := -91001, desc := "Consumer failed to OpenTrace" }]) :=
  ⟨rfl, rfl, rfl,
    (startRealtimeTracing_enable_errors sampleListener sampleEnableFails
      EtwListenerError.ctor rfl).2.2 rfl rfl⟩

end EtwFrameListener

/-! ## The listener: invariants of writes and drains -/

namespace EtwFrameListener

/-- Claim C24. In every listener state that the constructor, `ProcessEvent` writes and
`HandleEvents` drains produce, `StoredEventIndex` and `UnprocessedEventsIndex` lie in
`[0, 1900)`, and the unread count `(StoredEventIndex - UnprocessedEventsIndex) mod 1900`
does not exceed the capacity 1900. -/
theorem Reachable_cursors_in_range (M : LibOVREvents) (l : EtwFrameListener)
    (h : Reachable M l) :
    l.StoredEventIndex < 1900 ∧ l.UnprocessedEventsIndex < 1900 ∧
      ((l.StoredEventIndex : Int) - (l.UnprocessedEventsIndex : Int)) % 1900 =
        (unread l : Int) ∧
      unread l ≤ 1900 := by
  have hv := Reachable_Valid M l h
  have hu := unread_lt l
  unfold Valid at hv
  unfold unread at hu ⊢
  simp only [NumStoredEvents] at *
  refine ⟨hv.1, hv.2, ?_, by omega⟩
  omega

/-- Witness for claim C24: the sample listener after five writes. -/
theorem Reachable_cursors_in_range_witness :
    Reachable sampleEvents (sampleWritten 5) ∧
      (sampleWritten 5).StoredEventIndex < 1900 ∧
      (sampleWritten 5).UnprocessedEventsIndex < 1900 ∧
      (((sampleWritten 5).StoredEventIndex : Int) -
          ((sampleWritten 5).UnprocessedEventsIndex : Int)) % 1900 =
        (unread (sampleWritten 5) : Int) ∧
      unread (sampleWritten 5) ≤ 1900 :=
  ⟨Reachable_ProcessEvents _ _ _ (Reachable.ctor 10000000 50 [] false),
    Reachable_cursors_in_range sampleEvents (sampleWritten 5)
      (Reachable_ProcessEvents _ _ _ (Reachable.ctor 10000000 50 [] false))⟩

/-- Claim C28. In every listener state that writes and drains produce, the unread count is
at most `NumStoredEvents - 1 = 1899`, and `NumLostEvents` is greater than 0 only where
the unread count is exactly 1899. -/
theorem Reachable_one_slot_free (M : LibOVREvents) (l : EtwFrameListener)
    (h : Reachable M l) :
    unread l ≤ NumStoredEvents - 1 ∧ NumStoredEvents - 1 = 1899 ∧
      (l.NumLostEvents > 0 → unread l = 1899) := by
  have hu := unread_lt l
  refine ⟨by omega, rfl, Reachable_lost M l h⟩

/-- Witness for claim C28: the sample listener after 1901 writes, a state with lost
events. -/
theorem Reachable_one_slot_free_witness :
    Reachable sampleEvents (sampleWritten 1901) ∧
      unread (sampleWritten 1901) ≤ NumStoredEvents - 1 ∧ NumStoredEvents - 1 = 1899 ∧
      ((sampleWritten 1901).NumLostEvents > 0 → unread (sampleWritten 1901) = 1899) :=
  ⟨Reachable_ProcessEvents _ _ _ (Reachable.ctor 10000000 50 [] false),
    Reachable_one_slot_free sampleEvents (sampleWritten 1901)
      (Reachable_ProcessEvents _ _ _ (Reachable.ctor 10000000 50 [] false))⟩

/-- Claim C27. Whatever sequence of `ProcessEvent` writes and `HandleEvents` drains is
run on a freshly constructed listener, every drain returns, the errors pushed are
`LostEvents` errors with counts `ks`, and the number of accepted records equals the number
of events delivered to handlers, plus the sum of the counts `ks`, plus the current
`NumLostEvents`, plus the current unread count. -/
theorem runCalls_event_conservation (M : LibOVREvents) (freq : Nat) (signalMessages : Int)
    (startupErrors : List EtwListenerError) (workPending : Bool)
    (calls : List ListenerCall) :
    ∃ l effects,
      runCalls M (EtwFrameListener.ctor M freq signalMessages startupErrors workPending)
        calls = some (l, effects) ∧
      ∃ ks : List Nat, pushedErrors effects = ks.map lostEventsError ∧
        acceptedWrites M (EtwEventDataConv.ctor M freq) calls =
          (handlerCalls effects).flatten.length + ks.sum + l.NumLostEvents + unread l := by
  obtain ⟨l, eff, hrun, ks, hks, heq⟩ := runCalls_conserves M calls
    (EtwFrameListener.ctor M freq signalMessages startupErrors workPending)
    (ctor_Valid M _ _ _ _)
  refine ⟨l, eff, hrun, ks, hks, ?_⟩
  have h0 := ctor_unread M freq signalMessages startupErrors workPending
  rw [h0] at heq
  have hl : (EtwFrameListener.ctor M freq signalMessages startupErrors
      workPending).NumLostEvents = 0 := rfl
  have hc : (EtwFrameListener.ctor M freq signalMessages startupErrors
      workPending).EtwDataConv = EtwEventDataConv.ctor M freq := rfl
  rw [hl, hc] at heq
  omega

end EtwFrameListener

/-! ## The partitioner: the pair ring and the size of the event list -/

namespace VSyncEventPartitioner

/-- Claim C25, refuted as stated. Two VSync events with payload times 0 and 1 reach a fresh
partitioner. The second one is not the very first VSync, yet it forms no pair: the
remembered time is still the marker 0.0, and slot 0 of the pair ring holds the default
pair afterwards instead of the pair (0, 1, 1). -/
theorem second_vsync_without_pair :
    (etwGetVSyncData sampleReadDouble (sampleVSync 0 0)).VSyncTime = 0 ∧
      ∃ p effects,
        HandleEvents EtwFrameListener.sampleEvents sampleReadDouble
            VSyncEventPartitioner.ctor [sampleVSync 0 0, sampleVSync 1 1] =
          some (p, effects) ∧
        p.StoredVSyncPairs 0 = VSyncPair.ctor ∧
        p.StoredVSyncPairs 0 ≠ { vsyncBegin := 0, vsyncEnd := 1, frameIndex := 1 } := by
  have hd0 := sampleVSync_data 0 0 (by decide)
  have ht0 : (etwGetVSyncData sampleReadDouble (sampleVSync 0 0)).VSyncTime = 0 := by
    rw [hd0]
    exact Nat.cast_zero
  refine ⟨ht0, ?_⟩
  obtain ⟨p1, eff1, p2, eff2, h1, _, h3, _, _, hzero, _⟩ :=
    vsync_pair_step EtwFrameListener.sampleEvents sampleReadDouble [] (sampleVSync 0 0)
      (sampleVSync_isVSync 0 0)
  cases h1
  obtain ⟨hpairs2, _⟩ := hzero rfl
  obtain ⟨q1, f1, q2, f2, g1, _, g3, glast, _, gzero, _⟩ :=
    vsync_pair_step EtwFrameListener.sampleEvents sampleReadDouble [sampleVSync 0 0]
      (sampleVSync 1 1) (sampleVSync_isVSync 1 1)
  have hinj := Option.some.inj (h3.symm.trans g1)
  have hq : p2 = q1 := congrArg Prod.fst hinj
  subst hq
  have hlast0 : p2.LastVSyncTime = 0 := by
    rw [glast, vsyncsOf_single_vsync _ _ _ (sampleVSync_isVSync 0 0)]
    exact ht0
  obtain ⟨hpairs3, _⟩ := gzero hlast0
  have hslot : q2.StoredVSyncPairs 0 = VSyncPair.ctor := by
    rw [hpairs3, hpairs2]
    rfl
  refine ⟨q2, _, g3, hslot, ?_⟩
  rw [hslot]
  intro hc
  have := congrArg VSyncPair.frameIndex hc
  exact absurd this (by decide)

/-- Claim C25, amended. A stream fed to a fresh partitioner ends in the VSync event `e`
with payload time `t` and frame index `f`. The run returns. The partitioner remembers the
payload time of the last VSync before `e`, or 0.0 if there was none. If the remembered
time is 0.0 (at the very first VSync, and at a VSync that follows one with payload time
0.0), `e` is recorded without forming a pair: the pair ring stays as it is and no callback
is made. Otherwise `e` pushes exactly one pair (remembered time, `t`, `f` as `int32_t`)
onto the front of the pair ring: the former front pair moves to the middle slot and the
former middle pair to the oldest slot. In both cases `t` is remembered. -/
theorem handleVSync_pushes_pair (M : LibOVREvents) (rd : List Nat → ℚ)
    (pre : List EtwEvent) (e : EtwEvent) (he : isVSync M e = true) :
    ∃ p1 eff1 p2 eff2,
      HandleEvents M rd VSyncEventPartitioner.ctor pre = some (p1, eff1) ∧
      handleEvent M rd p1 e = some (p2, eff2) ∧
      HandleEvents M rd VSyncEventPartitioner.ctor (pre ++ [e]) = some (p2, eff1 ++ eff2) ∧
      p1.LastVSyncTime =
        ((vsyncsOf M rd pre).getLast?.map EtwData_VSync.VSyncTime).getD 0 ∧
      p2.LastVSyncTime = (etwGetVSyncData rd e).VSyncTime ∧
      (p1.LastVSyncTime = 0 → p2.StoredVSyncPairs = p1.StoredVSyncPairs ∧ eff2 = []) ∧
      (p1.LastVSyncTime ≠ 0 →
        p2.StoredVSyncPairs 0 =
          { vsyncBegin := p1.LastVSyncTime
            vsyncEnd := (etwGetVSyncData rd e).VSyncTime
            frameIndex := toInt32 ((etwGetVSyncData rd e).FrameIndex : Int) } ∧
        p2.StoredVSyncPairs 1 = p1.StoredVSyncPairs 0 ∧
        p2.StoredVSyncPairs 2 = p1.StoredVSyncPairs 1) :=
  vsync_pair_step M rd pre e he

/-- Witness for claim C25, amended: the sample stream of two VSyncs followed by a
third. -/
theorem handleVSync_pushes_pair_witness :
    isVSync EtwFrameListener.sampleEvents (sampleVSync 3 2) = true ∧
      ∃ p1 eff1 p2 eff2,
        HandleEvents EtwFrameListener.sampleEvents sampleReadDouble
            VSyncEventPartitioner.ctor (sampleStream 2) = some (p1, eff1) ∧
        handleEvent EtwFrameListener.sampleEvents sampleReadDouble p1 (sampleVSync 3 2) =
          some (p2, eff2) ∧
        HandleEvents EtwFrameListener.sampleEvents sampleReadDouble
            VSyncEventPartitioner.ctor (sampleStream 2 ++ [sampleVSync 3 2]) =
          some (p2, eff1 ++ eff2) ∧
        p1.LastVSyncTime =
          ((vsyncsOf EtwFrameListener.sampleEvents sampleReadDouble
            (sampleStream 2)).getLast?.map EtwData_VSync.VSyncTime).getD 0 ∧
        p2.LastVSyncTime = (etwGetVSyncData sampleReadDouble (sampleVSync 3 2)).VSyncTime ∧
        (p1.LastVSyncTime = 0 → p2.StoredVSyncPairs = p1.StoredVSyncPairs ∧ eff2 = []) ∧
        (p1.LastVSyncTime ≠ 0 →
          p2.StoredVSyncPairs 0 =
            { vsyncBegin := p1.LastVSyncTime
              vsyncEnd := (etwGetVSyncData sampleReadDouble (sampleVSync 3 2)).VSyncTime
              frameIndex :=
                toInt32 ((etwGetVSyncData sampleReadDouble (sampleVSync 3 2)).FrameIndex :
                  Int) } ∧
          p2.StoredVSyncPairs 1 = p1.StoredVSyncPairs 0 ∧
          p2.StoredVSyncPairs 2 = p1.StoredVSyncPairs 1) :=
  ⟨sampleVSync_isVSync 3 2,
    handleVSync_pushes_pair EtwFrameListener.sampleEvents sampleReadDouble (sampleStream 2)
      (sampleVSync 3 2) (sampleVSync_isVSync 3 2)⟩

/-- Claim C30. In every partitioner state whose write index is in range, `buildEventList`
with `outSize = 2048` returns: when the ring is not empty its loop ends within
`NumStoredEvents - 1 = 2047` passes, it returns at most 2047 events, and the branch that
prints "Increase intermediate event list size" is not taken. Hence no pass of
`HandleEvents`, from any state, prints that diagnostic. -/
theorem buildEventList_never_truncates (p : VSyncEventPartitioner)
    (hS : p.StoredEventIndex < NumStoredEvents) (begin_ end_ : ℚ) :
    (∃ first r, p.getIndexOfFirstEvent = some first ∧
        p.buildEventList 2048 begin_ end_ = some r ∧
        (first ≠ p.StoredEventIndex →
          buildEventListLoop p.StoredEvents p.StoredEventIndex 2048 begin_ end_
            (NumStoredEvents - 1) first 0 = some r) ∧
        r.1.length ≤ 2047 ∧ r.2 = false) ∧
      ∀ (M : LibOVREvents) (rd : List Nat → ℚ) (q : VSyncEventPartitioner) (e : EtwEvent)
        (q2 : VSyncEventPartitioner) (eff2 : List PartitionerEffect),
        handleEvent M rd q e = some (q2, eff2) →
          PartitionerEffect.printfIncreaseSize ∉ eff2 := by
  have hbuild : ∀ (q : VSyncEventPartitioner), q.StoredEventIndex < NumStoredEvents →
      ∀ (b e : ℚ), ∃ first r, q.getIndexOfFirstEvent = some first ∧
        q.buildEventList 2048 b e = some r ∧
        (first ≠ q.StoredEventIndex →
          buildEventListLoop q.StoredEvents q.StoredEventIndex 2048 b e
            (NumStoredEvents - 1) first 0 = some r) ∧
        r.1.length ≤ 2047 ∧ r.2 = false := by
    intro q hq b e
    have h0 : ((q.StoredEventIndex + 1) % NumStoredEvents) < NumStoredEvents :=
      Nat.mod_lt _ (by decide)
    obtain ⟨first, hfirst, hlt⟩ := getIndexOfFirstEventLoop_some q.StoredEvents
      q.StoredEventIndex hq NumStoredEvents _ h0 (by simp only [NumStoredEvents] at *; omega)
    have hfirst' : q.getIndexOfFirstEvent = some first := hfirst
    by_cases h : first = q.StoredEventIndex
    · refine ⟨first, ([], false), hfirst', ?_, fun hc => absurd h hc, Nat.zero_le _, rfl⟩
      unfold buildEventList
      rw [hfirst']
      dsimp only
      rw [if_pos h]
    · have hd : (q.StoredEventIndex + NumStoredEvents - first) % NumStoredEvents ≤
          NumStoredEvents - 1 := by
        simp only [NumStoredEvents] at *; omega
      obtain ⟨r, hr, hlen, hflag⟩ := buildEventListLoop_bound q.StoredEvents
        q.StoredEventIndex hq 2048 b e (NumStoredEvents - 1) first 0 hlt hd
        (by simp only [NumStoredEvents] at *; omega)
      refine ⟨first, r, hfirst', ?_, fun _ => hr, ?_, hflag⟩
      · unfold buildEventList
        rw [hfirst']
        dsimp only
        rw [if_neg h, ← hr]
        exact buildEventListLoop_fuel q.StoredEvents q.StoredEventIndex hq 2048 b e
          NumStoredEvents (NumStoredEvents - 1) first 0 hlt
          (by simp only [NumStoredEvents] at *; omega) hd
      · simp only [NumStoredEvents] at *; omega
  refine ⟨hbuild p hS begin_ end_, ?_⟩
  intro M rd q e q2 eff2 hrun hc
  obtain ⟨_, hi⟩ := handleEvent_windows M rd q e q2 eff2 hrun
  obtain ⟨b, e', r, hr, hr2⟩ := hi hc
  obtain ⟨_, r0, _, hr0, _, _, hflag⟩ := hbuild (q.storeEvent e) (storeEvent_lt q e) b e'
  rw [hr] at hr0
  cases hr0
  rw [hflag] at hr2
  exact Bool.false_ne_true hr2

/-- Witness for claim C30: the fresh partitioner after one event was stored. -/
theorem buildEventList_never_truncates_witness :
    (VSyncEventPartitioner.ctor.storeEvent (sampleVSync 1 0)).StoredEventIndex <
        NumStoredEvents ∧
      (∃ first r,
        (VSyncEventPartitioner.ctor.storeEvent (sampleVSync 1 0)).getIndexOfFirstEvent =
          some first ∧
        (VSyncEventPartitioner.ctor.storeEvent (sampleVSync 1 0)).buildEventList 2048 0 1 =
          some r ∧
        (first ≠ (VSyncEventPartitioner.ctor.storeEvent (sampleVSync 1 0)).StoredEventIndex →
          buildEventListLoop
            (VSyncEventPartitioner.ctor.storeEvent (sampleVSync 1 0)).StoredEvents
            (VSyncEventPartitioner.ctor.storeEvent (sampleVSync 1 0)).StoredEventIndex
            2048 0 1 (NumStoredEvents - 1) first 0 = some r) ∧
        r.1.length ≤ 2047 ∧ r.2 = false) ∧
      ∀ (M : LibOVREvents) (rd : List Nat → ℚ) (q : VSyncEventPartitioner) (e : EtwEvent)
        (q2 : VSyncEventPartitioner) (eff2 : List PartitionerEffect),
        handleEvent M rd q e = some (q2, eff2) →
          PartitionerEffect.printfIncreaseSize ∉ eff2 :=
  ⟨storeEvent_lt _ _,
    buildEventList_never_truncates (VSyncEventPartitioner.ctor.storeEvent (sampleVSync 1 0))
      (storeEvent_lt _ _) 0 1⟩

end VSyncEventPartitioner

/-! ## The searches: the right-hand search and the recursion -/

/-- Claim C21, the code at failing inputs. For the sorted array with times 1, 2 and the
time 1, which does not exceed the last time, `etwFindRightEvent` returns the pointer to
`events[1]` (time 2) although `events[0]` has the time sought: the case `numEvents == 2`
looks at `events[1]` only. For the sorted array with times 1, 1, 1, 1, 1, 1, 3 and the
time 2 the search reads beyond the array, because the right-hand recursion passes the
count `(numEvents - index) + 1`. -/
theorem etwFindRightEvent_misses_first_element :
    (1 : ℚ) ≤ (sampleTimed 2).EventTime ∧
      (sampleTimed 1).EventTime = 1 ∧
      etwFindRightEvent 1 [sampleTimed 1, sampleTimed 2] = some (FindResult.element 1) ∧
      (2 : ℚ) ≤ (sampleTimed 3).EventTime ∧
      etwFindRightEvent 2
          [sampleTimed 1, sampleTimed 1, sampleTimed 1, sampleTimed 1, sampleTimed 1,
            sampleTimed 1, sampleTimed 3] = some FindResult.outOfBounds := by
  refine ⟨?_, rfl, ?_, ?_, ?_⟩
  · simp only [sampleTimed]
    norm_num
  · unfold etwFindRightEvent
    simp [etwFindRightEventAux, sampleTimed]
  · simp only [sampleTimed]
    norm_num
  · unfold etwFindRightEvent
    simp [etwFindRightEventAux, sampleTimed]

/-- Claim C29, the code at a failing input. For the array with times 1, 2, 3 and the time
5, the call of `etwFindLeftEvent` with `numEvents = 3` makes its recursive call on
`&events[1]` with `numEvents = 3` again, and so does `etwFindRightEvent`:
`numEvents - numEvents / 2 + 1` is not less than `numEvents` for `numEvents = 3`. The call
after that starts at `&events[2]`, still with count 3. -/
theorem search_recursion_keeps_count :
    etwFindLeftEventCall 5 [sampleTimed 1, sampleTimed 2, sampleTimed 3] 0 3 = some (1, 3) ∧
      etwFindLeftEventCall 5 [sampleTimed 1, sampleTimed 2, sampleTimed 3] 1 3 =
        some (2, 3) ∧
      etwFindRightEventCall 5 [sampleTimed 1, sampleTimed 2, sampleTimed 3] 0 3 =
        some (1, 3) ∧
      etwFindRightEventCall 5 [sampleTimed 1, sampleTimed 2, sampleTimed 3] 1 3 =
        some (2, 3) ∧
      ¬ (3 - 3 / 2 + 1 < 3) := by
  refine ⟨?_, ?_, ?_, ?_, by decide⟩
  · simp [etwFindLeftEventCall, sampleTimed]
    norm_num
  · simp [etwFindLeftEventCall, sampleTimed]
    norm_num
  · simp [etwFindRightEventCall, sampleTimed]
    norm_num
  · simp [etwFindRightEventCall, sampleTimed]
    norm_num

/-! ## The stabilization callback: the streak of valid frames -/

end OVR.Etw
